import Mathlib

/-!
# Verification of the function-level diff generator (`src/mcp/diffops.py`)

This file gives a shallow embedding of the diff machinery of
`FuncLevelDiffGenerator` and proves/refutes the frozen claims about it.

The program code calls into three external components whose behaviour the
claims depend on:

* `difflib.unified_diff` (CPython standard library) — embedded faithfully
  below (`SequenceMatcher` with `isjunk=None`, `autojunk=True`, which is how
  `unified_diff` constructs it).  The queue-plus-sort of
  `get_matching_blocks` is rendered as a recursion that enumerates the same
  blocks in their sorted order.
* `unidiff.PatchSet` — embedded below at the fidelity the claims need
  (file headers, hunk headers, hunk-body consumption with the
  longer/shorter-than-expected errors).
* `tree_sitter` parsers and `git` repositories — treated as oracles: the
  function-span lists and the per-commit file/diff tables are parameters of
  the embedded functions, exactly as the claims quantify over them.

Machine integers do not occur (Python ints are unbounded; all quantities
here are natural numbers, and every subtraction that Python performs on a
possibly-smaller number is guarded in the source the same way it is here).
-/

namespace Diffops

/-- Decidable equality on `Except`, so concrete runs of the embedded
fallible operations can be checked by `decide`. -/
instance {ε α : Type} [DecidableEq ε] [DecidableEq α] : DecidableEq (Except ε α) :=
  fun x y =>
    match x, y with
    | .error a, .error b => decidable_of_iff (a = b) (by simp)
    | .ok a, .ok b => decidable_of_iff (a = b) (by simp)
    | .error _, .ok _ => Decidable.isFalse (fun hc => Except.noConfusion hc)
    | .ok _, .error _ => Decidable.isFalse (fun hc => Except.noConfusion hc)

/-! ## Python string primitives -/

/-- The characters `str.splitlines` treats as line boundaries
(CPython unicode line-break set). -/
def isLineBreakChar (c : Char) : Bool :=
  c = '\n' || c = '\r' || c = '\x0b' || c = '\x0c' ||
  c = '\x1c' || c = '\x1d' || c = '\x1e' ||
  c = '\x85' || c = ' ' || c = ' '

/-- Core of `str.splitlines(keepends=True)` over a character list.
`acc` holds the (reversed) characters of the line being scanned. -/
def splitlinesAux : List Char → List Char → List (List Char)
  | [], acc => if acc.isEmpty then [] else [acc.reverse]
  | [c], acc =>
    if isLineBreakChar c then [acc.reverse ++ [c]] else [(c :: acc).reverse]
  | c :: d :: rest, acc =>
    if c = '\r' ∧ d = '\n' then (acc.reverse ++ [c, d]) :: splitlinesAux rest []
    else if isLineBreakChar c then (acc.reverse ++ [c]) :: splitlinesAux (d :: rest) []
    else splitlinesAux (d :: rest) (c :: acc)

/-- Python `str.splitlines(keepends=True)`. -/
def pySplitlines (s : String) : List String :=
  (splitlinesAux s.data []).map String.mk

/-- Python string slicing `s[i:j]` (by code points, clamped, `0 ≤ i ≤ j`). -/
def pySliceStr (s : String) (i j : Nat) : String :=
  String.mk ((s.data.drop i).take (j - i))

/-- Python list slicing `l[i:j]` for `0 ≤ i ≤ j` (clamped at the ends). -/
def pySlice {α : Type} (l : List α) (i j : Nat) : List α :=
  (l.drop i).take (j - i)

/-- Characters Python's `str.strip()` removes (`str.isspace`). -/
def isPySpace (c : Char) : Bool :=
  c = ' ' || c = '\t' || c = '\n' || c = '\r' || c = '\x0b' || c = '\x0c' ||
  c = '\x1c' || c = '\x1d' || c = '\x1e' || c = '\x1f' ||
  c = '\x85' || c = '\xa0' || c.isWhitespace

/-- Python `str.strip()`. -/
def pyStrip (s : String) : String :=
  String.mk (((s.data.dropWhile isPySpace).reverse.dropWhile isPySpace).reverse)

/-! ## `difflib.SequenceMatcher(None, a, b)` (as used by `unified_diff`)

`unified_diff` constructs the matcher with `isjunk=None` and the default
`autojunk=True`, so `bjunk` is empty; the two junk-extension loops of
`find_longest_match` never execute and are omitted.  The popularity filter
(`autojunk`) on `b2j` is kept. -/

/-- The ascending list of indices at which `x` occurs in `b`
(the `b2j` chains before the popularity purge). -/
def indicesOf (b : List String) (x : String) : List Nat :=
  (List.range b.length).filter (fun j => b.getD j "" = x)

/-- `__chain_b`'s popularity test: with `autojunk` and `len(b) >= 200`,
elements occurring more than `len(b) // 100 + 1` times are purged. -/
def isPopular (b : List String) (x : String) : Bool :=
  200 ≤ b.length && b.length / 100 + 1 < (indicesOf b x).length

/-- `b2j.get(x, [])` after the purge of popular elements. -/
def b2j (b : List String) (x : String) : List Nat :=
  if isPopular b x then [] else indicesOf b x

/-- The `j` values actually visited for row `i` of `find_longest_match`'s
inner loop: members of `b2j` within `[blo, bhi)` (the `continue`/`break`
guards; `b2j` chains are ascending, so the `break` equals this filter). -/
def validJ (a b : List String) (blo bhi i : Nat) : List Nat :=
  (b2j b (a.getD i "")).filter (fun j => decide (blo ≤ j ∧ j < bhi))

/-- `newj2len[j]` as computed while scanning row `i`: the length of the
matching run ending at `(i, j)` through surviving `b2j` entries.  Reading
`j2len.get(j-1, 0)` from the previous row is the guarded recursion. -/
def runLen (a b : List String) (alo blo bhi : Nat) : Nat → Nat → Nat
  | i, j =>
    if j ∈ validJ a b blo bhi i then
      (match i, j with
       | i' + 1, j' + 1 =>
         if alo < i' + 1 ∧ blo < j' + 1 then runLen a b alo blo bhi i' j' else 0
       | _, _ => 0) + 1
    else 0

/-- State update of the best-match scan: a strictly larger run length
replaces the current best (`besti, bestj, bestsize = i-k+1, j-k+1, k`). -/
def dpUpd (a b : List String) (alo blo bhi : Nat)
    (st : Nat × Nat × Nat) (i j : Nat) : Nat × Nat × Nat :=
  let k := runLen a b alo blo bhi i j
  if st.2.2 < k then (i + 1 - k, j + 1 - k, k) else st

/-- The double loop of `find_longest_match` before the extension phases:
rows `alo ≤ i < ahi`, then the surviving `j`s in ascending order. -/
def dpBest (a b : List String) (alo ahi blo bhi : Nat) : Nat × Nat × Nat :=
  (List.range' alo (ahi - alo)).foldl
    (fun st i => (validJ a b blo bhi i).foldl (fun st j => dpUpd a b alo blo bhi st i j) st)
    (alo, blo, 0)

/-- Backward extension (`while besti > alo and bestj > blo and ... a[besti-1] == b[bestj-1]`;
the junk test is vacuous for `isjunk=None`).  Fuel `i - alo` bounds the loop
exactly: when it runs out the guard is false as well. -/
def extendBack (a b : List String) (alo blo : Nat) : Nat → Nat → Nat → Nat
  | _, _, 0 => 0
  | i, j, fuel + 1 =>
    if alo < i ∧ blo < j ∧ a.getD (i - 1) "" = b.getD (j - 1) "" then
      extendBack a b alo blo (i - 1) (j - 1) fuel + 1
    else 0

/-- Forward extension of the best match. -/
def extendFwd (a b : List String) (ahi bhi : Nat) : Nat → Nat → Nat → Nat
  | _, _, 0 => 0
  | i, j, fuel + 1 =>
    if i < ahi ∧ j < bhi ∧ a.getD i "" = b.getD j "" then
      extendFwd a b ahi bhi (i + 1) (j + 1) fuel + 1
    else 0

/-- `find_longest_match(alo, ahi, blo, bhi)`. -/
def flm (a b : List String) (alo ahi blo bhi : Nat) : Nat × Nat × Nat :=
  let d := dpBest a b alo ahi blo bhi
  let eb := extendBack a b alo blo d.1 d.2.1 d.1
  let i1 := d.1 - eb
  let j1 := d.2.1 - eb
  let s1 := d.2.2 + eb
  let ef := extendFwd a b ahi bhi (i1 + s1) (j1 + s1) (ahi - (i1 + s1))
  (i1, j1, s1 + ef)

/-- The recursive block search of `get_matching_blocks` (the Python queue
processes independent rectangles; enumerating them in recursion order
yields the list already sorted, which is what the `sort()` produces).
Fuel dominates the rectangle perimeter, so it never runs out when seeded
with `la + lb + 1`. -/
def mblocksF (a b : List String) : Nat → Nat → Nat → Nat → Nat → List (Nat × Nat × Nat)
  | 0, _, _, _, _ => []
  | fuel + 1, alo, ahi, blo, bhi =>
    match flm a b alo ahi blo bhi with
    | (i, j, k) =>
      if k = 0 then []
      else
        (if alo < i ∧ blo < j then mblocksF a b fuel alo i blo j else [])
        ++ [(i, j, k)] ++
        (if i + k < ahi ∧ j + k < bhi then mblocksF a b fuel (i + k) ahi (j + k) bhi else [])

/-- The adjacent-block merge at the end of `get_matching_blocks`
(initial state `i1 = j1 = k1 = 0`). -/
def collapseBlocks (i1 j1 k1 : Nat) : List (Nat × Nat × Nat) → List (Nat × Nat × Nat)
  | [] => if k1 ≠ 0 then [(i1, j1, k1)] else []
  | (i2, j2, k2) :: rest =>
    if i1 + k1 = i2 ∧ j1 + k1 = j2 then collapseBlocks i1 j1 (k1 + k2) rest
    else (if k1 ≠ 0 then [(i1, j1, k1)] else []) ++ collapseBlocks i2 j2 k2 rest

/-- `SequenceMatcher.get_matching_blocks()` including the `(la, lb, 0)` sentinel. -/
def get_matching_blocks (a b : List String) : List (Nat × Nat × Nat) :=
  collapseBlocks 0 0 0 (mblocksF a b (a.length + b.length + 1) 0 a.length 0 b.length)
    ++ [(a.length, b.length, 0)]

/-- Opcode tags of `get_opcodes`. -/
inductive DTag where
  | equal
  | replace
  | delete
  | insert
deriving DecidableEq, Repr, Inhabited

/-- One `(tag, i1, i2, j1, j2)` opcode. -/
structure Opcode where
  tag : DTag
  i1 : Nat
  i2 : Nat
  j1 : Nat
  j2 : Nat
deriving DecidableEq, Repr, Inhabited

/-- The loop of `get_opcodes` over the matching blocks, with the running
cursor `(i, j)`. -/
def opcodesFromBlocks : Nat → Nat → List (Nat × Nat × Nat) → List Opcode
  | _, _, [] => []
  | i, j, (ai, bj, size) :: rest =>
    (if i < ai ∧ j < bj then [⟨DTag.replace, i, ai, j, bj⟩]
     else if i < ai then [⟨DTag.delete, i, ai, j, bj⟩]
     else if j < bj then [⟨DTag.insert, i, ai, j, bj⟩]
     else [])
    ++ (if size ≠ 0 then [⟨DTag.equal, ai, ai + size, bj, bj + size⟩] else [])
    ++ opcodesFromBlocks (ai + size) (bj + size) rest

/-- `SequenceMatcher.get_opcodes()`. -/
def get_opcodes (a b : List String) : List Opcode :=
  opcodesFromBlocks 0 0 (get_matching_blocks a b)

/-- The leading-group fixup of `get_grouped_opcodes`
(`codes[0] = tag, max(i1, i2-n), i2, max(j1, j2-n), j2` when `equal`). -/
def fixupHead (n : Nat) : List Opcode → List Opcode
  | ⟨DTag.equal, i1, i2, j1, j2⟩ :: rest =>
    ⟨DTag.equal, max i1 (i2 - n), i2, max j1 (j2 - n), j2⟩ :: rest
  | codes => codes

/-- The trailing-group fixup of `get_grouped_opcodes`. -/
def fixupLast (n : Nat) : List Opcode → List Opcode
  | [] => []
  | [⟨DTag.equal, i1, i2, j1, j2⟩] =>
    [⟨DTag.equal, i1, min i2 (i1 + n), j1, min j2 (j1 + n)⟩]
  | [c] => [c]
  | c :: rest => c :: fixupLast n rest

/-- The grouping loop of `get_grouped_opcodes`: split at `equal` runs longer
than `2n`; a final group that is a single `equal` opcode is dropped. -/
def groupSplit (n : Nat) : List Opcode → List Opcode → List (List Opcode)
  | group, [] =>
    if group ≠ [] ∧ ¬(group.length = 1 ∧ (group.headD default).tag = DTag.equal) then
      [group]
    else []
  | group, c :: rest =>
    if c.tag = DTag.equal ∧ 2 * n < c.i2 - c.i1 then
      (group ++ [⟨c.tag, c.i1, min c.i2 (c.i1 + n), c.j1, min c.j2 (c.j1 + n)⟩]) ::
        groupSplit n [⟨c.tag, max c.i1 (c.i2 - n), c.i2, max c.j1 (c.j2 - n), c.j2⟩] rest
    else groupSplit n (group ++ [c]) rest

/-- `SequenceMatcher.get_grouped_opcodes(n)` (the empty-opcodes dummy is
`("equal", 0, 1, 0, 1)` as in CPython). -/
def get_grouped_opcodes (a b : List String) (n : Nat) : List (List Opcode) :=
  let codes := get_opcodes a b
  let codes := if codes = [] then [⟨DTag.equal, 0, 1, 0, 1⟩] else codes
  groupSplit n [] (fixupLast n (fixupHead n codes))

/-- Decimal digits of `n`, most significant first (`str(int)`); the fuel
`n + 1` always dominates the number of digits. -/
def natDigitsF : Nat → Nat → List Char
  | 0, _ => []
  | fuel + 1, n =>
    if n < 10 then [Char.ofNat (48 + n)]
    else natDigitsF fuel (n / 10) ++ [Char.ofNat (48 + n % 10)]

/-- Python `str(n)` for a natural number. -/
def natRepr (n : Nat) : String := String.mk (natDigitsF (n + 1) n)

/-- `difflib._format_range_unified`. -/
def format_range_unified (start stop : Nat) : String :=
  let beginning := start + 1
  let length := stop - start
  if length = 1 then natRepr beginning
  else natRepr (if length = 0 then beginning - 1 else beginning) ++ "," ++ natRepr length

/-- The body lines a single opcode contributes to a unified-diff group. -/
def renderOpcode (a b : List String) (c : Opcode) : List String :=
  match c.tag with
  | DTag.equal => (pySlice a c.i1 c.i2).map (fun l => " " ++ l)
  | DTag.replace =>
    (pySlice a c.i1 c.i2).map (fun l => "-" ++ l) ++ (pySlice b c.j1 c.j2).map (fun l => "+" ++ l)
  | DTag.delete => (pySlice a c.i1 c.i2).map (fun l => "-" ++ l)
  | DTag.insert => (pySlice b c.j1 c.j2).map (fun l => "+" ++ l)

/-- The body lines of a group as (marker, line) pairs: `renderOpcode` with
the one-character prefix split off (used to relate the rendered diff to the
hunk lines `unidiff` parses back out of it). -/
def renderPairs (a b : List String) (c : Opcode) : List (Char × String) :=
  match c.tag with
  | DTag.equal => (pySlice a c.i1 c.i2).map (fun l => (' ', l))
  | DTag.replace =>
    (pySlice a c.i1 c.i2).map (fun l => ('-', l))
      ++ (pySlice b c.j1 c.j2).map (fun l => ('+', l))
  | DTag.delete => (pySlice a c.i1 c.i2).map (fun l => ('-', l))
  | DTag.insert => (pySlice b c.j1 c.j2).map (fun l => ('+', l))

/-- One group of `unified_diff`'s output: the `@@` header then the body. -/
def renderGroup (a b : List String) (group : List Opcode) : List String :=
  ("@@ -" ++ format_range_unified (group.headD default).i1 (group.getLastD default).i2
    ++ " +" ++ format_range_unified (group.headD default).j1 (group.getLastD default).j2
    ++ " @@\n")
  :: group.flatMap (renderOpcode a b)

/-- `difflib.unified_diff(a, b, fromfile, tofile, n=n)` with the default
`lineterm='\n'` and empty dates, as the list of yielded strings. -/
def unified_diff (a b : List String) (fromfile tofile : String) (n : Nat) : List String :=
  match get_grouped_opcodes a b n with
  | [] => []
  | groups =>
    ("--- " ++ fromfile ++ "\n") :: ("+++ " ++ tofile ++ "\n")
      :: groups.flatMap (renderGroup a b)

/-! ## `FuncLevelDiffGenerator.generate_function_unified_diff` -/

/-- The output line list of `generate_function_unified_diff` before the
final `''.join`: `difflib.unified_diff` on the `splitlines(keepends=True)`
line lists with `n = max(len(pre_lines), len(post_lines))`. -/
def generate_function_unified_diff_lines (pre_text post_text a_path b_path : String) :
    List String :=
  let pre_lines := pySplitlines pre_text
  let post_lines := pySplitlines post_text
  unified_diff pre_lines post_lines a_path b_path (max pre_lines.length post_lines.length)

/-- `generate_function_unified_diff(pre_text, post_text, a_path, b_path)`
(diffops.py lines 1434–1461). -/
def generate_function_unified_diff (pre_text post_text a_path b_path : String) : String :=
  String.join (generate_function_unified_diff_lines pre_text post_text a_path b_path)

/-! ## `unidiff.PatchSet`

`PatchSet(str)` wraps the string in a `StringIO` (default `newline='\n'`),
so the diff text is iterated as `'\n'`-terminated chunks; hunks are consumed
line by line against the lengths declared in the `@@` header, raising
`UnidiffParseError` on a malformed body line (`Hunk diff line expected`),
on overshoot (`Hunk is longer than expected`) and on a truncated hunk
(`Hunk is shorter than expected`).  Git extended headers (`diff --git`)
reset the current file; rename metadata is not modelled (none of the claims
involve renames, and the diffs produced by `get_changed_files_with_diffs`
contain only `---`/`+++` headers and hunks). -/

/-- Split into `'\n'`-terminated chunks (iteration of `StringIO(s)`). -/
def splitNLAux : List Char → List Char → List (List Char)
  | [], acc => if acc.isEmpty then [] else [acc.reverse]
  | c :: rest, acc =>
    if c = '\n' then (acc.reverse ++ ['\n']) :: splitNLAux rest []
    else splitNLAux rest (c :: acc)

/-- The line iteration `unidiff` performs over a string input. -/
def splitNL (s : String) : List String := (splitNLAux s.data []).map String.mk

/-- One parsed hunk (`unidiff.Hunk`): the `@@` header fields and the body
lines as (type char, value) pairs. -/
structure UHunk where
  source_start : Nat
  source_length : Nat
  target_start : Nat
  target_length : Nat
  lines : List (Char × String)
deriving DecidableEq, Repr, Inhabited

/-- One parsed file (`unidiff.PatchedFile`): the `---`/`+++` names (absent
when the corresponding header was missing) and the hunk list. -/
structure PatchedFile where
  source_file : Option String
  target_file : Option String
  hunks : List UHunk
deriving DecidableEq, Repr, Inhabited

/-- Consume an expected literal character sequence. -/
def dropLit : List Char → List Char → Option (List Char)
  | [], cs => some cs
  | p :: ps, c :: cs => if p = c then dropLit ps cs else none
  | _ :: _, [] => none

/-- Read a maximal nonempty digit run (the `(\d+)` groups of
`RE_HUNK_HEADER`; backtracking to a shorter run can never help because the
regex continues with a non-digit). -/
def readNat (cs : List Char) : Option (Nat × List Char) :=
  let ds := cs.takeWhile Char.isDigit
  if ds.isEmpty then none
  else some (ds.foldl (fun n c => n * 10 + (c.toNat - 48)) 0, cs.dropWhile Char.isDigit)

/-- The optional `,(\d+)` length group; a missing length defaults to 1
(`Hunk.__init__`). -/
def readOptLen (cs : List Char) : Nat × List Char :=
  match cs with
  | ',' :: rest =>
    match readNat rest with
    | some (n, rest2) => (n, rest2)
    | none => (1, cs)
  | _ => (1, cs)

/-- Tail of the `RE_HUNK_HEADER` match after ` +`: the target start/length
groups and the closing ` @@`. -/
def hunkRest2 (ss sl : Nat) (cs : List Char) : Option (Nat × Nat × Nat × Nat) :=
  match readNat cs with
  | none => none
  | some (ts, cs2) =>
    match readOptLen cs2 with
    | (tl, cs3) =>
      match dropLit [' ', '@', '@'] cs3 with
      | none => none
      | some _ => some (ss, sl, ts, tl)

/-- Tail of the `RE_HUNK_HEADER` match after `@@ -`: the source start/length
groups, then ` +` and the rest. -/
def hunkRest1 (cs : List Char) : Option (Nat × Nat × Nat × Nat) :=
  match readNat cs with
  | none => none
  | some (ss, cs2) =>
    match readOptLen cs2 with
    | (sl, cs3) =>
      match dropLit [' ', '+'] cs3 with
      | none => none
      | some cs4 => hunkRest2 ss sl cs4

/-- `RE_HUNK_HEADER`: `@@ -(\d+)(?:,(\d+))? \+(\d+)(?:,(\d+))? @@[ ]?(.*)`,
returning `(source_start, source_length, target_start, target_length)`. -/
def parseHunkHeader (line : String) : Option (Nat × Nat × Nat × Nat) :=
  match dropLit ['@', '@', ' ', '-'] line.data with
  | none => none
  | some cs => hunkRest1 cs

/-- `RE_SOURCE_FILENAME` / `RE_TARGET_FILENAME` after the 4-character
`--- ` / `+++ ` introducer: a nonempty filename up to a tab or newline. -/
def parseFileName (intro : List Char) (line : String) : Option String :=
  match dropLit intro line.data with
  | none => none
  | some cs =>
    let name := cs.takeWhile (fun c => decide (¬(c = '\t' ∨ c = '\n')))
    if name.isEmpty then none else some (String.mk name)

/-- Classify one hunk-body line: `RE_HUNK_BODY_LINE` (`^([- +\\])(.*)` with
DOTALL) or `RE_HUNK_EMPTY_BODY_LINE` (an optional type char followed by one
or two newline characters, treated as an empty context line). -/
def classifyHunkLine (line : String) : Option (Char × String) :=
  match line.data with
  | [] => none
  | c :: rest =>
    if c = '-' ∨ c = '+' ∨ c = ' ' ∨ c = '\\' then some (c, String.mk rest)
    else if c = '\n' ∨ c = '\r' then
      some (' ', String.mk (((c :: rest).takeWhile (fun d => decide (d = '\n' ∨ d = '\r'))).take 2))
    else none

/-- Parser state: either at the top level or inside a hunk body
(`_parse_hunk`'s loop, with the header fields, the running line counters and
the accumulated body lines). -/
inductive PMode where
  | top
  | hunk (ss sl ts tl s t : Nat) (acc : List (Char × String))
deriving Repr

/-- The main loop of `PatchSet._parse`, one input line per step.  `current`
is the file being populated (already appended, in `unidiff`, to the result
list — modelled by appending it to `done` when it is retired), `src` the
pending `---` filename. -/
def parsePSAux : List String → PMode → Option PatchedFile → Option String →
    List PatchedFile → Except String (List PatchedFile)
  | [], PMode.top, current, _, done => .ok (done ++ current.toList)
  | [], PMode.hunk ss sl ts tl s t acc, current, _, done =>
    -- the iterator is exhausted inside a hunk (`for`-`else` branch)
    if s < ss + sl ∨ t < ts + tl then .error "Hunk is shorter than expected"
    else
      match current with
      | some f => .ok (done ++ [{ f with hunks := f.hunks ++ [⟨ss, sl, ts, tl, acc.reverse⟩] }])
      | none => .ok done
  | line :: rest, PMode.hunk ss sl ts tl s t acc, current, src, done =>
    match classifyHunkLine line with
    | none => .error ("Hunk diff line expected: " ++ line)
    | some (c, v) =>
      let s' := if c = '-' ∨ c = ' ' then s + 1 else s
      let t' := if c = '+' ∨ c = ' ' then t + 1 else t
      if ss + sl < s' ∨ ts + tl < t' then .error "Hunk is longer than expected"
      else if ss + sl ≤ s' ∧ ts + tl ≤ t' then
        -- hunk complete: append it and return to the top level
        match current with
        | some f =>
          parsePSAux rest PMode.top
            (some { f with hunks := f.hunks ++ [⟨ss, sl, ts, tl, ((c, v) :: acc).reverse⟩] })
            src done
        | none => parsePSAux rest PMode.top none src done
      else parsePSAux rest (PMode.hunk ss sl ts tl s' t' ((c, v) :: acc)) current src done
  | line :: rest, PMode.top, current, src, done =>
    if (dropLit ("diff --git ".data) line.data).isSome then
      parsePSAux rest PMode.top none none (done ++ current.toList)
    else match parseFileName ['-', '-', '-', ' '] line with
    | some name => parsePSAux rest PMode.top none (some name) (done ++ current.toList)
    | none =>
      match parseFileName ['+', '+', '+', ' '] line with
      | some name =>
        match current with
        | some _ => .error ("Target without source: " ++ line)
        | none => parsePSAux rest PMode.top (some ⟨src, some name, []⟩) src done
      | none =>
        match parseHunkHeader line with
        | some (ss, sl, ts, tl) =>
          match current with
          | none => .error ("Unexpected hunk found: " ++ line)
          | some _ => parsePSAux rest (PMode.hunk ss sl ts tl ss ts []) current src done
        | none => parsePSAux rest PMode.top current src done

/-- `unidiff.PatchSet(s)`: the list of parsed files, or the parse error it
raises. -/
def parsePatchSet (s : String) : Except String (List PatchedFile) :=
  parsePSAux (splitNL s) PMode.top none none []

/-! ## `FuncLevelDiffGenerator`: ranges, spans, overlap, per-file extraction -/

/-- `DiffRanges` (diffops.py lines 135–139). -/
structure DiffRanges where
  source_ranges : List (Nat × Nat)
  target_ranges : List (Nat × Nat)
deriving DecidableEq, Repr, Inhabited

/-- `get_diff_changed_lines` (diffops.py lines 1334–1380).  `PatchSet`
failures are re-raised (`except Exception as e: raise e`; the
`return DiffRanges([], [])` after it is unreachable), so the result is an
`Except`.  An empty patch set yields empty range lists; otherwise the hunks
of `patch_set[0]` are scanned in order, appending a source range when the
declared source length is nonzero and a target range when the declared
target length is nonzero.  `rangesStep` is the loop body. -/
def rangesStep (r : DiffRanges) (h : UHunk) : DiffRanges :=
  let r1 :=
    if 0 < h.source_length then
      { r with source_ranges :=
          r.source_ranges ++ [(h.source_start, h.source_start + h.source_length - 1)] }
    else r
  if 0 < h.target_length then
    { r1 with target_ranges :=
        r1.target_ranges ++ [(h.target_start, h.target_start + h.target_length - 1)] }
  else r1

/-- `get_diff_changed_lines(unified_diff)`: see `rangesStep`. -/
def get_diff_changed_lines (unified_diff : String) : Except String DiffRanges :=
  match parsePatchSet unified_diff with
  | .error e => .error e
  | .ok [] => .ok ⟨[], []⟩
  | .ok (patch :: _) => .ok (patch.hunks.foldl rangesStep ⟨[], []⟩)

/-- `get_a_and_b_paths` (diffops.py lines 1382–1411; parse failures are
likewise re-raised). -/
def get_a_and_b_paths (unified_diff : String) : Except String (String × String) :=
  match parsePatchSet unified_diff with
  | .error e => .error e
  | .ok [] => .ok ("/dev/null", "/dev/null")
  | .ok (patch :: _) =>
    .ok (patch.source_file.getD "/dev/null", patch.target_file.getD "/dev/null")

/-- `FunctionSpan` (diffops.py lines 116–132). -/
structure FunctionSpan where
  name : String
  start_byte : Nat
  end_byte : Nat
  start_line : Nat
  end_line : Nat
  class_name : Option String := none
  qualified_name_separator : String := "."
deriving DecidableEq, Repr, Inhabited

/-- The `qualified_name` property. -/
def FunctionSpan.qualified_name (f : FunctionSpan) : String :=
  match f.class_name with
  | some c => c ++ f.qualified_name_separator ++ f.name
  | none => f.name

/-- `function_overlaps_changes` (diffops.py lines 1413–1432). -/
def function_overlaps_changes (func_span : FunctionSpan)
    (changed_ranges : List (Nat × Nat)) : Bool :=
  changed_ranges.any (fun r => decide (func_span.start_line ≤ r.2 ∧ r.1 ≤ func_span.end_line))

/-- The post-patch name index `{func.qualified_name: func for func in
post_functions}` read at a key: a Python dict comprehension keeps the last
binding. -/
def post_func_map (post_functions : List FunctionSpan) (q : String) : Option FunctionSpan :=
  post_functions.reverse.find? (fun g => decide (g.qualified_name = q))

/-- One function-diff record (the per-file output dictionaries). -/
structure FuncDiffRecord where
  func_name : String
  contextualized_changes : String
deriving DecidableEq, Repr

/-- The body of the first loop of `extract_function_diffs_from_file_diff`
(lines 1521–1548): a pre-patch function overlapping a source range is
diffed against its name match in the post-patch (or against empty text when
deleted); a diff that is empty after `strip()` is dropped. -/
def preLoopEmit (pre_patch_text post_patch_text a_path b_path : String)
    (post_functions : List FunctionSpan) (source_ranges : List (Nat × Nat))
    (pre_func : FunctionSpan) : Option FuncDiffRecord :=
  if function_overlaps_changes pre_func source_ranges then
    let post_func := post_func_map post_functions pre_func.qualified_name
    let pre_func_text := pySliceStr pre_patch_text pre_func.start_byte pre_func.end_byte
    let post_func_text :=
      match post_func with
      | some g => pySliceStr post_patch_text g.start_byte g.end_byte
      | none => ""
    let func_diff := generate_function_unified_diff pre_func_text post_func_text a_path b_path
    if pyStrip func_diff ≠ "" then some ⟨pre_func.qualified_name, func_diff⟩ else none
  else none

/-- The body of the second loop (lines 1550–1571): a post-patch function
whose qualified name is new and which overlaps a target range is diffed
from empty text. -/
def addLoopEmit (post_patch_text a_path b_path : String)
    (pre_functions : List FunctionSpan) (target_ranges : List (Nat × Nat))
    (post_func : FunctionSpan) : Option FuncDiffRecord :=
  if (∀ f ∈ pre_functions, ¬f.qualified_name = post_func.qualified_name) ∧
      function_overlaps_changes post_func target_ranges = true then
    let post_func_text := pySliceStr post_patch_text post_func.start_byte post_func.end_byte
    let func_diff := generate_function_unified_diff "" post_func_text a_path b_path
    if pyStrip func_diff ≠ "" then some ⟨post_func.qualified_name, func_diff⟩ else none
  else none

/-- `extract_function_diffs_from_file_diff` (diffops.py lines 1476–1573)
from the point where both versions have been parsed: the span lists
`pre_functions`/`post_functions` delivered by `extract_functions_from_ast`
are parameters (the tree-sitter parser is an oracle).  The parse errors of
`get_diff_changed_lines`/`get_a_and_b_paths` propagate. -/
def extract_function_diffs_from_file_diff
    (pre_patch_text post_patch_text file_unified_diff : String)
    (pre_functions post_functions : List FunctionSpan) :
    Except String (List FuncDiffRecord) :=
  match get_diff_changed_lines file_unified_diff with
  | .error e => .error e
  | .ok diff_ranges =>
    match get_a_and_b_paths file_unified_diff with
    | .error e => .error e
    | .ok ab =>
      .ok (pre_functions.filterMap
            (preLoopEmit pre_patch_text post_patch_text ab.1 ab.2 post_functions
              diff_ranges.source_ranges)
        ++ post_functions.filterMap
            (addLoopEmit post_patch_text ab.1 ab.2 pre_functions diff_ranges.target_ranges))

/-! ## `fnmatch` and the ignore-pattern filter -/

/-- `fnmatch.translate` semantics for the patterns the fixed tables use:
`*` matches any character sequence (including `/`), `?` a single character,
anything else itself (the tables contain no `[` classes; `os.path.normcase`
is the identity on POSIX).  Fuel `|pattern| + |name| + 1` dominates the
recursion. -/
def globMatchF : Nat → List Char → List Char → Bool
  | 0, _, _ => false
  | _ + 1, [], cs => cs.isEmpty
  | fuel + 1, '*' :: ps, cs =>
    globMatchF fuel ps cs ||
      (match cs with
       | [] => false
       | _ :: cs' => globMatchF fuel ('*' :: ps) cs')
  | fuel + 1, '?' :: ps, cs =>
    (match cs with
     | [] => false
     | _ :: cs' => globMatchF fuel ps cs')
  | fuel + 1, p :: ps, cs =>
    (match cs with
     | [] => false
     | c :: cs' => p = c && globMatchF fuel ps cs')

/-- `fnmatch.fnmatch(name, pattern)`. -/
def fnmatch (name pattern : String) : Bool :=
  globMatchF (pattern.length + name.length + 1) pattern.data name.data

/-- The class attribute `ignore_patterns` (diffops.py lines 314–583;
a dict of sets — the filter only asks whether any member matches, so the
set iteration order is immaterial). -/
def ignore_patterns : List (String × List String) :=
  [("python",
    ["docs/**", "doc/**", "documentation/**", "**/docs/**", "**/doc/**", "**/documentation/**",
     ".github/**", ".gitlab/**", ".circleci/**", "ci/**", "**/ci/**",
     "tests/**", "test/**", "testing/**", "*tests/**", "*test/**", "*testing/**",
     "*/tests/**", "*/test/**", "**/tests/**", "**/test/**", "**/testing/**",
     "__pycache__/**", "**/__pycache__/**", "*.pyc", "**/*.pyc",
     "examples/**", "example/**", "samples/**", "sample/**", "demos/**", "demo/**",
     "tutorials/**", "tutorial/**", "guides/**", "guide/**",
     "**/examples/**", "**/example/**", "**/demos/**", "**/demo/**",
     "assets/**", "static/**", "media/**", "images/**", "img/**", "pictures/**",
     "resources/**", "**/assets/**", "**/static/**", "**/media/**", "**/images/**",
     "build/**", "dist/**", "packaging/**", "deploy/**", "deployment/**",
     "infrastructure/**", "infra/**", "docker/**", "**/build/**", "**/dist/**",
     "fixtures/**", "data/**", "benchmarks/**", "benchmark/**", "performance/**",
     "perf/**", "sandbox/**", "playground/**", "templates/**", "template/**",
     "**/fixtures/**", "**/benchmarks/**", "**/templates/**"]),
   ("javascript",
    ["node_modules/**", "**/node_modules/**",
     "docs/**", "doc/**", "documentation/**", "**/docs/**", "**/doc/**", "**/documentation/**",
     ".github/**", ".gitlab/**", ".circleci/**", "ci/**", "**/ci/**",
     "tests/**", "test/**", "testing/**", "*tests/**", "*test/**",
     "*/tests/**", "*/test/**", "**/tests/**", "**/test/**", "**/testing/**",
     "__tests__/**", "**/__tests__/**",
     "build/**", "dist/**", "out/**", ".next/**", ".nuxt/**", "**/build/**", "**/dist/**",
     "examples/**", "example/**", "demos/**", "demo/**", "**/examples/**", "**/demos/**",
     "assets/**", "static/**", "public/**", "**/assets/**", "**/static/**",
     "coverage/**", ".nyc_output/**", ".cache/**", "**/coverage/**"]),
   ("java",
    ["target/**", "build/**", "out/**", "**/target/**", "**/build/**",
     "docs/**", "doc/**", "javadoc/**", "**/docs/**", "**/javadoc/**",
     "test/**", "tests/**", "testing/**", "**/test/**", "**/tests/**", "**/testing/**",
     ".idea/**", ".eclipse/**", ".vscode/**",
     "examples/**", "example/**", "**/examples/**"]),
   ("c_and_cpp",
    ["build/**", "cmake-build-*/**", "out/**", "bin/**", "obj/**", ".vs/**", ".vscode/**",
     ".idea/**", "CMakeFiles/**", ".deps/**", ".libs/**", "autom4te.cache/**", "config/**",
     "**/build/**", "**/bin/**", "**/obj/**",
     "doc/**", "docs/**", "**/doc/**", "**/docs/**",
     "test/**", "tests/**", "**/test/**", "**/tests/**",
     "gtest/**", "googletest/**", "catch2/**",
     "deps/**", "vcpkg/**", "conan/**", "**/deps/**"]),
   ("rust",
    ["target/**", "**/target/**",
     "docs/**", "doc/**", "**/docs/**", "**/doc/**",
     "tests/**", "**/tests/**",
     "examples/**", "**/examples/**"]),
   ("go",
    ["bin/**", "pkg/**", "**/bin/**", "**/pkg/**",
     "docs/**", "doc/**", "**/docs/**", "**/doc/**",
     "*_test.go", "**/*_test.go",
     "vendor/**", "**/vendor/**"])]

/-- The class attribute `ignore_file_patterns` (diffops.py lines 586–861). -/
def ignore_file_patterns : List (String × List String) :=
  [("python",
    ["__init__.py", "__about__.py", "__version__.py", "setup.py", "create_version_file.py",
     "conftest.py", "version.py",
     "*.md", "*.mdx", "*.rst", "*.txt", "README*", "CHANGELOG*", "HISTORY*", "NEWS*",
     "*.ini", "*.cfg", "*.conf", "*.toml", "*.json", "*.xml", "*.yml", "*.yaml",
     "*.env*", "*.template", "*.properties", "*.hcl", "*.in",
     "*.lock", "Pipfile*", "poetry.lock", "requirements*.txt",
     "*.log", "*.csv", "*.tsv", "*.dat", "*.sql",
     "*.png", "*.jpg", "*.jpeg", "*.gif", "*.svg", "*.ico", "*.bmp", "*.tiff",
     "*.webp", "*.pdf", "*.doc", "*.docx",
     "*.zip", "*.tar", "*.gz", "*.tgz", "*.rar", "*.7z",
     "*.bat", "*.sh", "*.ps1",
     "*.bin", "*.exe", "*.dll", "*.so", "*.dylib",
     "VERSION", "AUTHORS", "LICENSE*", "COPYING*", "NOTICE*", "Makefile*", "Dockerfile*",
     "Procfile*", ".gitignore", ".gitattributes", ".editorconfig", ".pylintrc",
     ".pycodestyle", ".pep8", ".bandit", ".coveragerc", ".flake8", ".dockerignore"]),
   ("javascript",
    ["package.json", "package-lock.json", "yarn.lock", "pnpm-lock.yaml",
     "*.md", "*.mdx", "*.txt", "README*", "CHANGELOG*",
     "*.json", "*.config.js", "*.config.ts", ".eslintrc*", ".prettierrc*",
     "babel.config.*", "webpack.config.*", "rollup.config.*", "vite.config.*",
     "tsconfig*.json",
     "*.env*",
     "Dockerfile*", "Makefile*", ".gitignore", ".gitattributes", ".editorconfig"]),
   ("java",
    ["pom.xml", "build.gradle", "build.gradle.kts", "gradle.properties", "settings.gradle",
     "*.sig", "*.exe", "*.default", "*.release",
     "*.md", "*.txt", "README*", "CHANGELOG*",
     "*.xml", "*.properties", "*.yml", "*.yaml", "*.json",
     "*.iml", ".project", ".classpath",
     "LICENSE*", "NOTICE*", ".gitignore"]),
   ("c_and_cpp",
    ["Makefile*", "*.make", "*.ninja", "*.cmake", "CMakeCache.txt", "CMakeLists.txt",
     "*.vcxproj", "*.vcxproj.filters", "*.sln", "*.user", "*.suo", "configure",
     "config.h", "config.status", "config.log", "*.m4", "aclocal.m4",
     "*.o", "*.obj", "*.a", "*.lib", "*.so", "*.dll", "*.dylib", "*.exe", "*.out",
     "*.app", "*.pdb", "*.gch", "*.pch",
     "*.md", "*.txt", "*.pdf", "README*", "CHANGELOG*",
     "*.config", "*.ini", "*.json", "*.xml", "*.yaml", "*.yml",
     "LICENSE*", ".gitignore", ".clang-format", ".clang-tidy"]),
   ("rust",
    ["Cargo.toml", "Cargo.lock",
     "*.md", "*.txt", "README*", "CHANGELOG*",
     "*.toml", "*.json", "*.yaml", "*.yml",
     "LICENSE*", ".gitignore"]),
   ("go",
    ["go.mod", "go.sum",
     "*.md", "*.txt", "README*", "CHANGELOG*",
     "*.json", "*.yaml", "*.yml", "*.toml",
     "LICENSE*", ".gitignore", "Makefile*"])]

/-- Association-list read (Python dict indexing by language key). -/
def lookupTable (tbl : List (String × List String)) (lang : String) : Option (List String) :=
  (tbl.find? (fun p => decide (p.1 = lang))).map (fun p => p.2)

/-- Python `str.split('/')` over a character list. -/
def splitSlashAux : List Char → List Char → List (List Char)
  | [], acc => [acc.reverse]
  | c :: rest, acc =>
    if c = '/' then acc.reverse :: splitSlashAux rest []
    else splitSlashAux rest (c :: acc)

/-- Python `path.split('/')`. -/
def pySplitSlash (s : String) : List String := (splitSlashAux s.data []).map String.mk

/-- `'/'.join(parts[:i+1])` for `i in range(len(parts))`. -/
def pathPrefixes (normalized_path : String) : List String :=
  let parts := pySplitSlash normalized_path
  (List.range parts.length).map (fun i => String.intercalate "/" (parts.take (i + 1)))

/-- `os.path.basename` (POSIX). -/
def pyBasename (s : String) : String :=
  ((pySplitSlash s).getLastD "")

/-- `_matches_ignore_patterns(filepath, lang)` (diffops.py lines 1824–1863). -/
def _matches_ignore_patterns (filepath lang : String) : Bool :=
  match lookupTable ignore_patterns lang with
  | none => false
  | some pats =>
    let normalized_path := String.mk (filepath.data.map (fun c => if c = '\\' then '/' else c))
    let dirHit := pats.any (fun pattern =>
      fnmatch normalized_path pattern ||
        (pathPrefixes normalized_path).any (fun partial_path =>
          fnmatch (partial_path ++ "/") pattern))
    if dirHit then true
    else
      match lookupTable ignore_file_patterns lang with
      | none => false
      | some fpats =>
        let filename := pyBasename normalized_path
        fpats.any (fun pattern =>
          fnmatch filename pattern || fnmatch normalized_path pattern)

/-! ## Language detection and configuration -/

/-- `LanguageConfig` (diffops.py lines 29–113); the node-kind sets are
carried as lists, membership being all the extractor asks of them. -/
structure LanguageConfig where
  name : String
  function_node_types : List String
  class_node_types : List String
  identifier_node_type : String := "identifier"
  qualified_name_separator : String := "."
deriving DecidableEq, Repr

/-- `LanguageConfig.python()`. -/
def LanguageConfig.python : LanguageConfig :=
  ⟨"python", ["function_definition", "async_function_definition"], ["class_definition"],
   "identifier", "."⟩

/-- `LanguageConfig.javascript()`. -/
def LanguageConfig.javascript : LanguageConfig :=
  ⟨"javascript",
   ["function_declaration", "function_expression", "arrow_function", "method_definition"],
   ["class_declaration"], "identifier", "."⟩

/-- `LanguageConfig.java()`. -/
def LanguageConfig.java : LanguageConfig :=
  ⟨"java", ["method_declaration", "constructor_declaration"],
   ["class_declaration", "interface_declaration"], "identifier", "."⟩

/-- `LanguageConfig.c_cpp()`. -/
def LanguageConfig.c_cpp : LanguageConfig :=
  ⟨"c_and_cpp", ["function_definition", "function_declarator"],
   ["class_specifier", "struct_specifier"], "identifier", "::"⟩

/-- `LanguageConfig.csharp()`. -/
def LanguageConfig.csharp : LanguageConfig :=
  ⟨"csharp", ["method_declaration", "constructor_declaration"],
   ["class_declaration", "interface_declaration", "struct_declaration"], "identifier", "."⟩

/-- `LanguageConfig.rust()`. -/
def LanguageConfig.rust : LanguageConfig :=
  ⟨"rust", ["function_item"], ["struct_item", "enum_item", "impl_item"], "identifier", "::"⟩

/-- `LanguageConfig.go()`. -/
def LanguageConfig.go : LanguageConfig :=
  ⟨"go", ["function_declaration", "method_declaration"], ["type_declaration"],
   "identifier", "."⟩

/-- Python `str.lower()` (ASCII case folding; the table keys and the paths
of interest are ASCII). -/
def pyLower (s : String) : String := String.mk (s.data.map Char.toLower)

/-- Last index of `c` in `cs` (Python `rfind`, `none` for −1). -/
def lastIndexOf (cs : List Char) (c : Char) : Option Nat :=
  ((List.range cs.length).filter (fun i => cs.getD i ' ' = c)).getLast?

/-- The extension part of `os.path.splitext(p)`: the suffix from the last
`.` that lies after the last `/` and is preceded there by at least one
non-dot character (leading dots of the basename never start an extension). -/
def pySplitextExt (p : String) : String :=
  let cs := p.data
  match lastIndexOf cs '.' with
  | none => ""
  | some d =>
    let s0 := match lastIndexOf cs '/' with
      | none => 0
      | some s => s + 1
    if s0 ≤ d ∧ (List.range' s0 (d - s0)).any (fun k => decide (¬cs.getD k ' ' = '.')) then
      String.mk (cs.drop d)
    else ""

/-- The extension table of `_detect_file_language` (diffops.py lines 929–965). -/
def extension_to_language : List (String × String) :=
  [(".py", "python"), (".pyi", "python"), (".pyx", "python"), (".pxi", "python"),
   (".js", "javascript"), (".jsx", "javascript"), (".ts", "typescript"),
   (".tsx", "typescript"), (".mjs", "javascript"),
   (".java", "java"),
   (".c", "c"), (".cpp", "cpp"), (".cc", "cpp"), (".cxx", "cpp"), (".c++", "cpp"),
   (".h", "c"), (".hpp", "cpp"), (".hxx", "cpp"), (".h++", "cpp"),
   (".cs", "c_sharp"),
   (".rs", "rust"),
   (".go", "go")]

/-- `_detect_file_language(file_path)` (diffops.py lines 916–967). -/
def _detect_file_language (file_path : String) : Option String :=
  let ext := pySplitextExt (pyLower file_path)
  ((extension_to_language.find? (fun p => decide (p.1 = ext))).map (fun p => p.2))

/-- `_get_language_config(language)` (diffops.py lines 969–1007;
the Python returns `None` for an unmapped language). -/
def _get_language_config (language : String) : Option LanguageConfig :=
  let language_mapping : List (String × String) :=
    [("python", "python"), ("javascript", "javascript"), ("typescript", "javascript"),
     ("java", "java"), ("c", "c_and_cpp"), ("cpp", "c_and_cpp"), ("c_sharp", "csharp"),
     ("rust", "rust"), ("go", "go")]
  match (language_mapping.find? (fun p => decide (p.1 = language))).map (fun p => p.2) with
  | none => none
  | some config_name =>
    if config_name = "python" then some LanguageConfig.python
    else if config_name = "javascript" then some LanguageConfig.javascript
    else if config_name = "java" then some LanguageConfig.java
    else if config_name = "c_and_cpp" then some LanguageConfig.c_cpp
    else if config_name = "csharp" then some LanguageConfig.csharp
    else if config_name = "rust" then some LanguageConfig.rust
    else if config_name = "go" then some LanguageConfig.go
    else none

/-! ## Commit interest scanner and orchestrator

Git repositories are oracles: `firstParent` maps a commit id to its first
parent, `changedFiles` is `get_changed_files`, `fileDiffs` is
`get_changed_files_with_diffs` (an ordered path→diff table, or the
`GitError` it raises), `commitTree` serves `get_file_at_commit`,
`loadedParsers` is the parser table after `_load_parsers_for_commit`, and
`parseFuncs` is `extract_functions_from_ast` for a loaded language. -/

/-- `_is_interesting_commit(changed_files)` (diffops.py lines 1865–1882). -/
def _is_interesting_commit (changed_files : List String) : Bool :=
  changed_files.any (fun filepath =>
    match _detect_file_language filepath with
    | none => ¬_matches_ignore_patterns filepath "python"
    | some file_lang =>
      match _get_language_config file_lang with
      | some lang_config => ¬_matches_ignore_patterns filepath lang_config.name
      | none => false)

/-- `_get_interesting_commit(commit_hash, max_history_scan_depth)`
(diffops.py lines 1884–1908): walk first-parent ancestry, checking at most
`depth` commits, returning the first interesting one. -/
def _get_interesting_commit (firstParent : String → Option String)
    (changedFiles : String → List String) : String → Nat → Option String
  | _, 0 => none
  | commit, depth + 1 =>
    if _is_interesting_commit (changedFiles commit) then some commit
    else
      match firstParent commit with
      | some p => _get_interesting_commit firstParent changedFiles p depth
      | none => none

/-- The first-parent chain actually visited by a depth-`d` scan. -/
def fpChain (firstParent : String → Option String) : String → Nat → List String
  | _, 0 => []
  | c, d + 1 =>
    c :: (match firstParent c with
          | some p => fpChain firstParent p d
          | none => [])

/-- Content of one git blob: decodable UTF-8 text or not. -/
inductive BlobContent where
  | utf8Text (s : String)
  | undecodable
deriving DecidableEq, Repr

/-- `get_file_at_commit(commit, file_path)` (diffops.py lines 1302–1332):
`commitTree` yields the tree of a commit reference (`none` models the
`git.exc.GitError` of an invalid reference), a tree maps paths to blobs
(a missing path models the `KeyError`), and an undecodable blob models the
`UnicodeDecodeError`; all three are caught and become the empty string. -/
def get_file_at_commit (commitTree : String → Option (List (String × BlobContent)))
    (commit file_path : String) : String :=
  match commitTree commit with
  | none => ""
  | some tree =>
    match (tree.find? (fun e => decide (e.1 = file_path))).map (fun e => e.2) with
    | none => ""
    | some (BlobContent.utf8Text s) => s
    | some BlobContent.undecodable => ""

/-- The oracle bundle for one repository handle. -/
structure RepoOracle where
  firstParent : String → Option String
  changedFiles : String → List String
  fileDiffs : String → Except String (List (String × String))
  commitTree : String → Option (List (String × BlobContent))
  loadedParsers : List String
  parseFuncs : String → String → List FunctionSpan

/-- The outcomes `extract_function_diffs_from_commit` can signal:
a propagated `git.exc.GitError`, a propagated `unidiff.UnidiffParseError`
(the per-file handler catches only `GitError`/`UnicodeDecodeError`), and
the `ValueError("No function diffs found")`. -/
inductive DiffError where
  | gitError (msg : String)
  | parseError (msg : String)
  | noFunctionDiffs
deriving DecidableEq, Repr

/-- One record of the commit-level result (the per-file record plus the
`file_path`/`file_language` tags). -/
structure CommitFuncDiff where
  func_name : String
  contextualized_changes : String
  file_path : String
  file_language : String
deriving DecidableEq, Repr

/-- One iteration of the per-file loop of `extract_function_diffs_from_commit`
(diffops.py lines 1612–1650): skip unknown languages, ignored paths and
languages without a loaded parser; otherwise fetch both file versions and
run the per-file extraction when the diff text is nonblank. -/
def processOneFile (o : RepoOracle) (interesting_commit : String)
    (entry : String × String) : Except DiffError (List CommitFuncDiff) :=
  let file_path := entry.1
  let file_diff_str := entry.2
  match _detect_file_language file_path with
  | none => .ok []
  | some file_language =>
    let ignored :=
      match _get_language_config file_language with
      | some cfg => _matches_ignore_patterns file_path cfg.name
      | none => false
    if ignored then .ok []
    else if ¬file_language ∈ o.loadedParsers then .ok []
    else
      let pre_patch_text := get_file_at_commit o.commitTree (interesting_commit ++ "~1") file_path
      let post_patch_text := get_file_at_commit o.commitTree interesting_commit file_path
      if pyStrip file_diff_str ≠ "" then
        match extract_function_diffs_from_file_diff pre_patch_text post_patch_text file_diff_str
            (o.parseFuncs file_language pre_patch_text)
            (o.parseFuncs file_language post_patch_text) with
        | .error m => .error (DiffError.parseError m)
        | .ok recs =>
          .ok (recs.map (fun r => ⟨r.func_name, r.contextualized_changes, file_path, file_language⟩))
      else .ok []

/-- The sequential file loop; an uncaught error aborts the remaining files. -/
def processFiles (o : RepoOracle) (interesting_commit : String) :
    List (String × String) → Except DiffError (List CommitFuncDiff)
  | [] => .ok []
  | entry :: rest =>
    match processOneFile o interesting_commit entry with
    | .error err => .error err
    | .ok recs =>
      match processFiles o interesting_commit rest with
      | .error err => .error err
      | .ok more => .ok (recs ++ more)

/-- `extract_function_diffs_from_commit(commit_hash, max_history_scan_depth)`
(diffops.py lines 1575–1655): resolve the commit (through the scanner when a
nonzero depth is given, returning an empty list when it finds nothing),
fetch the per-file diffs (returning an empty list when there are none), run
the per-file loop, and raise `ValueError("No function diffs found")` when
the aggregate is empty. -/
def extract_function_diffs_from_commit (o : RepoOracle) (commit_hash : String)
    (max_history_scan_depth : Nat) : Except DiffError (List CommitFuncDiff) :=
  let interesting? :=
    if max_history_scan_depth ≠ 0 then
      _get_interesting_commit o.firstParent o.changedFiles commit_hash max_history_scan_depth
    else some commit_hash
  match interesting? with
  | none => .ok []
  | some interesting_commit =>
    match o.fileDiffs interesting_commit with
    | .error e => .error (DiffError.gitError e)
    | .ok file_diffs =>
      if file_diffs = [] then .ok []
      else
        match processFiles o interesting_commit file_diffs with
        | .error err => .error err
        | .ok all_function_diffs =>
          if all_function_diffs.length = 0 then .error DiffError.noFunctionDiffs
          else .ok all_function_diffs

/-! ## Applying a unified diff (the round-trip property's applicator) -/

/-- Modelled from the spec: the spec's round-trip property ("re-applying
the diff to the recorded pre-image text yields exactly the recorded
post-image text") needs a standard unified-diff application, which the
repository itself does not contain.  This is the usual semantics: context
and deletion lines must match the source at the declared position; context
and addition lines are emitted.  A `\ No newline` marker neither consumes
nor emits. -/
def applyHunkBody : List (Char × String) → List String → Option (List String × List String)
  | [], src => some ([], src)
  | (c, v) :: ls, src =>
    if c = ' ' then
      match src with
      | s :: src' =>
        if s = v then (applyHunkBody ls src').map (fun p => (v :: p.1, p.2)) else none
      | [] => none
    else if c = '-' then
      match src with
      | s :: src' => if s = v then applyHunkBody ls src' else none
      | [] => none
    else if c = '+' then (applyHunkBody ls src).map (fun p => (v :: p.1, p.2))
    else applyHunkBody ls src

/-- Modelled from the spec: apply the hunks in order.  `consumed` counts the
source lines already emitted or consumed; a hunk with a zero source length
declares the line *before* the insertion point, one with a nonzero length
declares its first source line (both 1-based). -/
def applyHunks : List UHunk → List String → Nat → Option (List String)
  | [], src, _ => some src
  | h :: rest, src, consumed =>
    let start0 := if h.source_length = 0 then h.source_start else h.source_start - 1
    if start0 < consumed then none
    else
      let skip := start0 - consumed
      if src.length < skip then none
      else
        match applyHunkBody h.lines (src.drop skip) with
        | none => none
        | some out =>
          (applyHunks rest out.2 (start0 + h.source_length)).map
            (fun tailOut => src.take skip ++ out.1 ++ tailOut)

/-- Modelled from the spec: parse a unified diff and apply it to `source`.
An empty patch leaves the source unchanged; the diffs at issue describe a
single file, whose hunks are applied. -/
def applyUnifiedDiff (diff source : String) : Option String :=
  match parsePatchSet diff with
  | .error _ => none
  | .ok [] => some source
  | .ok (f :: _) => (applyHunks f.hunks (splitNL source) 0).map String.join

/-! ## The per-hunk range characterization used by claim C3 -/

/-- The source range a hunk contributes, exactly when its declared source
length is nonzero. -/
def hunkSourceRange (h : UHunk) : Option (Nat × Nat) :=
  if 0 < h.source_length then some (h.source_start, h.source_start + h.source_length - 1)
  else none

/-- The target range a hunk contributes, exactly when its declared target
length is nonzero. -/
def hunkTargetRange (h : UHunk) : Option (Nat × Nat) :=
  if 0 < h.target_length then some (h.target_start, h.target_start + h.target_length - 1)
  else none

/-! ## Concrete data for the witness scenarios -/

/-- First-parent oracle for the spec's scan scenario: `c1 → c2 → c3`. -/
def fpEx : String → Option String :=
  fun c => if c = "c1" then some "c2" else if c = "c2" then some "c3" else none

/-- Changed files of the scan scenario: `c1` and `c2` touch only
documentation, `c3` touches a source file. -/
def cfEx : String → List String :=
  fun c =>
    if c = "c1" then ["README.md"]
    else if c = "c2" then ["docs/guide.md"]
    else if c = "c3" then ["src/main.py"] else []

/-- An oracle whose commits have no per-file diffs at all. -/
def oracleNoDiffs : RepoOracle :=
  { firstParent := fun _ => none, changedFiles := fun _ => [],
    fileDiffs := fun _ => Except.ok [], commitTree := fun _ => none,
    loadedParsers := [], parseFuncs := fun _ _ => [] }

/-- An oracle with one changed python file whose parse yields no function
spans: the per-file loop runs and produces zero records. -/
def oracleEmptyFuncs : RepoOracle :=
  { firstParent := fun _ => none, changedFiles := fun _ => [],
    fileDiffs := fun _ =>
      Except.ok [("m.py", "--- a/m.py\n+++ b/m.py\n@@ -1 +1 @@\n-x\n+y\n")],
    commitTree := fun _ => none, loadedParsers := ["python"], parseFuncs := fun _ _ => [] }

/-- The post-image text of the C5 witness scenario. -/
def postTextEx : String := "x\nnew\ndef g():\n    pass\n"

/-- The span the parser reports for the newly added function `g` in
`postTextEx`. -/
def gSpanEx : FunctionSpan := ⟨"g", 6, 24, 3, 4, none, "."⟩

/-- The record the addition loop emits for `g`. -/
def gRecordEx : FuncDiffRecord :=
  ⟨"g", generate_function_unified_diff "" (pySliceStr postTextEx 6 24) "a/p.py" "b/p.py"⟩

/-! ## Chain predicates (specification of the matching-block structure) -/

/-- A valid chain of matching blocks from cursor `c` to cursor `e`:
block starts never precede the cursor, each block is nonempty and matches
`a` against `b` pointwise, and the cursor advances past each block. -/
inductive BChain (a b : List String) : Nat × Nat → List (Nat × Nat × Nat) → Nat × Nat → Prop
  | nil (c : Nat × Nat) : BChain a b c [] c
  | cons (i j k : Nat) (c : Nat × Nat) (rest : List (Nat × Nat × Nat)) (e : Nat × Nat) :
      c.1 ≤ i → c.2 ≤ j → k ≠ 0 →
      (∀ t, t < k → a.getD (i + t) "" = b.getD (j + t) "") →
      BChain a b (i + k, j + k) rest e →
      BChain a b c ((i, j, k) :: rest) e

/-- A valid opcode chain from cursor `c` to cursor `e`: every opcode spans
from the current cursor, the intervals are bounded by the sequence lengths,
the tag describes the interval shapes, and an `equal` opcode relates two
identical slices. -/
inductive OChain (a b : List String) : Nat × Nat → List Opcode → Nat × Nat → Prop
  | nil (c : Nat × Nat) : OChain a b c [] c
  | cons (tg : DTag) (i2 j2 : Nat) (c : Nat × Nat) (rest : List Opcode) (e : Nat × Nat) :
      i2 ≤ a.length → j2 ≤ b.length →
      c.1 ≤ i2 → c.2 ≤ j2 →
      (tg = DTag.equal → pySlice a c.1 i2 = pySlice b c.2 j2 ∧ c.1 < i2 ∧ c.2 < j2) →
      (tg = DTag.replace → c.1 < i2 ∧ c.2 < j2) →
      (tg = DTag.delete → c.1 < i2 ∧ c.2 = j2) →
      (tg = DTag.insert → c.1 = i2 ∧ c.2 < j2) →
      OChain a b (i2, j2) rest e →
      OChain a b c (⟨tg, c.1, i2, c.2, j2⟩ :: rest) e

/-! ## Proofs -/

/-! ### Validity of the embedded `find_longest_match`: whatever triple it
returns is an actual common block of `a` and `b`, inside the rectangle. -/

lemma getD_congr (l : List String) {x y : Nat} (h : x = y) : l.getD x "" = l.getD y "" := by
  rw [h]

lemma mem_b2j {b : List String} {x : String} {j : Nat} (h : j ∈ b2j b x) :
    b.getD j "" = x ∧ j < b.length := by
  unfold b2j at h
  split at h
  · simp at h
  · unfold indicesOf at h
    rw [List.mem_filter] at h
    obtain ⟨hr, he⟩ := h
    exact ⟨by simpa using he, by simpa using List.mem_range.mp hr⟩

lemma mem_validJ {a b : List String} {blo bhi i j : Nat}
    (h : j ∈ validJ a b blo bhi i) :
    blo ≤ j ∧ j < bhi ∧ b.getD j "" = a.getD i "" ∧ j < b.length := by
  unfold validJ at h
  rw [List.mem_filter] at h
  obtain ⟨hm, hd⟩ := h
  have hb := mem_b2j hm
  simp only [decide_eq_true_eq] at hd
  exact ⟨hd.1, hd.2, hb.1, hb.2⟩

lemma runLen_eq (a b : List String) (alo blo bhi i j : Nat) :
    runLen a b alo blo bhi i j =
      if j ∈ validJ a b blo bhi i then
        (if alo < i ∧ blo < j then runLen a b alo blo bhi (i - 1) (j - 1) else 0) + 1
      else 0 := by
  cases i <;> cases j <;> simp [runLen]

lemma runLen_match (a b : List String) (alo blo bhi : Nat) :
    ∀ i j t, t < runLen a b alo blo bhi i j →
      a.getD (i - t) "" = b.getD (j - t) "" := by
  intro i
  induction i using Nat.strong_induction_on with
  | _ i ih =>
    intro j t ht
    rw [runLen_eq] at ht
    split at ht
    case isFalse => omega
    case isTrue hmem =>
      rcases Nat.eq_zero_or_pos t with ht0 | htpos
      · subst ht0
        simpa using (mem_validJ hmem).2.2.1.symm
      · split at ht
        case isFalse h => omega
        case isTrue h =>
          have hrec := ih (i - 1) (by omega) (j - 1) (t - 1) (by omega)
          calc a.getD (i - t) "" = a.getD (i - 1 - (t - 1)) "" := getD_congr a (by omega)
            _ = b.getD (j - 1 - (t - 1)) "" := hrec
            _ = b.getD (j - t) "" := getD_congr b (by omega)

lemma runLen_le_left (a b : List String) (alo blo bhi : Nat) :
    ∀ i j, alo ≤ i → runLen a b alo blo bhi i j ≤ i + 1 - alo := by
  intro i
  induction i using Nat.strong_induction_on with
  | _ i ih =>
    intro j hi
    rw [runLen_eq]
    split
    · split
      case isTrue h => have := ih (i - 1) (by omega) (j - 1) (by omega); omega
      case isFalse h => omega
    · omega

lemma runLen_le_right (a b : List String) (alo blo bhi : Nat) :
    ∀ i j, blo ≤ j → runLen a b alo blo bhi i j ≤ j + 1 - blo := by
  intro i
  induction i using Nat.strong_induction_on with
  | _ i ih =>
    intro j hj
    rw [runLen_eq]
    split
    · split
      case isTrue h => have := ih (i - 1) (by omega) (j - 1) (by omega); omega
      case isFalse h => omega
    · omega

lemma dpBest_rec (a b : List String) (alo ahi blo bhi : Nat)
    (P : Nat × Nat × Nat → Prop)
    (hinit : P (alo, blo, 0))
    (hupd : ∀ st i j, P st → alo ≤ i → i < ahi → j ∈ validJ a b blo bhi i →
      P (dpUpd a b alo blo bhi st i j)) :
    P (dpBest a b alo ahi blo bhi) := by
  unfold dpBest
  refine List.foldlRecOn _ _ _ hinit ?_
  intro st hst i hi
  have hi' := List.mem_range'_1.mp hi
  refine List.foldlRecOn _ _ _ hst ?_
  intro st2 hst2 j hj
  exact hupd st2 i j hst2 hi'.1 (by omega) hj

lemma dpBest_spec (a b : List String) (alo ahi blo bhi bi bj bs : Nat)
    (h : dpBest a b alo ahi blo bhi = (bi, bj, bs)) :
    (bi = alo ∧ bj = blo ∧ bs = 0) ∨
    (alo ≤ bi ∧ blo ≤ bj ∧ bi + bs ≤ ahi ∧ bj + bs ≤ bhi ∧ bs ≠ 0 ∧
     ∀ t < bs, a.getD (bi + t) "" = b.getD (bj + t) "") := by
  have hrec := dpBest_rec a b alo ahi blo bhi (fun st =>
    (st.1 = alo ∧ st.2.1 = blo ∧ st.2.2 = 0) ∨
    (alo ≤ st.1 ∧ blo ≤ st.2.1 ∧ st.1 + st.2.2 ≤ ahi ∧ st.2.1 + st.2.2 ≤ bhi ∧
     st.2.2 ≠ 0 ∧
     ∀ t < st.2.2, a.getD (st.1 + t) "" = b.getD (st.2.1 + t) ""))
    (Or.inl ⟨rfl, rfl, rfl⟩) ?_
  · rw [h] at hrec
    exact hrec
  · intro st i j hP hi hiu hj
    simp only [dpUpd]
    split
    case isFalse => exact hP
    case isTrue hlt =>
      right
      have hjv := mem_validJ hj
      have hkl := runLen_le_left a b alo blo bhi i j hi
      have hkr := runLen_le_right a b alo blo bhi i j hjv.1
      set k := runLen a b alo blo bhi i j with hk
      show alo ≤ i + 1 - k ∧ blo ≤ j + 1 - k ∧ i + 1 - k + k ≤ ahi ∧
        j + 1 - k + k ≤ bhi ∧ k ≠ 0 ∧
        ∀ t < k, a.getD (i + 1 - k + t) "" = b.getD (j + 1 - k + t) ""
      refine ⟨by omega, by omega, by omega, by omega, by omega, ?_⟩
      intro t ht
      have hm := runLen_match a b alo blo bhi i j (k - 1 - t) (by omega)
      calc a.getD (i + 1 - k + t) "" = a.getD (i - (k - 1 - t)) "" := getD_congr a (by omega)
        _ = b.getD (j - (k - 1 - t)) "" := hm
        _ = b.getD (j + 1 - k + t) "" := getD_congr b (by omega)

lemma extendBack_eq_succ (a b : List String) (alo blo i j n : Nat) :
    extendBack a b alo blo i j (n + 1)
      = if alo < i ∧ blo < j ∧ a.getD (i - 1) "" = b.getD (j - 1) "" then
          extendBack a b alo blo (i - 1) (j - 1) n + 1
        else 0 := rfl

lemma extendFwd_eq_succ (a b : List String) (ahi bhi i j n : Nat) :
    extendFwd a b ahi bhi i j (n + 1)
      = if i < ahi ∧ j < bhi ∧ a.getD i "" = b.getD j "" then
          extendFwd a b ahi bhi (i + 1) (j + 1) n + 1
        else 0 := rfl

lemma extendBack_zero (a b : List String) (alo blo : Nat) (fuel : Nat) :
    extendBack a b alo blo alo blo fuel = 0 := by
  cases fuel with
  | zero => rfl
  | succ n =>
    rw [extendBack_eq_succ, if_neg]
    intro hc
    exact Nat.lt_irrefl alo hc.1

lemma extendBack_spec (a b : List String) (alo blo : Nat) :
    ∀ fuel i j e, alo ≤ i → blo ≤ j → extendBack a b alo blo i j fuel = e →
      e ≤ i - alo ∧ e ≤ j - blo ∧
      ∀ t < e, a.getD (i - e + t) "" = b.getD (j - e + t) "" := by
  intro fuel
  induction fuel with
  | zero =>
    intro i j e _ _ he
    simp only [extendBack] at he
    subst he
    exact ⟨by omega, by omega, fun t ht => absurd ht (by omega)⟩
  | succ n ih =>
    intro i j e hi hj he
    rw [extendBack_eq_succ] at he
    split at he
    case isFalse h =>
      subst he
      exact ⟨by omega, by omega, fun t ht => absurd ht (by omega)⟩
    case isTrue h =>
      obtain ⟨h1, h2, h3⟩ := h
      obtain ⟨e1, e2, em⟩ := ih (i - 1) (j - 1) _ (by omega) (by omega) rfl
      subst he
      set e := extendBack a b alo blo (i - 1) (j - 1) n with hed
      refine ⟨by omega, by omega, ?_⟩
      intro t ht
      rcases Nat.lt_or_ge t e with htl | hte
      · calc a.getD (i - (e + 1) + t) "" = a.getD (i - 1 - e + t) "" := getD_congr a (by omega)
          _ = b.getD (j - 1 - e + t) "" := em t htl
          _ = b.getD (j - (e + 1) + t) "" := getD_congr b (by omega)
      · have hteq : t = e := by omega
        subst hteq
        calc a.getD (i - (e + 1) + e) "" = a.getD (i - 1) "" := getD_congr a (by omega)
          _ = b.getD (j - 1) "" := h3
          _ = b.getD (j - (e + 1) + e) "" := getD_congr b (by omega)

lemma extendFwd_spec (a b : List String) (ahi bhi : Nat) :
    ∀ fuel i j f, extendFwd a b ahi bhi i j fuel = f →
      (f ≠ 0 → i + f ≤ ahi ∧ j + f ≤ bhi) ∧
      ∀ t < f, a.getD (i + t) "" = b.getD (j + t) "" := by
  intro fuel
  induction fuel with
  | zero =>
    intro i j f hf
    simp only [extendFwd] at hf
    subst hf
    exact ⟨fun hc => absurd rfl hc, fun t ht => absurd ht (by omega)⟩
  | succ n ih =>
    intro i j f hf
    rw [extendFwd_eq_succ] at hf
    split at hf
    case isFalse h =>
      subst hf
      exact ⟨fun hc => absurd rfl hc, fun t ht => absurd ht (by omega)⟩
    case isTrue h =>
      obtain ⟨h1, h2, h3⟩ := h
      obtain ⟨hb, hm⟩ := ih (i + 1) (j + 1) _ rfl
      subst hf
      set f := extendFwd a b ahi bhi (i + 1) (j + 1) n with hfd
      constructor
      · intro _
        rcases Nat.eq_zero_or_pos f with hf0 | hfpos
        · rw [hf0]; omega
        · have := hb (by omega); omega
      · intro t ht
        rcases Nat.eq_zero_or_pos t with ht0 | htpos
        · subst ht0; simpa using h3
        · calc a.getD (i + t) "" = a.getD (i + 1 + (t - 1)) "" := getD_congr a (by omega)
            _ = b.getD (j + 1 + (t - 1)) "" := hm (t - 1) (by omega)
            _ = b.getD (j + t) "" := getD_congr b (by omega)

lemma flm_spec (a b : List String) (alo ahi blo bhi i j k : Nat)
    (h : flm a b alo ahi blo bhi = (i, j, k)) :
    (∀ t < k, a.getD (i + t) "" = b.getD (j + t) "") ∧
    (k ≠ 0 → alo ≤ i ∧ blo ≤ j ∧ i + k ≤ ahi ∧ j + k ≤ bhi) := by
  rcases hdp : dpBest a b alo ahi blo bhi with ⟨bi, bj, bs⟩
  have hspec := dpBest_spec a b alo ahi blo bhi bi bj bs hdp
  unfold flm at h
  rw [hdp] at h
  have h2 : (bi - extendBack a b alo blo bi bj bi,
             bj - extendBack a b alo blo bi bj bi,
             bs + extendBack a b alo blo bi bj bi +
               extendFwd a b ahi bhi
                 (bi - extendBack a b alo blo bi bj bi +
                   (bs + extendBack a b alo blo bi bj bi))
                 (bj - extendBack a b alo blo bi bj bi +
                   (bs + extendBack a b alo blo bi bj bi))
                 (ahi - (bi - extendBack a b alo blo bi bj bi +
                   (bs + extendBack a b alo blo bi bj bi))))
      = (i, j, k) := h
  rw [Prod.mk.injEq, Prod.mk.injEq] at h2
  obtain ⟨hieq, hjeq, hkeq⟩ := h2
  rcases hspec with ⟨hb1, hb2, hb3⟩ | ⟨hd1, hd2, hd3, hd4, hd5, hdm⟩
  · -- no dp match: backward extension is vacuous, only forward extension
    rw [hb1, hb2] at hieq hjeq hkeq
    rw [hb3] at hkeq
    rw [extendBack_zero] at hieq hjeq hkeq
    simp only [Nat.sub_zero, Nat.add_zero, Nat.zero_add] at hieq hjeq hkeq
    obtain ⟨hfb, hfm⟩ := extendFwd_spec a b ahi bhi (ahi - alo) alo blo k hkeq
    constructor
    · intro t ht
      calc a.getD (i + t) "" = a.getD (alo + t) "" := getD_congr a (by omega)
        _ = b.getD (blo + t) "" := hfm t ht
        _ = b.getD (j + t) "" := getD_congr b (by omega)
    · intro hk0
      have := hfb hk0
      omega
  · obtain ⟨e1, e2, em⟩ := extendBack_spec a b alo blo bi bi bj _ hd1 hd2 rfl
    set eb := extendBack a b alo blo bi bj bi with heb
    obtain ⟨hfb, hfm⟩ := extendFwd_spec a b ahi bhi (ahi - (bi - eb + (bs + eb)))
      (bi - eb + (bs + eb)) (bj - eb + (bs + eb)) _ rfl
    set f := extendFwd a b ahi bhi (bi - eb + (bs + eb)) (bj - eb + (bs + eb))
      (ahi - (bi - eb + (bs + eb))) with hfd
    subst hieq; subst hjeq; subst hkeq
    constructor
    · intro t ht
      rcases Nat.lt_or_ge t eb with h1 | h1
      · exact em t h1
      · rcases Nat.lt_or_ge t (eb + bs) with hcase | hcase
        · calc a.getD (bi - eb + t) "" = a.getD (bi + (t - eb)) "" := getD_congr a (by omega)
            _ = b.getD (bj + (t - eb)) "" := hdm (t - eb) (by omega)
            _ = b.getD (bj - eb + t) "" := getD_congr b (by omega)
        · calc a.getD (bi - eb + t) ""
              = a.getD (bi - eb + (bs + eb) + (t - eb - bs)) "" := getD_congr a (by omega)
            _ = b.getD (bj - eb + (bs + eb) + (t - eb - bs)) "" :=
              hfm (t - eb - bs) (by omega)
            _ = b.getD (bj - eb + t) "" := getD_congr b (by omega)
    · intro _
      rcases Nat.eq_zero_or_pos f with hf0 | hfpos
      · refine ⟨by omega, by omega, by omega, by omega⟩
      · have := hfb (by omega)
        refine ⟨by omega, by omega, by omega, by omega⟩

lemma rangesStep_eq (s0 t0 : List (Nat × Nat)) (h : UHunk) :
    rangesStep ⟨s0, t0⟩ h
      = ⟨s0 ++ (hunkSourceRange h).toList, t0 ++ (hunkTargetRange h).toList⟩ := by
  simp only [rangesStep, hunkSourceRange, hunkTargetRange]
  split_ifs <;> simp_all

lemma ranges_foldl (hs : List UHunk) (s0 t0 : List (Nat × Nat)) :
    hs.foldl rangesStep ⟨s0, t0⟩
    = ⟨s0 ++ hs.filterMap hunkSourceRange, t0 ++ hs.filterMap hunkTargetRange⟩ := by
  induction hs generalizing s0 t0 with
  | nil => simp
  | cons h hs ih =>
    simp only [List.foldl_cons, List.filterMap_cons, rangesStep_eq]
    rw [ih]
    cases hsr : hunkSourceRange h <;> cases htr : hunkTargetRange h <;> simp

/-- **C3.** For every diff text that parses, `get_diff_changed_lines`
returns, per hunk of the first parsed file in order, a source range
`(source_start, source_start + source_length - 1)` exactly when the
declared source length is nonzero and a target range
`(target_start, target_start + target_length - 1)` exactly when the
declared target length is nonzero: the range lists are the in-order
`filterMap`s of those per-hunk contributions, so an add-only hunk yields
only a target range, a delete-only hunk only a source range, and a
modifying hunk both. -/
theorem claim_C3_hunk_ranges (s : String) (patch : PatchedFile) (rest : List PatchedFile)
    (hparse : parsePatchSet s = Except.ok (patch :: rest)) :
    get_diff_changed_lines s =
      Except.ok ⟨patch.hunks.filterMap hunkSourceRange, patch.hunks.filterMap hunkTargetRange⟩ := by
  unfold get_diff_changed_lines
  rw [hparse]
  have := ranges_foldl patch.hunks [] []
  simp only [List.nil_append] at this
  show Except.ok (patch.hunks.foldl rangesStep ⟨[], []⟩) = _
  rw [this]

/-- Witness for C3 at a concrete two-hunk diff (one modifying hunk, one
delete-only hunk). -/
theorem claim_C3_hunk_ranges_witness :
    get_diff_changed_lines
        "--- a/w.py\n+++ b/w.py\n@@ -3,2 +3,3 @@\n-a\n+b\n+c\n x\n@@ -10 +11,0 @@\n-z\n"
      = Except.ok ⟨[(3, 4), (10, 10)], [(3, 5)]⟩ := by
  have h := claim_C3_hunk_ranges
    "--- a/w.py\n+++ b/w.py\n@@ -3,2 +3,3 @@\n-a\n+b\n+c\n x\n@@ -10 +11,0 @@\n-z\n"
    ⟨some "a/w.py", some "b/w.py",
     [⟨3, 2, 3, 3, [('-', "a\n"), ('+', "b\n"), ('+', "c\n"), (' ', "x\n")]⟩,
      ⟨10, 1, 11, 0, [('-', "z\n")]⟩]⟩
    [] (by rfl)
  rw [h]
  rfl

/-- **C4.** The spec says an empty or unparsable diff yields empty range
lists and no error.  The empty diff does (`PatchSet('')` is empty and the
falsy check returns `DiffRanges([], [])`), but on an unparsable diff
`PatchSet` raises `UnidiffParseError`, and the handler
`except Exception as e: raise e` re-raises it — the
`return DiffRanges(source_ranges=[], target_ranges=[])` placed right after
the `raise` (line 1380) is unreachable, so the claimed fallback never runs. -/
theorem claim_C4_unparsable_raises :
    get_diff_changed_lines "" = Except.ok ⟨[], []⟩ ∧
    get_diff_changed_lines "--- a/f\n+++ b/f\n@@ -1,2 +1,2 @@\nXYZ\n"
      = Except.error "Hunk diff line expected: XYZ\n" := by
  exact ⟨rfl, rfl⟩

/-- **C6.** `function_overlaps_changes` is true iff some range
`(start, end)` in the list satisfies `span.start_line ≤ end` and
`span.end_line ≥ start`; for a single-line range `(x, x)` it is true iff
`x ∈ [span.start_line, span.end_line]`. -/
theorem claim_C6_overlap_iff (f : FunctionSpan) (changed_ranges : List (Nat × Nat)) :
    (function_overlaps_changes f changed_ranges = true ↔
      ∃ r ∈ changed_ranges, f.start_line ≤ r.2 ∧ r.1 ≤ f.end_line) ∧
    (∀ x : Nat, function_overlaps_changes f [(x, x)] = true ↔
      f.start_line ≤ x ∧ x ≤ f.end_line) := by
  constructor
  · simp [function_overlaps_changes, List.any_eq_true]
  · intro x
    simp [function_overlaps_changes]

/-- **C9.** `get_file_at_commit` returns the decoded text when the path
exists with decodable content at the commit, and the empty string (with no
exception escaping) when the commit reference is invalid, the path is
absent, or the content is undecodable. -/
theorem claim_C9_file_at_commit
    (commitTree : String → Option (List (String × BlobContent))) (commit file_path : String) :
    (∀ tree entry s, commitTree commit = some tree →
      tree.find? (fun e => decide (e.1 = file_path)) = some entry →
      entry.2 = BlobContent.utf8Text s →
      get_file_at_commit commitTree commit file_path = s) ∧
    (commitTree commit = none → get_file_at_commit commitTree commit file_path = "") ∧
    (∀ tree, commitTree commit = some tree →
      tree.find? (fun e => decide (e.1 = file_path)) = none →
      get_file_at_commit commitTree commit file_path = "") ∧
    (∀ tree entry, commitTree commit = some tree →
      tree.find? (fun e => decide (e.1 = file_path)) = some entry →
      entry.2 = BlobContent.undecodable →
      get_file_at_commit commitTree commit file_path = "") := by
  refine ⟨?_, ?_, ?_, ?_⟩
  · intro tree entry s htree hfind hutf
    simp [get_file_at_commit, htree, hfind, hutf]
  · intro hnone
    simp [get_file_at_commit, hnone]
  · intro tree htree hfind
    simp [get_file_at_commit, htree, hfind]
  · intro tree entry htree hfind hundec
    simp [get_file_at_commit, htree, hfind, hundec]

/-- Witness for C9 on a concrete two-commit store covering all four cases. -/
theorem claim_C9_file_at_commit_witness :
    get_file_at_commit
        (fun c => if c = "c1" then
          some [("a.py", BlobContent.utf8Text "print(1)\n"), ("img.png", BlobContent.undecodable)]
        else none) "c1" "a.py" = "print(1)\n" ∧
    get_file_at_commit
        (fun c => if c = "c1" then
          some [("a.py", BlobContent.utf8Text "print(1)\n"), ("img.png", BlobContent.undecodable)]
        else none) "nope" "a.py" = "" ∧
    get_file_at_commit
        (fun c => if c = "c1" then
          some [("a.py", BlobContent.utf8Text "print(1)\n"), ("img.png", BlobContent.undecodable)]
        else none) "c1" "b.py" = "" ∧
    get_file_at_commit
        (fun c => if c = "c1" then
          some [("a.py", BlobContent.utf8Text "print(1)\n"), ("img.png", BlobContent.undecodable)]
        else none) "c1" "img.png" = "" := by
  have h := claim_C9_file_at_commit
    (fun c => if c = "c1" then
      some [("a.py", BlobContent.utf8Text "print(1)\n"), ("img.png", BlobContent.undecodable)]
    else none)
  exact ⟨(h "c1" "a.py").1 _ _ "print(1)\n" rfl rfl rfl,
         (h "nope" "a.py").2.1 rfl,
         (h "c1" "b.py").2.2.1 _ rfl rfl,
         (h "c1" "img.png").2.2.2 _ _ rfl rfl rfl⟩

/-- **C7.** With any maximum depth `d ≥ 1`, the scanner visits at most `d`
commits along first-parent ancestry (the visited chain `fpChain` has length
at most `d`) and returns exactly the first visited commit whose changed
files make `_is_interesting_commit` true — i.e. that change at least one
file not excluded by the ignore rules of its detected (or default python)
language — and `none` when no visited commit qualifies. -/
theorem claim_C7_scanner (fp : String → Option String) (cf : String → List String)
    (start : String) (d : Nat) (_hd : 1 ≤ d) :
    _get_interesting_commit fp cf start d
      = (fpChain fp start d).find? (fun c => _is_interesting_commit (cf c)) ∧
    (fpChain fp start d).length ≤ d := by
  clear _hd
  induction d generalizing start with
  | zero => exact ⟨rfl, Nat.le_refl 0⟩
  | succ d ih =>
    constructor
    · show (if _is_interesting_commit (cf start) then some start else _) = _
      by_cases hi : _is_interesting_commit (cf start) = true
      · simp [fpChain, hi]
      · simp only [fpChain, List.find?_cons, hi, Bool.false_eq_true, if_false]
        cases hp : fp start with
        | none => simp [hi]
        | some p => simp [hi, (ih p).1]
    · show (fpChain fp start (d + 1)).length ≤ d + 1
      cases hp : fp start with
      | none => simp [fpChain, hp]
      | some p =>
        simpa [fpChain, hp, Nat.succ_le_succ_iff] using (ih p).2

/-- Witness for C7: the spec's scenario — with depth 3 the scan returns the
third commit (the first to touch a source file); with depth 2 it returns
nothing. -/
theorem claim_C7_scanner_witness :
    _get_interesting_commit fpEx cfEx "c1" 3 = some "c3" ∧
    _get_interesting_commit fpEx cfEx "c1" 2 = none ∧
    (fpChain fpEx "c1" 3).length ≤ 3 := by
  have h := claim_C7_scanner fpEx cfEx "c1" 3 (by norm_num)
  exact ⟨h.1.trans (by decide), by decide, h.2⟩

/-- **C8 (counterexample).** The claim says every run that produces zero
function-diff records signals the distinct "no function diffs found"
condition; but when the commit has no per-file diffs at all the early
`if not file_diffs: return []` (line 1608) returns an ordinary empty list —
zero records with no distinct condition raised (the scan-miss path at line
1599 behaves the same way). -/
theorem claim_C8_empty_counterexample :
    extract_function_diffs_from_commit oracleNoDiffs "c0" 0 = Except.ok [] ∧
    ∀ e : DiffError,
      (Except.ok ([] : List CommitFuncDiff)) ≠ Except.error e := by
  exact ⟨rfl, fun e h => Except.noConfusion h⟩

/-- **C8 (amended).** Provided the resolved commit has a nonempty per-file
diff table and the per-file loop completes with zero records, the operation
raises `ValueError("No function diffs found")` — a condition distinct from
the propagated commit-lookup `GitError` and from every successful result
(a missing parser is never an error at all: its files are silently
skipped). -/
theorem claim_C8_empty_result (o : RepoOracle) (commit : String)
    (fds : List (String × String))
    (h1 : o.fileDiffs commit = Except.ok fds) (h2 : fds ≠ [])
    (h3 : processFiles o commit fds = Except.ok []) :
    extract_function_diffs_from_commit o commit 0 = Except.error DiffError.noFunctionDiffs ∧
    (∀ msg, DiffError.noFunctionDiffs ≠ DiffError.gitError msg) ∧
    (∀ l : List CommitFuncDiff,
      (Except.error DiffError.noFunctionDiffs : Except DiffError (List CommitFuncDiff))
        ≠ Except.ok l) := by
  refine ⟨?_, fun msg h => DiffError.noConfusion h, fun l h => Except.noConfusion h⟩
  unfold extract_function_diffs_from_commit
  simp only [ne_eq, not_true_eq_false, if_false, reduceIte, h1]
  show (if fds = [] then _ else _) = _
  rw [if_neg h2]
  show (match processFiles o commit fds with
    | .error err => Except.error err
    | .ok all_function_diffs =>
      if all_function_diffs.length = 0 then Except.error DiffError.noFunctionDiffs
      else Except.ok all_function_diffs) = _
  rw [h3]
  rfl

/-- Witness for the amended C8 on a concrete oracle that processes one file
and produces no records. -/
theorem claim_C8_empty_result_witness :
    extract_function_diffs_from_commit oracleEmptyFuncs "c0" 0
      = Except.error DiffError.noFunctionDiffs :=
  (claim_C8_empty_result oracleEmptyFuncs "c0"
    [("m.py", "--- a/m.py\n+++ b/m.py\n@@ -1 +1 @@\n-x\n+y\n")]
    rfl (by simp) (by decide)).1

/-- **C5.** The per-file extraction splits into the two source loops; every
function the addition loop reports (diffed from empty pre-text) has a
qualified name occurring in no pre-image span and overlaps some target
range, and every function the first loop reports as deleted (its
`post_func_map` lookup failed, so it was diffed against empty post-text)
has a qualified name occurring in no post-image span. -/
theorem claim_C5_added_deleted (pre_text post_text diff : String)
    (pre_fns post_fns : List FunctionSpan) (dr : DiffRanges) (ab : String × String)
    (hdr : get_diff_changed_lines diff = Except.ok dr)
    (hab : get_a_and_b_paths diff = Except.ok ab) :
    extract_function_diffs_from_file_diff pre_text post_text diff pre_fns post_fns
      = Except.ok (pre_fns.filterMap
            (preLoopEmit pre_text post_text ab.1 ab.2 post_fns dr.source_ranges)
          ++ post_fns.filterMap
            (addLoopEmit post_text ab.1 ab.2 pre_fns dr.target_ranges)) ∧
    (∀ g ∈ post_fns, ∀ r,
      addLoopEmit post_text ab.1 ab.2 pre_fns dr.target_ranges g = some r →
      (∀ f ∈ pre_fns, ¬f.qualified_name = g.qualified_name) ∧
      function_overlaps_changes g dr.target_ranges = true) ∧
    (∀ f ∈ pre_fns,
      post_func_map post_fns f.qualified_name = none →
      ∀ g ∈ post_fns, ¬g.qualified_name = f.qualified_name) := by
  refine ⟨?_, ?_, ?_⟩
  · unfold extract_function_diffs_from_file_diff
    rw [hdr, hab]
  · intro g _ r hemit
    unfold addLoopEmit at hemit
    by_cases hc : (∀ f ∈ pre_fns, ¬f.qualified_name = g.qualified_name) ∧
        function_overlaps_changes g dr.target_ranges = true
    · exact hc
    · rw [if_neg hc] at hemit
      exact absurd hemit (Option.noConfusion)
  · intro f _ hnone g hg
    unfold post_func_map at hnone
    have := List.find?_eq_none.mp hnone g (List.mem_reverse.mpr hg)
    simpa using this

/-- Witness for C5: a commit adding function `g` to a file with no
pre-image functions; the addition loop emits it, and the theorem yields the
name-absence and overlap facts. -/
theorem claim_C5_added_deleted_witness :
    (∀ f ∈ ([] : List FunctionSpan), ¬f.qualified_name = gSpanEx.qualified_name) ∧
    function_overlaps_changes gSpanEx [(1, 4)] = true :=
  (claim_C5_added_deleted "x\nold\n" postTextEx
    "--- a/p.py\n+++ b/p.py\n@@ -1,2 +1,4 @@\n x\n-old\n+new\n+def g():\n+    pass\n"
    [] [gSpanEx] ⟨[(1, 2)], [(1, 4)]⟩ ("a/p.py", "b/p.py")
    (by rfl) (by rfl)).2.1 gSpanEx (by simp) gRecordEx (by rfl)

/-! ### Matching-block chains: the recursive block search produces a valid
`BChain`, collapsing adjacent blocks preserves it, and the opcode loop turns
it into a valid `OChain` covering the whole of both sequences. -/

lemma BChain_cons_inv (a b : List String) {i j k : Nat} {c e : Nat × Nat}
    {rest : List (Nat × Nat × Nat)} (h : BChain a b c ((i, j, k) :: rest) e) :
    c.1 ≤ i ∧ c.2 ≤ j ∧ k ≠ 0 ∧
    (∀ t, t < k → a.getD (i + t) "" = b.getD (j + t) "") ∧
    BChain a b (i + k, j + k) rest e := by
  cases h with
  | cons _ _ _ _ _ _ h1 h2 h3 h4 h5 => exact ⟨h1, h2, h3, h4, h5⟩

lemma BChain_append (a b : List String) :
    ∀ {l1 : List (Nat × Nat × Nat)} {c m : Nat × Nat}, BChain a b c l1 m →
    ∀ {l2 : List (Nat × Nat × Nat)} {e : Nat × Nat}, BChain a b m l2 e →
    BChain a b c (l1 ++ l2) e := by
  intro l1 c m h1
  induction h1 with
  | nil c => intro l2 e h2; simpa using h2
  | cons i j k c rest m hc1 hc2 hk hm hrest ih =>
    intro l2 e h2
    exact BChain.cons i j k c _ e hc1 hc2 hk hm (ih h2)

lemma BChain_cursor_le (a b : List String) :
    ∀ {l : List (Nat × Nat × Nat)} {c e : Nat × Nat}, BChain a b c l e →
    c.1 ≤ e.1 ∧ c.2 ≤ e.2 := by
  intro l c e h
  induction h with
  | nil c => exact ⟨le_refl _, le_refl _⟩
  | cons i j k c rest e hc1 hc2 hk hm hrest ih =>
    exact ⟨le_trans (le_trans hc1 (Nat.le_add_right i k)) ih.1,
      le_trans (le_trans hc2 (Nat.le_add_right j k)) ih.2⟩

lemma mblocksF_eq_succ (a b : List String) (n alo ahi blo bhi i j k : Nat)
    (hm : flm a b alo ahi blo bhi = (i, j, k)) :
    mblocksF a b (n + 1) alo ahi blo bhi =
      if k = 0 then []
      else
        (if alo < i ∧ blo < j then mblocksF a b n alo i blo j else [])
        ++ [(i, j, k)] ++
        (if i + k < ahi ∧ j + k < bhi then mblocksF a b n (i + k) ahi (j + k) bhi else []) := by
  conv_lhs => rw [mblocksF]
  rw [hm]

lemma mblocksF_chain (a b : List String) :
    ∀ fuel alo ahi blo bhi, alo ≤ ahi → blo ≤ bhi →
      (ahi - alo) + (bhi - blo) < fuel →
      ∃ e : Nat × Nat, BChain a b (alo, blo) (mblocksF a b fuel alo ahi blo bhi) e ∧
        e.1 ≤ ahi ∧ e.2 ≤ bhi := by
  intro fuel
  induction fuel with
  | zero => intro alo ahi blo bhi _ _ hf; omega
  | succ n ih =>
    intro alo ahi blo bhi ha hb hf
    rcases hm : flm a b alo ahi blo bhi with ⟨i, j, k⟩
    rw [mblocksF_eq_succ a b n alo ahi blo bhi i j k hm]
    by_cases hk : k = 0
    · rw [if_pos hk]
      exact ⟨(alo, blo), BChain.nil _, ha, hb⟩
    · rw [if_neg hk]
      obtain ⟨hmt, hbounds⟩ := flm_spec a b alo ahi blo bhi i j k hm
      obtain ⟨hb1, hb2, hb3, hb4⟩ := hbounds hk
      have hL : ∃ m1 : Nat × Nat,
          BChain a b (alo, blo) (if alo < i ∧ blo < j then mblocksF a b n alo i blo j else []) m1 ∧
          m1.1 ≤ i ∧ m1.2 ≤ j := by
        by_cases hl : alo < i ∧ blo < j
        · rw [if_pos hl]
          exact ih alo i blo j (by omega) (by omega) (by omega)
        · rw [if_neg hl]
          exact ⟨(alo, blo), BChain.nil _, hb1, hb2⟩
      have hR : ∃ e : Nat × Nat,
          BChain a b (i + k, j + k)
            (if i + k < ahi ∧ j + k < bhi then mblocksF a b n (i + k) ahi (j + k) bhi else []) e ∧
          e.1 ≤ ahi ∧ e.2 ≤ bhi := by
        by_cases hr : i + k < ahi ∧ j + k < bhi
        · rw [if_pos hr]
          exact ih (i + k) ahi (j + k) bhi (by omega) (by omega) (by omega)
        · rw [if_neg hr]
          exact ⟨(i + k, j + k), BChain.nil _, hb3, hb4⟩
      obtain ⟨m1, hchL, hm1a, hm1b⟩ := hL
      obtain ⟨e, hchR, hea, heb⟩ := hR
      refine ⟨e, ?_, hea, heb⟩
      rw [List.append_assoc, List.singleton_append]
      exact BChain_append a b hchL (BChain.cons i j k m1 _ e hm1a hm1b hk hmt hchR)

lemma collapseBlocks_chain (a b : List String) :
    ∀ (blocks : List (Nat × Nat × Nat)) (i1 j1 k1 : Nat) (c e : Nat × Nat),
      BChain a b (i1 + k1, j1 + k1) blocks e →
      (∀ t, t < k1 → a.getD (i1 + t) "" = b.getD (j1 + t) "") →
      c.1 ≤ i1 → c.2 ≤ j1 → (k1 = 0 → c = (i1, j1)) →
      BChain a b c (collapseBlocks i1 j1 k1 blocks) e := by
  intro blocks
  induction blocks with
  | nil =>
    intro i1 j1 k1 c e hch hm hc1 hc2 hc0
    cases hch
    show BChain a b c (if k1 ≠ 0 then [(i1, j1, k1)] else []) (i1 + k1, j1 + k1)
    by_cases hk : k1 = 0
    · rw [if_neg (by simp [hk])]
      have hc := hc0 hk
      rw [hc, hk]
      simpa using @BChain.nil a b (i1, j1)
    · rw [if_pos hk]
      exact BChain.cons i1 j1 k1 c [] _ hc1 hc2 hk hm (BChain.nil _)
  | cons hd rest ih =>
    intro i1 j1 k1 c e hch hm hc1 hc2 hc0
    obtain ⟨i2, j2, k2⟩ := hd
    obtain ⟨hi2, hj2, hk2, hm2, hrest⟩ := BChain_cons_inv a b hch
    have hi2' : i1 + k1 ≤ i2 := hi2
    have hj2' : j1 + k1 ≤ j2 := hj2
    show BChain a b c
      (if i1 + k1 = i2 ∧ j1 + k1 = j2 then collapseBlocks i1 j1 (k1 + k2) rest
       else (if k1 ≠ 0 then [(i1, j1, k1)] else []) ++ collapseBlocks i2 j2 k2 rest) e
    by_cases hmerge : i1 + k1 = i2 ∧ j1 + k1 = j2
    · rw [if_pos hmerge]
      apply ih i1 j1 (k1 + k2) c e ?_ ?_ hc1 hc2 ?_
      · have ha : i1 + (k1 + k2) = i2 + k2 := by omega
        have hb : j1 + (k1 + k2) = j2 + k2 := by omega
        rw [ha, hb]
        exact hrest
      · intro t ht
        by_cases htk : t < k1
        · exact hm t htk
        · have ha : i1 + t = i2 + (t - k1) := by omega
          have hb : j1 + t = j2 + (t - k1) := by omega
          rw [ha, hb]
          exact hm2 (t - k1) (by omega)
      · intro hk0
        exact absurd (by omega : k2 = 0) hk2
    · rw [if_neg hmerge]
      by_cases hk : k1 = 0
      · rw [if_neg (by simp [hk])]
        rw [List.nil_append]
        exact ih i2 j2 k2 c e hrest hm2 (by omega) (by omega)
          (fun hk20 => absurd hk20 hk2)
      · rw [if_pos hk]
        rw [List.singleton_append]
        exact BChain.cons i1 j1 k1 c _ e hc1 hc2 hk hm
          (ih i2 j2 k2 (i1 + k1, j1 + k1) e hrest hm2 hi2' hj2'
            (fun hk20 => absurd hk20 hk2))

/-! ### Slice lemmas used to read off the opcode structure. -/

lemma pySlice_eq_of_pointwise (a b : List String) (i j k : Nat)
    (hik : i + k ≤ a.length) (hjk : j + k ≤ b.length)
    (hm : ∀ t, t < k → a.getD (i + t) "" = b.getD (j + t) "") :
    pySlice a i (i + k) = pySlice b j (j + k) := by
  apply List.ext_getElem
  · simp only [pySlice, List.length_take, List.length_drop]
    omega
  · intro t h1 h2
    have hlt : t < k := by
      simp only [pySlice, List.length_take, List.length_drop] at h1
      omega
    have hta : i + t < a.length := by omega
    have htb : j + t < b.length := by omega
    have e1 : (pySlice a i (i + k))[t] = a[i + t] := by
      simp only [pySlice]
      rw [List.getElem_take, List.getElem_drop]
    have e2 : (pySlice b j (j + k))[t] = b[j + t] := by
      simp only [pySlice]
      rw [List.getElem_take, List.getElem_drop]
    rw [e1, e2]
    have hmt := hm t hlt
    rwa [List.getD_eq_getElem a "" hta, List.getD_eq_getElem b "" htb] at hmt

lemma pySlice_append {α : Type} (l : List α) (c m e : Nat) (h1 : c ≤ m) (h2 : m ≤ e) :
    pySlice l c m ++ pySlice l m e = pySlice l c e := by
  simp only [pySlice]
  have hnum : e - c = (m - c) + (e - m) := by omega
  rw [hnum, List.take_add]
  have hdd : (l.drop c).drop (m - c) = l.drop m := by
    rw [List.drop_drop]
    congr 1
    omega
  rw [hdd]

lemma pySlice_nil {α : Type} (l : List α) (c : Nat) : pySlice l c c = [] := by
  simp [pySlice]

lemma pySlice_all {α : Type} (l : List α) : pySlice l 0 l.length = l := by
  simp [pySlice]

/-! ### Opcode chains. -/

lemma OChain_cursor_le (a b : List String) :
    ∀ {l : List Opcode} {c e : Nat × Nat}, OChain a b c l e →
    c.1 ≤ e.1 ∧ c.2 ≤ e.2 := by
  intro l c e h
  induction h with
  | nil c => exact ⟨le_refl _, le_refl _⟩
  | cons tg i2 j2 c rest e hla hlb hc1 hc2 heq hrep hdel hins hrest ih =>
    exact ⟨le_trans hc1 ih.1, le_trans hc2 ih.2⟩

lemma OChain_bounds (a b : List String) :
    ∀ {l : List Opcode} {c e : Nat × Nat}, OChain a b c l e →
    e.1 ≤ a.length ∧ e.2 ≤ b.length → ∀ op ∈ l,
      op.i2 ≤ a.length ∧ op.j2 ≤ b.length ∧ op.i1 ≤ op.i2 ∧ op.j1 ≤ op.j2 := by
  intro l c e h
  induction h with
  | nil c => intro _ op hop; exact absurd hop (List.not_mem_nil op)
  | cons tg i2 j2 c rest e hla hlb hc1 hc2 heq hrep hdel hins hrest ih =>
    intro hbnd op hop
    rcases List.mem_cons.mp hop with hop | hop
    · subst hop
      exact ⟨hla, hlb, hc1, hc2⟩
    · exact ih hbnd op hop

lemma OChain_append_right (a b : List String) :
    ∀ {l1 : List Opcode} {c m : Nat × Nat}, OChain a b c l1 m →
    ∀ {l2 : List Opcode} {e : Nat × Nat}, OChain a b m l2 e →
    OChain a b c (l1 ++ l2) e := by
  intro l1 c m h1
  induction h1 with
  | nil c => intro l2 e h2; simpa using h2
  | cons tg i2 j2 c rest m hla hlb hc1 hc2 heq hrep hdel hins hrest ih =>
    intro l2 e h2
    exact OChain.cons tg i2 j2 c _ e hla hlb hc1 hc2 heq hrep hdel hins (ih h2)

lemma OChain_src_concat (a b : List String) :
    ∀ {l : List Opcode} {c e : Nat × Nat}, OChain a b c l e →
    l.flatMap (fun op => pySlice a op.i1 op.i2) = pySlice a c.1 e.1 := by
  intro l c e h
  induction h with
  | nil c => simp [pySlice_nil]
  | cons tg i2 j2 c rest e hla hlb hc1 hc2 heq hrep hdel hins hrest ih =>
    have hle := (OChain_cursor_le a b hrest).1
    rw [List.flatMap_cons, ih]
    exact pySlice_append a c.1 i2 e.1 hc1 hle

lemma OChain_tgt_concat (a b : List String) :
    ∀ {l : List Opcode} {c e : Nat × Nat}, OChain a b c l e →
    l.flatMap (fun op => pySlice b op.j1 op.j2) = pySlice b c.2 e.2 := by
  intro l c e h
  induction h with
  | nil c => simp [pySlice_nil]
  | cons tg i2 j2 c rest e hla hlb hc1 hc2 heq hrep hdel hins hrest ih =>
    have hle := (OChain_cursor_le a b hrest).2
    rw [List.flatMap_cons, ih]
    exact pySlice_append b c.2 j2 e.2 hc2 hle

/-! ### From `BChain` to `OChain` through the opcode loop. -/

lemma opcodesFromBlocks_cons (i j ai bj size : Nat) (rest : List (Nat × Nat × Nat)) :
    opcodesFromBlocks i j ((ai, bj, size) :: rest) =
      (if i < ai ∧ j < bj then [⟨DTag.replace, i, ai, j, bj⟩]
       else if i < ai then [⟨DTag.delete, i, ai, j, bj⟩]
       else if j < bj then [⟨DTag.insert, i, ai, j, bj⟩]
       else [])
      ++ (if size ≠ 0 then [⟨DTag.equal, ai, ai + size, bj, bj + size⟩] else [])
      ++ opcodesFromBlocks (ai + size) (bj + size) rest := rfl

lemma gap_chain (a b : List String) (c : Nat × Nat) (gi gj : Nat) (rest : List Opcode)
    (e : Nat × Nat) (hga : gi ≤ a.length) (hgb : gj ≤ b.length)
    (h1 : c.1 ≤ gi) (h2 : c.2 ≤ gj)
    (hrest : OChain a b (gi, gj) rest e) :
    OChain a b c
      ((if c.1 < gi ∧ c.2 < gj then [⟨DTag.replace, c.1, gi, c.2, gj⟩]
        else if c.1 < gi then [⟨DTag.delete, c.1, gi, c.2, gj⟩]
        else if c.2 < gj then [⟨DTag.insert, c.1, gi, c.2, gj⟩]
        else []) ++ rest) e := by
  by_cases hrp : c.1 < gi ∧ c.2 < gj
  · rw [if_pos hrp, List.singleton_append]
    exact OChain.cons DTag.replace gi gj c rest e hga hgb h1 h2
      (fun h => nomatch h) (fun _ => hrp) (fun h => nomatch h) (fun h => nomatch h) hrest
  · rw [if_neg hrp]
    by_cases hdl : c.1 < gi
    · rw [if_pos hdl, List.singleton_append]
      have hj : c.2 = gj := by omega
      exact OChain.cons DTag.delete gi gj c rest e hga hgb h1 h2
        (fun h => nomatch h) (fun h => nomatch h) (fun _ => ⟨hdl, hj⟩) (fun h => nomatch h) hrest
    · rw [if_neg hdl]
      by_cases hin : c.2 < gj
      · rw [if_pos hin, List.singleton_append]
        have hi : c.1 = gi := by omega
        exact OChain.cons DTag.insert gi gj c rest e hga hgb h1 h2
          (fun h => nomatch h) (fun h => nomatch h) (fun h => nomatch h) (fun _ => ⟨hi, hin⟩) hrest
      · rw [if_neg hin, List.nil_append]
        have hc : c = (gi, gj) := by
          obtain ⟨cx, cy⟩ := c
          simp only [Prod.mk.injEq]
          constructor <;> omega
        rw [hc]
        exact hrest

lemma opcodesFromBlocks_chain (a b : List String) :
    ∀ (blocks : List (Nat × Nat × Nat)) (c e : Nat × Nat),
      BChain a b c blocks e → e.1 ≤ a.length → e.2 ≤ b.length →
      OChain a b c (opcodesFromBlocks c.1 c.2 (blocks ++ [(a.length, b.length, 0)]))
        (a.length, b.length) := by
  intro blocks
  induction blocks with
  | nil =>
    intro c e hch he1 he2
    cases hch
    rw [List.nil_append, opcodesFromBlocks_cons]
    rw [if_neg (show ¬((0 : Nat) ≠ 0) from by simp)]
    have hrec : opcodesFromBlocks (a.length + 0) (b.length + 0) [] = [] := rfl
    rw [hrec, List.append_nil, List.append_nil]
    have := gap_chain a b c a.length b.length [] (a.length, b.length)
      (le_refl _) (le_refl _) he1 he2 (OChain.nil _)
    simpa using this
  | cons hd rest ih =>
    intro c e hch he1 he2
    obtain ⟨i, j, k⟩ := hd
    obtain ⟨hi, hj, hk, hm, hrest⟩ := BChain_cons_inv a b hch
    have hcur := BChain_cursor_le a b hrest
    rw [List.cons_append, opcodesFromBlocks_cons, if_pos hk, List.append_assoc,
      List.singleton_append]
    apply gap_chain a b c i j _ (a.length, b.length) (by omega) (by omega) hi hj
    have hrec := ih (i + k, j + k) e hrest he1 he2
    exact OChain.cons DTag.equal (i + k) (j + k) (i, j) _ (a.length, b.length)
      (by omega) (by omega) (by omega) (by omega)
      (fun _ => ⟨pySlice_eq_of_pointwise a b i j k (by omega) (by omega) hm,
        by omega, by omega⟩)
      (fun h => nomatch h) (fun h => nomatch h) (fun h => nomatch h) hrec

lemma get_opcodes_chain (a b : List String) :
    OChain a b (0, 0) (get_opcodes a b) (a.length, b.length) := by
  obtain ⟨e, hch, he1, he2⟩ :=
    mblocksF_chain a b (a.length + b.length + 1) 0 a.length 0 b.length
      (Nat.zero_le _) (Nat.zero_le _) (by omega)
  have hcol := collapseBlocks_chain a b _ 0 0 0 (0, 0) e hch
    (fun t ht => absurd ht (Nat.not_lt_zero t)) (le_refl _) (le_refl _) (fun _ => rfl)
  exact opcodesFromBlocks_chain a b _ (0, 0) e hcol he1 he2

/-! ### Inversion lemmas for opcode chains, and the no-op character of the
grouping fixups when the context radius covers both sequences. -/

lemma OChain_nil_inv (a b : List String) {c e : Nat × Nat} (h : OChain a b c [] e) :
    c = e := by
  cases h
  rfl

lemma OChain_cons_inv (a b : List String) {op : Opcode} {c e : Nat × Nat}
    {rest : List Opcode} (h : OChain a b c (op :: rest) e) :
    op.i1 = c.1 ∧ op.j1 = c.2 ∧ op.i2 ≤ a.length ∧ op.j2 ≤ b.length ∧
    c.1 ≤ op.i2 ∧ c.2 ≤ op.j2 ∧
    (op.tag = DTag.equal →
      pySlice a c.1 op.i2 = pySlice b c.2 op.j2 ∧ c.1 < op.i2 ∧ c.2 < op.j2) ∧
    (op.tag = DTag.replace → c.1 < op.i2 ∧ c.2 < op.j2) ∧
    (op.tag = DTag.delete → c.1 < op.i2 ∧ c.2 = op.j2) ∧
    (op.tag = DTag.insert → c.1 = op.i2 ∧ c.2 < op.j2) ∧
    OChain a b (op.i2, op.j2) rest e := by
  cases h with
  | cons tg i2 j2 _ _ _ hla hlb hc1 hc2 heq hrep hdel hins hrest =>
    exact ⟨rfl, rfl, hla, hlb, hc1, hc2, heq, hrep, hdel, hins, hrest⟩

lemma get_opcodes_ne_nil (a b : List String) (hne : a ≠ b) : get_opcodes a b ≠ [] := by
  intro h
  have hch := get_opcodes_chain a b
  rw [h] at hch
  have hc := OChain_nil_inv a b hch
  have h1 : a.length = 0 := (congrArg Prod.fst hc).symm
  have h2 : b.length = 0 := (congrArg Prod.snd hc).symm
  exact hne ((List.length_eq_zero.mp h1).trans (List.length_eq_zero.mp h2).symm)

lemma get_opcodes_single_equal (a b : List String) (op : Opcode)
    (h : get_opcodes a b = [op]) (htag : op.tag = DTag.equal) : a = b := by
  have hch := get_opcodes_chain a b
  rw [h] at hch
  obtain ⟨_, _, _, _, _, _, heq, _, _, _, hrest⟩ := OChain_cons_inv a b hch
  have hce := OChain_nil_inv a b hrest
  obtain ⟨hsl, _, _⟩ := heq htag
  have hi2 : op.i2 = a.length := congrArg Prod.fst hce
  have hj2 : op.j2 = b.length := congrArg Prod.snd hce
  have hsl' : pySlice a 0 op.i2 = pySlice b 0 op.j2 := hsl
  rw [hi2, hj2, pySlice_all, pySlice_all] at hsl'
  exact hsl'

lemma fixupHead_id (n : Nat) (codes : List Opcode)
    (hb : ∀ op ∈ codes, op.i2 ≤ n ∧ op.j2 ≤ n) : fixupHead n codes = codes := by
  cases codes with
  | nil => rfl
  | cons c rest =>
    obtain ⟨tg, i1, i2, j1, j2⟩ := c
    cases tg with
    | equal =>
      have hb' : i2 ≤ n ∧ j2 ≤ n :=
        hb ⟨DTag.equal, i1, i2, j1, j2⟩ (List.mem_cons_self _ _)
      show (⟨DTag.equal, max i1 (i2 - n), i2, max j1 (j2 - n), j2⟩ : Opcode) :: rest = _
      have h1 : max i1 (i2 - n) = i1 := by omega
      have h2 : max j1 (j2 - n) = j1 := by omega
      rw [h1, h2]
    | replace => rfl
    | delete => rfl
    | insert => rfl

lemma fixupLast_id (n : Nat) : ∀ (codes : List Opcode),
    (∀ op ∈ codes, op.i2 ≤ n ∧ op.j2 ≤ n) → fixupLast n codes = codes := by
  intro codes
  induction codes with
  | nil => intro _; rfl
  | cons c rest ih =>
    intro hb
    cases rest with
    | nil =>
      obtain ⟨tg, i1, i2, j1, j2⟩ := c
      cases tg with
      | equal =>
        have hb' : i2 ≤ n ∧ j2 ≤ n :=
          hb ⟨DTag.equal, i1, i2, j1, j2⟩ (List.mem_cons_self _ _)
        show [(⟨DTag.equal, i1, min i2 (i1 + n), j1, min j2 (j1 + n)⟩ : Opcode)] = _
        have h1 : min i2 (i1 + n) = i2 := by omega
        have h2 : min j2 (j1 + n) = j2 := by omega
        rw [h1, h2]
      | replace => rfl
      | delete => rfl
      | insert => rfl
    | cons c2 rest2 =>
      have hrec := ih (fun op hop => hb op (List.mem_cons_of_mem _ hop))
      obtain ⟨tg, i1, i2, j1, j2⟩ := c
      cases tg
      all_goals
        show _ :: fixupLast n (c2 :: rest2) = _
        rw [hrec]

lemma groupSplit_nil (n : Nat) (group : List Opcode) :
    groupSplit n group [] =
      if group ≠ [] ∧ ¬(group.length = 1 ∧ (group.headD default).tag = DTag.equal) then
        [group]
      else [] := rfl

lemma groupSplit_cons (n : Nat) (group : List Opcode) (c : Opcode) (rest : List Opcode) :
    groupSplit n group (c :: rest) =
      if c.tag = DTag.equal ∧ 2 * n < c.i2 - c.i1 then
        (group ++ [⟨c.tag, c.i1, min c.i2 (c.i1 + n), c.j1, min c.j2 (c.j1 + n)⟩]) ::
          groupSplit n [⟨c.tag, max c.i1 (c.i2 - n), c.i2, max c.j1 (c.j2 - n), c.j2⟩] rest
      else groupSplit n (group ++ [c]) rest := rfl

lemma groupSplit_no_split (n : Nat) :
    ∀ (codes group : List Opcode),
      (∀ op ∈ codes, ¬(op.tag = DTag.equal ∧ 2 * n < op.i2 - op.i1)) →
      groupSplit n group codes = groupSplit n (group ++ codes) [] := by
  intro codes
  induction codes with
  | nil => intro group _; rw [List.append_nil]
  | cons c rest ih =>
    intro group h
    rw [groupSplit_cons, if_neg (h c (List.mem_cons_self c rest))]
    rw [ih (group ++ [c]) (fun op hop => h op (List.mem_cons_of_mem c hop))]
    congr 1
    simp

lemma grouped_single (a b : List String) (n : Nat)
    (hla : a.length ≤ n) (hlb : b.length ≤ n) (hne : a ≠ b) :
    get_grouped_opcodes a b n = [get_opcodes a b] := by
  have hch := get_opcodes_chain a b
  have hbnd := OChain_bounds a b hch ⟨le_refl _, le_refl _⟩
  have hne' := get_opcodes_ne_nil a b hne
  have hb2 : ∀ op ∈ get_opcodes a b, op.i2 ≤ n ∧ op.j2 ≤ n := by
    intro op hop
    obtain ⟨h1, h2, _, _⟩ := hbnd op hop
    exact ⟨le_trans h1 hla, le_trans h2 hlb⟩
  simp only [get_grouped_opcodes]
  rw [if_neg hne', fixupHead_id n _ hb2, fixupLast_id n _ hb2]
  rw [groupSplit_no_split n _ []]
  · rw [List.nil_append, groupSplit_nil, if_pos]
    refine ⟨hne', ?_⟩
    intro hcc
    obtain ⟨op, hop⟩ := List.length_eq_one.mp hcc.1
    have htag := hcc.2
    rw [hop] at htag
    simp only [List.headD_cons] at htag
    exact hne (get_opcodes_single_equal a b op hop htag)
  · intro op hop hcc
    have := (hb2 op hop).1
    have := hcc.2
    omega

lemma unified_diff_ne (a b : List String) (fromfile tofile : String) (n : Nat)
    (hla : a.length ≤ n) (hlb : b.length ≤ n) (hne : a ≠ b) :
    unified_diff a b fromfile tofile n =
      ("--- " ++ fromfile ++ "\n") :: ("+++ " ++ tofile ++ "\n")
        :: renderGroup a b (get_opcodes a b) := by
  simp only [unified_diff]
  rw [grouped_single a b n hla hlb hne]
  simp

lemma mem_render_src (a b : List String) :
    ∀ {l : List Opcode} {c e : Nat × Nat}, OChain a b c l e →
      ∀ op ∈ l, ∀ x ∈ pySlice a op.i1 op.i2,
        ("-" ++ x) ∈ renderOpcode a b op ∨ (" " ++ x) ∈ renderOpcode a b op := by
  intro l c e h
  induction h with
  | nil c => intro op hop; exact absurd hop (List.not_mem_nil op)
  | cons tg i2 j2 c rest e hla hlb hc1 hc2 heq hrep hdel hins hrest ih =>
    intro op hop x hx
    rcases List.mem_cons.mp hop with hop | hop
    · subst hop
      cases tg with
      | equal =>
        right
        exact List.mem_map_of_mem _ hx
      | replace =>
        left
        exact List.mem_append_left _ (List.mem_map_of_mem _ hx)
      | delete =>
        left
        exact List.mem_map_of_mem _ hx
      | insert =>
        exfalso
        have h1 := (hins rfl).1
        have hx' : x ∈ pySlice a c.1 i2 := hx
        rw [← h1, pySlice_nil] at hx'
        exact absurd hx' (List.not_mem_nil x)
    · exact ih op hop x hx

lemma mem_render_tgt (a b : List String) :
    ∀ {l : List Opcode} {c e : Nat × Nat}, OChain a b c l e →
      ∀ op ∈ l, ∀ x ∈ pySlice b op.j1 op.j2,
        ("+" ++ x) ∈ renderOpcode a b op ∨ (" " ++ x) ∈ renderOpcode a b op := by
  intro l c e h
  induction h with
  | nil c => intro op hop; exact absurd hop (List.not_mem_nil op)
  | cons tg i2 j2 c rest e hla hlb hc1 hc2 heq hrep hdel hins hrest ih =>
    intro op hop x hx
    rcases List.mem_cons.mp hop with hop | hop
    · subst hop
      cases tg with
      | equal =>
        right
        have hx' : x ∈ pySlice b c.2 j2 := hx
        rw [← (heq rfl).1] at hx'
        exact List.mem_map_of_mem _ hx'
      | replace =>
        left
        exact List.mem_append_right _ (List.mem_map_of_mem _ hx)
      | delete =>
        exfalso
        have h1 := (hdel rfl).2
        have hx' : x ∈ pySlice b c.2 j2 := hx
        rw [h1, pySlice_nil] at hx'
        exact absurd hx' (List.not_mem_nil x)
      | insert =>
        left
        exact List.mem_map_of_mem _ hx
    · exact ih op hop x hx

/-! ### `splitlines` joins back to the original string, hence is injective. -/

lemma splitlinesAux_flatten : ∀ (cs acc : List Char),
    (splitlinesAux cs acc).flatten = acc.reverse ++ cs
  | [], acc => by
    simp only [splitlinesAux]
    by_cases h : acc.isEmpty
    · rw [if_pos h]
      have ha : acc = [] := by simpa using h
      subst ha
      rfl
    · rw [if_neg h]
      simp
  | [c], acc => by
    simp only [splitlinesAux]
    by_cases h : isLineBreakChar c
    · rw [if_pos h]
      simp
    · rw [if_neg h]
      simp
  | c :: d :: rest, acc => by
    simp only [splitlinesAux]
    by_cases h1 : c = '\r' ∧ d = '\n'
    · rw [if_pos h1, List.flatten_cons, splitlinesAux_flatten rest []]
      simp
    · rw [if_neg h1]
      by_cases h2 : isLineBreakChar c
      · rw [if_pos h2, List.flatten_cons, splitlinesAux_flatten (d :: rest) []]
        simp
      · rw [if_neg h2, splitlinesAux_flatten (d :: rest) (c :: acc)]
        simp

lemma join_map_mk : ∀ (L : List (List Char)) (acc : List Char),
    (L.map String.mk).foldl (· ++ ·) (String.mk acc) = String.mk (acc ++ L.flatten) := by
  intro L
  induction L with
  | nil => intro acc; simp
  | cons l L ih =>
    intro acc
    show (L.map String.mk).foldl (· ++ ·) (String.mk acc ++ String.mk l) = _
    have happ : String.mk acc ++ String.mk l = String.mk (acc ++ l) := rfl
    rw [happ, ih (acc ++ l)]
    simp

lemma join_splitlines (s : String) : String.join (pySplitlines s) = s := by
  show ((splitlinesAux s.data []).map String.mk).foldl (· ++ ·) "" = s
  have h0 : ("" : String) = String.mk [] := rfl
  rw [h0, join_map_mk, splitlinesAux_flatten]
  have h1 : ([] : List Char) ++ (([] : List Char).reverse ++ s.data) = s.data := by simp
  rw [h1]

lemma pySplitlines_inj (s t : String) (h : pySplitlines s = pySplitlines t) : s = t := by
  have h2 := congrArg String.join h
  rwa [join_splitlines, join_splitlines] at h2

/-- C1: the synthesis step diffs the two `splitlines(keepends=True)` line
lists with context size `max(len(pre_lines), len(post_lines))`, and
consequently, whenever the two texts differ, the emitted diff lines contain
every line of the pre-image (marked `-` or ` `) and every line of the
post-image (marked `+` or ` `): the complete function bodies, not just the
changed lines. -/
theorem claim_C1_full_context (pre_text post_text a_path b_path : String)
    (hne : pre_text ≠ post_text) :
    generate_function_unified_diff_lines pre_text post_text a_path b_path
      = unified_diff (pySplitlines pre_text) (pySplitlines post_text) a_path b_path
          (max (pySplitlines pre_text).length (pySplitlines post_text).length) ∧
    (∀ x ∈ pySplitlines pre_text,
      ("-" ++ x) ∈ generate_function_unified_diff_lines pre_text post_text a_path b_path ∨
      (" " ++ x) ∈ generate_function_unified_diff_lines pre_text post_text a_path b_path) ∧
    (∀ x ∈ pySplitlines post_text,
      ("+" ++ x) ∈ generate_function_unified_diff_lines pre_text post_text a_path b_path ∨
      (" " ++ x) ∈ generate_function_unified_diff_lines pre_text post_text a_path b_path) := by
  have hne' : pySplitlines pre_text ≠ pySplitlines post_text :=
    fun h => hne (pySplitlines_inj pre_text post_text h)
  have hch := get_opcodes_chain (pySplitlines pre_text) (pySplitlines post_text)
  have hud : generate_function_unified_diff_lines pre_text post_text a_path b_path
      = ("--- " ++ a_path ++ "\n") :: ("+++ " ++ b_path ++ "\n")
        :: renderGroup (pySplitlines pre_text) (pySplitlines post_text)
             (get_opcodes (pySplitlines pre_text) (pySplitlines post_text)) :=
    unified_diff_ne (pySplitlines pre_text) (pySplitlines post_text) a_path b_path
      (max (pySplitlines pre_text).length (pySplitlines post_text).length)
      (Nat.le_max_left _ _) (Nat.le_max_right _ _) hne'
  refine ⟨rfl, ?_, ?_⟩
  · intro x hx
    have hx2 : x ∈ (get_opcodes (pySplitlines pre_text) (pySplitlines post_text)).flatMap
        (fun op => pySlice (pySplitlines pre_text) op.i1 op.i2) := by
      rw [OChain_src_concat _ _ hch]
      show x ∈ pySlice (pySplitlines pre_text) 0 (pySplitlines pre_text).length
      rw [pySlice_all]
      exact hx
    obtain ⟨op, hop, hxop⟩ := List.mem_flatMap.mp hx2
    rcases mem_render_src _ _ hch op hop x hxop with h | h
    · left
      rw [hud]
      exact List.mem_cons_of_mem _ (List.mem_cons_of_mem _
        (List.mem_cons_of_mem _ (List.mem_flatMap.mpr ⟨op, hop, h⟩)))
    · right
      rw [hud]
      exact List.mem_cons_of_mem _ (List.mem_cons_of_mem _
        (List.mem_cons_of_mem _ (List.mem_flatMap.mpr ⟨op, hop, h⟩)))
  · intro x hx
    have hx2 : x ∈ (get_opcodes (pySplitlines pre_text) (pySplitlines post_text)).flatMap
        (fun op => pySlice (pySplitlines post_text) op.j1 op.j2) := by
      rw [OChain_tgt_concat _ _ hch]
      show x ∈ pySlice (pySplitlines post_text) 0 (pySplitlines post_text).length
      rw [pySlice_all]
      exact hx
    obtain ⟨op, hop, hxop⟩ := List.mem_flatMap.mp hx2
    rcases mem_render_tgt _ _ hch op hop x hxop with h | h
    · left
      rw [hud]
      exact List.mem_cons_of_mem _ (List.mem_cons_of_mem _
        (List.mem_cons_of_mem _ (List.mem_flatMap.mpr ⟨op, hop, h⟩)))
    · right
      rw [hud]
      exact List.mem_cons_of_mem _ (List.mem_cons_of_mem _
        (List.mem_cons_of_mem _ (List.mem_flatMap.mpr ⟨op, hop, h⟩)))

/-- Witness for C1 at `pre = "a\n"`, `post = "b\n"`: the texts differ and
every line of both sides occurs, marked, in the generated diff lines. -/
theorem claim_C1_full_context_witness :
    ("a\n" : String) ≠ "b\n" ∧
    ((∀ x ∈ pySplitlines "a\n",
      ("-" ++ x) ∈ generate_function_unified_diff_lines "a\n" "b\n" "f" "g" ∨
      (" " ++ x) ∈ generate_function_unified_diff_lines "a\n" "b\n" "f" "g") ∧
    (∀ x ∈ pySplitlines "b\n",
      ("+" ++ x) ∈ generate_function_unified_diff_lines "a\n" "b\n" "f" "g" ∨
      (" " ++ x) ∈ generate_function_unified_diff_lines "a\n" "b\n" "f" "g")) :=
  ⟨by decide, (claim_C1_full_context "a\n" "b\n" "f" "g" (by decide)).2⟩

/-! ### The matcher on two identical sequences: the best run stays on the
diagonal, the extension phases close the whole diagonal, and the generated
diff is empty. -/

lemma validJ_self_mem (l : List String) {bhi i j : Nat} (hj : j ∈ validJ l l 0 bhi i)
    (hi : i < l.length) (hib : i < bhi) : i ∈ validJ l l 0 bhi i := by
  unfold validJ at hj ⊢
  rw [List.mem_filter] at hj ⊢
  refine ⟨?_, by simp only [decide_eq_true_eq]; omega⟩
  have hb := hj.1
  unfold b2j at hb ⊢
  by_cases hpop : isPopular l (l.getD i "") = true
  · rw [if_pos hpop] at hb
    exact absurd hb (List.not_mem_nil j)
  · rw [if_neg hpop] at hb ⊢
    unfold indicesOf
    rw [List.mem_filter]
    exact ⟨List.mem_range.mpr hi, by simp⟩

lemma validJ_mem_self_of_mem (l : List String) {bhi i j : Nat}
    (hj : j ∈ validJ l l 0 bhi i) : j ∈ validJ l l 0 bhi j := by
  have hv := mem_validJ hj
  unfold validJ at hj ⊢
  rw [List.mem_filter] at hj ⊢
  refine ⟨?_, hj.2⟩
  rw [hv.2.2.1]
  exact hj.1

lemma validJ_pairwise (a b : List String) (blo bhi i : Nat) :
    (validJ a b blo bhi i).Pairwise (· < ·) := by
  unfold validJ b2j
  split
  · simp
  · have h1 : List.Pairwise (· < ·) (indicesOf b (a.getD i "")) := by
      unfold indicesOf
      exact List.Pairwise.sublist (List.filter_sublist _) (List.pairwise_lt_range _)
    exact List.Pairwise.sublist (List.filter_sublist _) h1

lemma runLen_le_diagL (l : List String) :
    ∀ j i, j ≤ i →
      runLen l l 0 0 l.length i j ≤ runLen l l 0 0 l.length j j := by
  intro j
  induction j using Nat.strong_induction_on with
  | _ j ih =>
    intro i hji
    rw [runLen_eq l l 0 0 l.length i j]
    split
    case isFalse => omega
    case isTrue hmem =>
      have hjj := validJ_mem_self_of_mem l hmem
      rw [runLen_eq l l 0 0 l.length j j, if_pos hjj]
      by_cases hj0 : 0 < j
      · rw [if_pos ⟨by omega, hj0⟩, if_pos ⟨hj0, hj0⟩]
        have := ih (j - 1) (by omega) (i - 1) (by omega)
        omega
      · have hL : ¬(0 < i ∧ 0 < j) := by omega
        have hR : ¬(0 < j ∧ 0 < j) := by omega
        rw [if_neg hL, if_neg hR]

lemma runLen_le_diagR (l : List String) :
    ∀ i j, i ≤ j → i < l.length →
      runLen l l 0 0 l.length i j ≤ runLen l l 0 0 l.length i i := by
  intro i
  induction i using Nat.strong_induction_on with
  | _ i ih =>
    intro j hij hil
    rw [runLen_eq l l 0 0 l.length i j]
    split
    case isFalse => omega
    case isTrue hmem =>
      have hii := validJ_self_mem l hmem hil hil
      rw [runLen_eq l l 0 0 l.length i i, if_pos hii]
      by_cases hi0 : 0 < i
      · rw [if_pos ⟨hi0, by omega⟩, if_pos ⟨hi0, hi0⟩]
        have := ih (i - 1) (by omega) (j - 1) (by omega) (by omega)
        omega
      · have hL : ¬(0 < i ∧ 0 < j) := by omega
        have hR : ¬(0 < i ∧ 0 < i) := by omega
        rw [if_neg hL, if_neg hR]

lemma dp_diag_row (l : List String) (i : Nat) (hi : i < l.length) :
    ∀ (J : List Nat) (st : Nat × Nat × Nat),
      (∀ j ∈ J, j ∈ validJ l l 0 l.length i) →
      J.Pairwise (· < ·) →
      st.1 = st.2.1 →
      (∀ r, r < i → runLen l l 0 0 l.length r r ≤ st.2.2) →
      (runLen l l 0 0 l.length i i ≤ st.2.2 ∨ i ∈ J) →
      (J.foldl (fun st j => dpUpd l l 0 0 l.length st i j) st).1
          = (J.foldl (fun st j => dpUpd l l 0 0 l.length st i j) st).2.1 ∧
      (∀ r, r ≤ i → runLen l l 0 0 l.length r r ≤
          (J.foldl (fun st j => dpUpd l l 0 0 l.length st i j) st).2.2) ∧
      st.2.2 ≤ (J.foldl (fun st j => dpUpd l l 0 0 l.length st i j) st).2.2 := by
  intro J
  induction J with
  | nil =>
    intro st _ _ hdiag hhist hdis
    simp only [List.foldl_nil]
    refine ⟨hdiag, ?_, le_refl _⟩
    intro r hr
    rcases Nat.lt_or_ge r i with h | h
    · exact hhist r h
    · have hri : r = i := by omega
      subst hri
      rcases hdis with h2 | h2
      · exact h2
      · exact absurd h2 (List.not_mem_nil r)
  | cons j J ih =>
    intro st hmem hpw hdiag hhist hdis
    simp only [List.foldl_cons]
    have hpw' := List.pairwise_cons.mp hpw
    rcases Nat.lt_trichotomy j i with hji | hji | hji
    · have hk : runLen l l 0 0 l.length i j ≤ st.2.2 :=
        le_trans (runLen_le_diagL l j i (by omega)) (hhist j hji)
      have hst' : dpUpd l l 0 0 l.length st i j = st := by
        show (if st.2.2 < runLen l l 0 0 l.length i j
            then (i + 1 - runLen l l 0 0 l.length i j,
              j + 1 - runLen l l 0 0 l.length i j,
              runLen l l 0 0 l.length i j)
            else st) = st
        rw [if_neg (by omega)]
      rw [hst']
      refine ih st (fun x hx => hmem x (List.mem_cons_of_mem _ hx)) hpw'.2 hdiag hhist ?_
      rcases hdis with h2 | h2
      · exact Or.inl h2
      · rcases List.mem_cons.mp h2 with h3 | h3
        · omega
        · exact Or.inr h3
    · subst hji
      by_cases hlt : st.2.2 < runLen l l 0 0 l.length j j
      · have hst' : dpUpd l l 0 0 l.length st j j
            = (j + 1 - runLen l l 0 0 l.length j j,
               j + 1 - runLen l l 0 0 l.length j j,
               runLen l l 0 0 l.length j j) := by
          show (if st.2.2 < runLen l l 0 0 l.length j j
              then (j + 1 - runLen l l 0 0 l.length j j,
                j + 1 - runLen l l 0 0 l.length j j,
                runLen l l 0 0 l.length j j)
              else st) = _
          rw [if_pos hlt]
        rw [hst']
        have hres := ih (j + 1 - runLen l l 0 0 l.length j j,
            j + 1 - runLen l l 0 0 l.length j j, runLen l l 0 0 l.length j j)
          (fun x hx => hmem x (List.mem_cons_of_mem _ hx)) hpw'.2 rfl
          (fun r hr => le_trans (hhist r hr) (le_of_lt hlt))
          (Or.inl (le_refl _))
        exact ⟨hres.1, hres.2.1, le_trans (le_of_lt hlt) hres.2.2⟩
      · have hst' : dpUpd l l 0 0 l.length st j j = st := by
          show (if st.2.2 < runLen l l 0 0 l.length j j
              then (j + 1 - runLen l l 0 0 l.length j j,
                j + 1 - runLen l l 0 0 l.length j j,
                runLen l l 0 0 l.length j j)
              else st) = st
          rw [if_neg hlt]
        rw [hst']
        refine ih st (fun x hx => hmem x (List.mem_cons_of_mem _ hx)) hpw'.2 hdiag hhist ?_
        exact Or.inl (by omega)
    · have hRii : runLen l l 0 0 l.length i i ≤ st.2.2 := by
        rcases hdis with h2 | h2
        · exact h2
        · rcases List.mem_cons.mp h2 with h3 | h3
          · omega
          · have := hpw'.1 i h3
            omega
      have hk : runLen l l 0 0 l.length i j ≤ st.2.2 :=
        le_trans (runLen_le_diagR l i j (by omega) hi) hRii
      have hst' : dpUpd l l 0 0 l.length st i j = st := by
        show (if st.2.2 < runLen l l 0 0 l.length i j
            then (i + 1 - runLen l l 0 0 l.length i j,
              j + 1 - runLen l l 0 0 l.length i j,
              runLen l l 0 0 l.length i j)
            else st) = st
        rw [if_neg (by omega)]
      rw [hst']
      exact ih st (fun x hx => hmem x (List.mem_cons_of_mem _ hx)) hpw'.2 hdiag hhist
        (Or.inl hRii)

lemma dp_diag_rows (l : List String) :
    ∀ (cnt start : Nat) (st : Nat × Nat × Nat),
      start + cnt ≤ l.length →
      st.1 = st.2.1 →
      (∀ r, r < start → runLen l l 0 0 l.length r r ≤ st.2.2) →
      ((List.range' start cnt).foldl
          (fun st i => (validJ l l 0 l.length i).foldl
            (fun st j => dpUpd l l 0 0 l.length st i j) st) st).1
        = ((List.range' start cnt).foldl
          (fun st i => (validJ l l 0 l.length i).foldl
            (fun st j => dpUpd l l 0 0 l.length st i j) st) st).2.1 ∧
      ∀ r, r < start + cnt →
        runLen l l 0 0 l.length r r ≤
          ((List.range' start cnt).foldl
            (fun st i => (validJ l l 0 l.length i).foldl
              (fun st j => dpUpd l l 0 0 l.length st i j) st) st).2.2 := by
  intro cnt
  induction cnt with
  | zero =>
    intro start st _ hdiag hhist
    simp only [List.range'_zero, List.foldl_nil]
    exact ⟨hdiag, fun r hr => hhist r (by omega)⟩
  | succ n ih =>
    intro start st hle hdiag hhist
    simp only [List.range'_succ, List.foldl_cons]
    have hd : runLen l l 0 0 l.length start start ≤ st.2.2 ∨
        start ∈ validJ l l 0 l.length start := by
      cases hv : validJ l l 0 l.length start with
      | nil =>
        left
        rw [runLen_eq l l 0 0 l.length start start, hv]
        simp
      | cons j J =>
        right
        have hj : j ∈ validJ l l 0 l.length start := by
          rw [hv]
          exact List.mem_cons_self _ _
        have hs := validJ_self_mem l hj (by omega) (by omega)
        rwa [hv] at hs
    have hrow := dp_diag_row l start (by omega) (validJ l l 0 l.length start) st
      (fun j hj => hj) (validJ_pairwise l l 0 l.length start) hdiag hhist hd
    have hres := ih (start + 1)
      ((validJ l l 0 l.length start).foldl
        (fun st j => dpUpd l l 0 0 l.length st start j) st)
      (by omega) hrow.1 (fun r hr => hrow.2.1 r (by omega))
    exact ⟨hres.1, fun r hr => hres.2 r (by omega)⟩

lemma dpBest_self_diag (l : List String) (bi bj bs : Nat)
    (h : dpBest l l 0 l.length 0 l.length = (bi, bj, bs)) : bi = bj := by
  have hd := dp_diag_rows l (l.length - 0) 0 (0, 0, 0) (by omega) rfl
    (fun r hr => absurd hr (Nat.not_lt_zero r))
  unfold dpBest at h
  rw [h] at hd
  exact hd.1

lemma extendBack_diag (l : List String) :
    ∀ (fuel i : Nat), i ≤ fuel → extendBack l l 0 0 i i fuel = i := by
  intro fuel
  induction fuel with
  | zero =>
    intro i hi
    have h0 : i = 0 := by omega
    subst h0
    rfl
  | succ n ih =>
    intro i hi
    cases i with
    | zero => exact extendBack_zero l l 0 0 (n + 1)
    | succ m =>
      rw [extendBack_eq_succ, if_pos ⟨by omega, by omega, rfl⟩]
      show extendBack l l 0 0 m m n + 1 = m + 1
      rw [ih m (by omega)]

lemma extendFwd_diag (l : List String) :
    ∀ (fuel s : Nat), s + fuel ≤ l.length →
      extendFwd l l l.length l.length s s fuel = fuel := by
  intro fuel
  induction fuel with
  | zero => intro s _; rfl
  | succ n ih =>
    intro s hs
    rw [extendFwd_eq_succ, if_pos ⟨by omega, by omega, rfl⟩]
    rw [ih (s + 1) (by omega)]

lemma flm_self (l : List String) : flm l l 0 l.length 0 l.length = (0, 0, l.length) := by
  rcases hdp : dpBest l l 0 l.length 0 l.length with ⟨bi, bj, bs⟩
  have hbij := dpBest_self_diag l bi bj bs hdp
  subst hbij
  have hspec := dpBest_spec l l 0 l.length 0 l.length bi bi bs hdp
  have hbnd : bi + bs ≤ l.length := by
    rcases hspec with ⟨h1, _, h3⟩ | ⟨_, _, h3, _⟩
    · omega
    · exact h3
  have heb : extendBack l l 0 0 bi bi bi = bi := extendBack_diag l bi bi (le_refl bi)
  have hgoal : flm l l 0 l.length 0 l.length
      = (bi - extendBack l l 0 0 bi bi bi,
         bi - extendBack l l 0 0 bi bi bi,
         bs + extendBack l l 0 0 bi bi bi +
           extendFwd l l l.length l.length
             (bi - extendBack l l 0 0 bi bi bi + (bs + extendBack l l 0 0 bi bi bi))
             (bi - extendBack l l 0 0 bi bi bi + (bs + extendBack l l 0 0 bi bi bi))
             (l.length - (bi - extendBack l l 0 0 bi bi bi
               + (bs + extendBack l l 0 0 bi bi bi)))) := by
    unfold flm
    rw [hdp]
  rw [hgoal, heb]
  have h1 : bi - bi = 0 := Nat.sub_self bi
  rw [h1]
  have h2 : (0 : Nat) + (bs + bi) = bs + bi := Nat.zero_add _
  rw [h2]
  rw [extendFwd_diag l (l.length - (bs + bi)) (bs + bi) (by omega)]
  have h3 : bs + bi + (l.length - (bs + bi)) = l.length := by omega
  rw [h3]

lemma get_matching_blocks_self (l : List String) (hl : l ≠ []) :
    get_matching_blocks l l = [(0, 0, l.length), (l.length, l.length, 0)] := by
  have hl0 : l.length ≠ 0 := fun h => hl (List.length_eq_zero.mp h)
  unfold get_matching_blocks
  rw [mblocksF_eq_succ l l (l.length + l.length) 0 l.length 0 l.length 0 0 l.length
    (flm_self l)]
  rw [if_neg hl0]
  rw [if_neg (show ¬((0 : Nat) < 0 ∧ (0 : Nat) < 0) by omega)]
  rw [if_neg (show ¬(0 + l.length < l.length ∧ 0 + l.length < l.length) by omega)]
  simp [collapseBlocks, hl0]

lemma get_opcodes_self (l : List String) (hl : l ≠ []) :
    get_opcodes l l = [⟨DTag.equal, 0, l.length, 0, l.length⟩] := by
  have hl0 : l.length ≠ 0 := fun h => hl (List.length_eq_zero.mp h)
  unfold get_opcodes
  rw [get_matching_blocks_self l hl]
  simp [opcodesFromBlocks, hl0]

lemma grouped_self (l : List String) : get_grouped_opcodes l l l.length = [] := by
  by_cases hl : l = []
  · subst hl
    rfl
  · have hl0 : l.length ≠ 0 := fun h => hl (List.length_eq_zero.mp h)
    simp only [get_grouped_opcodes]
    rw [get_opcodes_self l hl]
    rw [if_neg (by simp)]
    have hmem : ∀ op ∈ [(⟨DTag.equal, 0, l.length, 0, l.length⟩ : Opcode)],
        op.i2 ≤ l.length ∧ op.j2 ≤ l.length := by
      intro op hop
      rw [List.mem_singleton] at hop
      subst hop
      exact ⟨le_refl _, le_refl _⟩
    rw [fixupHead_id l.length _ hmem, fixupLast_id l.length _ hmem]
    rw [groupSplit_no_split l.length _ []]
    · rw [List.nil_append, groupSplit_nil, if_neg]
      intro hcc
      exact hcc.2 ⟨rfl, rfl⟩
    · intro op hop
      rw [List.mem_singleton] at hop
      subst hop
      intro hcc
      have := hcc.2
      simp at this
      omega

lemma gen_self (t a_path b_path : String) :
    generate_function_unified_diff t t a_path b_path = "" := by
  show String.join (generate_function_unified_diff_lines t t a_path b_path) = ""
  have hlines : generate_function_unified_diff_lines t t a_path b_path = [] := by
    show unified_diff (pySplitlines t) (pySplitlines t) a_path b_path
      (max (pySplitlines t).length (pySplitlines t).length) = []
    rw [Nat.max_self]
    simp only [unified_diff]
    rw [grouped_self (pySplitlines t)]
  rw [hlines]
  rfl

lemma preLoopEmit_none_of_same (pre post a b : String) (posts : List FunctionSpan)
    (src : List (Nat × Nat)) (f g : FunctionSpan)
    (hmap : post_func_map posts f.qualified_name = some g)
    (hsl : pySliceStr pre f.start_byte f.end_byte
      = pySliceStr post g.start_byte g.end_byte) :
    preLoopEmit pre post a b posts src f = none := by
  simp only [preLoopEmit, hmap]
  rw [← hsl, gen_self]
  rw [if_neg (show ¬(pyStrip "" ≠ "") by decide)]
  split <;> rfl

/-- C10: diffing any text against itself yields the empty string; hence a
pre-image function whose byte slice is byte-for-byte identical to its
post-image name match is never reported by
`extract_function_diffs_from_file_diff` — its diff is empty after `strip()`
and is dropped, and the addition loop skips every qualified name already
present in the pre-image. -/
theorem claim_C10_identical_not_reported :
    (∀ (t a_path b_path : String),
      generate_function_unified_diff t t a_path b_path = "") ∧
    (∀ (pre_patch_text post_patch_text file_diff : String)
       (pre_functions post_functions : List FunctionSpan)
       (records : List FuncDiffRecord) (f g : FunctionSpan),
       extract_function_diffs_from_file_diff pre_patch_text post_patch_text file_diff
           pre_functions post_functions = Except.ok records →
       f ∈ pre_functions →
       (∀ f2 ∈ pre_functions, f2.qualified_name = f.qualified_name → f2 = f) →
       post_func_map post_functions f.qualified_name = some g →
       pySliceStr pre_patch_text f.start_byte f.end_byte
         = pySliceStr post_patch_text g.start_byte g.end_byte →
       ∀ r ∈ records, r.func_name ≠ f.qualified_name) := by
  refine ⟨gen_self, ?_⟩
  intro pre post fd pres posts records f g hex hf huniq hmap hsl r hr hname
  cases hdr : get_diff_changed_lines fd with
  | error e =>
    rw [extract_function_diffs_from_file_diff, hdr] at hex
    exact Except.noConfusion hex
  | ok dr =>
    cases hab : get_a_and_b_paths fd with
    | error e =>
      rw [extract_function_diffs_from_file_diff, hdr, hab] at hex
      exact Except.noConfusion hex
    | ok ab =>
      rw [extract_function_diffs_from_file_diff, hdr, hab] at hex
      have hex2 : (Except.ok
          (pres.filterMap (preLoopEmit pre post ab.1 ab.2 posts dr.source_ranges)
            ++ posts.filterMap (addLoopEmit post ab.1 ab.2 pres dr.target_ranges))
          : Except String (List FuncDiffRecord))
          = Except.ok records := hex
      injection hex2 with hrec
      subst hrec
      rcases List.mem_append.mp hr with hmem | hmem
      · obtain ⟨f2, hf2, hemit⟩ := List.mem_filterMap.mp hmem
        have hname2 : r.func_name = f2.qualified_name := by
          simp only [preLoopEmit] at hemit
          split at hemit
          · split at hemit
            · cases hemit
              rfl
            · exact Option.noConfusion hemit
          · exact Option.noConfusion hemit
        rw [hname2] at hname
        have hf2f : f2 = f := huniq f2 hf2 hname
        rw [hf2f, preLoopEmit_none_of_same pre post ab.1 ab.2 posts dr.source_ranges
          f g hmap hsl] at hemit
        exact Option.noConfusion hemit
      · obtain ⟨g2, hg2, hemit⟩ := List.mem_filterMap.mp hmem
        simp only [addLoopEmit] at hemit
        split at hemit
        case isTrue hcond =>
          split at hemit
          · cases hemit
            exact hcond.1 f hf hname.symm
          · exact Option.noConfusion hemit
        case isFalse => exact Option.noConfusion hemit

/-- Witness for C10: the self-diff of a nonempty text is `""`, and in a
concrete commit scenario a pre-image function with an identical post-image
slice yields no record bearing its qualified name. -/
theorem claim_C10_identical_not_reported_witness :
    generate_function_unified_diff "same\n" "same\n" "a" "b" = "" ∧
    (∀ r ∈ ([] : List FuncDiffRecord),
      r.func_name ≠ (⟨"f", 0, 2, 1, 1, none, "."⟩ : FunctionSpan).qualified_name) :=
  ⟨claim_C10_identical_not_reported.1 "same\n" "a" "b",
   claim_C10_identical_not_reported.2 "x\n" "x\n" ""
     [⟨"f", 0, 2, 1, 1, none, "."⟩] [⟨"f", 0, 2, 1, 1, none, "."⟩] []
     ⟨"f", 0, 2, 1, 1, none, "."⟩ ⟨"f", 0, 2, 1, 1, none, "."⟩
     (by decide) (by decide) (by decide) (by decide) (by decide)⟩

/-! ### String and chunk utilities for the round-trip proof. -/

lemma takeWhile_all_append (p : Char → Bool) :
    ∀ (u v : List Char), (∀ c ∈ u, p c = true) →
      List.takeWhile p (u ++ v) = u ++ List.takeWhile p v := by
  intro u
  induction u with
  | nil => intro v _; rfl
  | cons c u ih =>
    intro v h
    rw [List.cons_append, List.takeWhile_cons, if_pos (h c (List.mem_cons_self _ _)),
      ih v (fun d hd => h d (List.mem_cons_of_mem _ hd)), List.cons_append]

lemma dropWhile_all_append (p : Char → Bool) :
    ∀ (u v : List Char), (∀ c ∈ u, p c = true) →
      List.dropWhile p (u ++ v) = List.dropWhile p v := by
  intro u
  induction u with
  | nil => intro v _; rfl
  | cons c u ih =>
    intro v h
    rw [List.cons_append, List.dropWhile_cons, if_pos (h c (List.mem_cons_self _ _))]
    exact ih v (fun d hd => h d (List.mem_cons_of_mem _ hd))

lemma dropLit_prefix : ∀ (p cs : List Char), dropLit p (p ++ cs) = some cs := by
  intro p
  induction p with
  | nil => intro cs; rfl
  | cons c p ih =>
    intro cs
    rw [List.cons_append]
    show (if c = c then dropLit p (p ++ cs) else none) = some cs
    rw [if_pos rfl, ih]

lemma splitNLAux_chunk :
    ∀ (u : List Char), '\n' ∉ u → ∀ (rest acc : List Char),
      splitNLAux (u ++ '\n' :: rest) acc
        = (acc.reverse ++ u ++ ['\n']) :: splitNLAux rest [] := by
  intro u
  induction u with
  | nil =>
    intro _ rest acc
    show (if '\n' = '\n' then (acc.reverse ++ ['\n']) :: splitNLAux rest []
      else splitNLAux rest ('\n' :: acc)) = _
    rw [if_pos rfl]
    simp
  | cons c u ih =>
    intro hnin rest acc
    have hc : ¬(c = '\n') := fun h => hnin (h ▸ List.mem_cons_self _ _)
    show (if c = '\n' then (acc.reverse ++ ['\n']) :: splitNLAux (u ++ '\n' :: rest) []
      else splitNLAux (u ++ '\n' :: rest) (c :: acc)) = _
    rw [if_neg hc, ih (fun h => hnin (List.mem_cons_of_mem _ h)) rest (c :: acc)]
    simp

lemma splitNLAux_join :
    ∀ (L : List (List Char)), (∀ x ∈ L, ∃ u, x = u ++ ['\n'] ∧ '\n' ∉ u) →
      splitNLAux L.flatten [] = L := by
  intro L
  induction L with
  | nil => intro _; rfl
  | cons x L ih =>
    intro h
    obtain ⟨u, hx, hnin⟩ := h x (List.mem_cons_self _ _)
    subst hx
    rw [List.flatten_cons]
    have ha : (u ++ ['\n']) ++ L.flatten = u ++ '\n' :: L.flatten := by simp
    rw [ha, splitNLAux_chunk u hnin L.flatten [],
      ih (fun y hy => h y (List.mem_cons_of_mem _ hy))]
    simp

lemma join_data (ls : List String) :
    (String.join ls).data = (ls.map String.data).flatten := by
  have hmk := join_map_mk (ls.map String.data) []
  rw [List.map_map] at hmk
  have hid : ls.map (String.mk ∘ String.data) = ls := by
    have h2 : ls.map (String.mk ∘ String.data) = ls.map id :=
      List.map_congr_left (fun a _ => rfl)
    rw [h2, List.map_id]
  rw [hid] at hmk
  have hj : String.join ls = ls.foldl (· ++ ·) (String.mk []) := rfl
  rw [hj, hmk]
  show ([] : List Char) ++ (ls.map String.data).flatten = (ls.map String.data).flatten
  exact List.nil_append _

lemma splitNL_join (ls : List String)
    (h : ∀ x ∈ ls, ∃ u, x.data = u ++ ['\n'] ∧ '\n' ∉ u) :
    splitNL (String.join ls) = ls := by
  have hh : ∀ x ∈ ls.map String.data, ∃ u, x = u ++ ['\n'] ∧ '\n' ∉ u := by
    intro x hx
    obtain ⟨y, hy, hxy⟩ := List.mem_map.mp hx
    subst hxy
    exact h y hy
  unfold splitNL
  rw [join_data, splitNLAux_join (ls.map String.data) hh, List.map_map]
  have h2 : ls.map (String.mk ∘ String.data) = ls.map id :=
    List.map_congr_left (fun a _ => rfl)
  rw [h2, List.map_id]

set_option linter.unreachableTactic false in
set_option linter.unusedTactic false in
lemma renderOpcode_pairs (a b : List String) (op : Opcode) :
    renderOpcode a b op
      = (renderPairs a b op).map (fun p => String.mk (p.1 :: p.2.data)) := by
  unfold renderOpcode renderPairs
  cases htag : op.tag <;>
    simp only [List.map_map, List.map_append] <;>
    (try congr 1) <;>
    exact List.map_congr_left (fun x _ => rfl)

lemma OChain_getLastD (a b : List String) :
    ∀ {l : List Opcode} {c e : Nat × Nat}, OChain a b c l e → l ≠ [] →
      (l.getLastD default).i2 = e.1 ∧ (l.getLastD default).j2 = e.2 := by
  intro l c e h
  induction h with
  | nil c => intro hne; exact absurd rfl hne
  | cons tg i2 j2 c rest e hla hlb hc1 hc2 heq hrep hdel hins hrest ih =>
    intro _
    cases hr : rest with
    | nil =>
      subst hr
      have hce := OChain_nil_inv a b hrest
      have hl : ((⟨tg, c.1, i2, c.2, j2⟩ : Opcode) :: []).getLastD default
          = ⟨tg, c.1, i2, c.2, j2⟩ := rfl
      rw [hl]
      exact ⟨congrArg Prod.fst hce, congrArg Prod.snd hce⟩
    | cons o rest2 =>
      subst hr
      have hih := ih (List.cons_ne_nil _ _)
      have hl : ((⟨tg, c.1, i2, c.2, j2⟩ : Opcode) :: o :: rest2).getLastD default
          = (o :: rest2).getLastD default := by
        simp only [List.getLastD_cons]
      rw [hl]
      exact hih

/-! ### Parsing back the numbers and headers that `unified_diff` prints. -/

lemma dropLit_head_ne (c1 c2 : Char) (p cs : List Char) (h : ¬(c1 = c2)) :
    dropLit (c1 :: p) (c2 :: cs) = none := by
  show (if c1 = c2 then dropLit p cs else none) = none
  rw [if_neg h]

lemma dropLit_sp (cs : List Char) : dropLit [' ', '+'] (' ' :: '+' :: cs) = some cs := rfl

lemma dropLit_at2 (cs : List Char) :
    dropLit [' ', '@', '@'] (' ' :: '@' :: '@' :: cs) = some cs := rfl

lemma natDigitsF_succ (f n : Nat) :
    natDigitsF (f + 1) n = if n < 10 then [Char.ofNat (48 + n)]
      else natDigitsF f (n / 10) ++ [Char.ofNat (48 + n % 10)] := rfl

lemma digitChar_facts (m : Nat) (hm : m < 10) :
    (Char.ofNat (48 + m)).isDigit = true ∧ (Char.ofNat (48 + m)).toNat = 48 + m := by
  interval_cases m <;> exact ⟨by decide, by decide⟩

lemma natDigitsF_spec :
    ∀ (fuel n : Nat), n < fuel →
      natDigitsF fuel n ≠ [] ∧
      (∀ c ∈ natDigitsF fuel n, c.isDigit = true) ∧
      ∀ (acc : Nat),
        (natDigitsF fuel n).foldl (fun m c => m * 10 + (c.toNat - 48)) acc
          = acc * 10 ^ (natDigitsF fuel n).length + n := by
  intro fuel
  induction fuel with
  | zero => intro n h; omega
  | succ f ih =>
    intro n h
    rw [natDigitsF_succ]
    by_cases h10 : n < 10
    · rw [if_pos h10]
      obtain ⟨hdig, hval⟩ := digitChar_facts n h10
      refine ⟨List.cons_ne_nil _ _, ?_, ?_⟩
      · intro c hc
        rw [List.mem_singleton] at hc
        subst hc
        exact hdig
      · intro acc
        simp only [List.foldl_cons, List.foldl_nil, List.length_singleton, pow_one]
        rw [hval]
        omega
    · rw [if_neg h10]
      have hrec := ih (n / 10) (by omega)
      have hm : n % 10 < 10 := Nat.mod_lt _ (by omega)
      obtain ⟨hdig, hval⟩ := digitChar_facts (n % 10) hm
      refine ⟨by simp, ?_, ?_⟩
      · intro c hc
        rcases List.mem_append.mp hc with hc | hc
        · exact hrec.2.1 c hc
        · rw [List.mem_singleton] at hc
          subst hc
          exact hdig
      · intro acc
        rw [List.foldl_append, hrec.2.2 acc]
        simp only [List.foldl_cons, List.foldl_nil, List.length_append, List.length_singleton]
        rw [hval, pow_succ, ← mul_assoc]
        omega

lemma readNat_repr (n : Nat) (rest : List Char)
    (hrest : ∀ c, rest.head? = some c → c.isDigit = false) :
    readNat ((natRepr n).data ++ rest) = some (n, rest) := by
  have hspec := natDigitsF_spec (n + 1) n (by omega)
  have hdata : (natRepr n).data = natDigitsF (n + 1) n := rfl
  rw [hdata]
  have ht : List.takeWhile Char.isDigit (natDigitsF (n + 1) n ++ rest)
      = natDigitsF (n + 1) n := by
    rw [takeWhile_all_append Char.isDigit _ rest hspec.2.1]
    cases hr : rest with
    | nil => simp
    | cons c cs =>
      have hc := hrest c (by rw [hr]; rfl)
      rw [List.takeWhile_cons, if_neg (by simp [hc]), List.append_nil]
  have hdw : List.dropWhile Char.isDigit (natDigitsF (n + 1) n ++ rest) = rest := by
    rw [dropWhile_all_append Char.isDigit _ rest hspec.2.1]
    cases hr : rest with
    | nil => rfl
    | cons c cs =>
      have hc := hrest c (by rw [hr]; rfl)
      rw [List.dropWhile_cons, if_neg (by simp [hc])]
  simp only [readNat]
  rw [ht, hdw, if_neg (by intro hemp; apply hspec.1; simpa using hemp)]
  rw [hspec.2.2 0]
  simp

lemma readOptLen_comma (n : Nat) (rest : List Char)
    (hrest : ∀ c, rest.head? = some c → c.isDigit = false) :
    readOptLen (',' :: ((natRepr n).data ++ rest)) = (n, rest) := by
  show (match readNat ((natRepr n).data ++ rest) with
    | some (n2, rest2) => (n2, rest2)
    | none => (1, ',' :: ((natRepr n).data ++ rest))) = (n, rest)
  rw [readNat_repr n rest hrest]

lemma readOptLen_space (rest : List Char) : readOptLen (' ' :: rest) = (1, ' ' :: rest) := rfl

lemma range_parse (len : Nat) (tail : List Char) :
    (readNat ((format_range_unified 0 len).data ++ ' ' :: tail)).map
        (fun p => (p.1, readOptLen p.2))
      = some ((if len = 0 then 0 else 1), len, ' ' :: tail) := by
  have hfmt : format_range_unified 0 len
      = if len = 1 then natRepr 1
        else natRepr (if len = 0 then 0 else 1) ++ "," ++ natRepr len := rfl
  rw [hfmt]
  have hsp : ∀ c : Char, (' ' :: tail).head? = some c → c.isDigit = false := by
    intro c hc
    have hc' : some ' ' = some c := hc
    injection hc' with h3
    rw [← h3]
    decide
  by_cases h1 : len = 1
  · subst h1
    rw [if_pos rfl, readNat_repr 1 (' ' :: tail) hsp]
    simp only [Option.map_some']
    rw [readOptLen_space]
    simp
  · rw [if_neg h1]
    have hdata2 : (natRepr (if len = 0 then 0 else 1) ++ "," ++ natRepr len).data
        = (natRepr (if len = 0 then 0 else 1)).data ++ ',' :: (natRepr len).data := by
      rw [String.data_append, String.data_append, List.append_assoc]
      rfl
    rw [hdata2, List.append_assoc, List.cons_append]
    rw [readNat_repr (if len = 0 then 0 else 1)
      (',' :: ((natRepr len).data ++ ' ' :: tail))
      (by intro c hc; have hc' : some ',' = some c := hc; injection hc' with h3;
          rw [← h3]; decide)]
    simp only [Option.map_some']
    rw [readOptLen_comma len (' ' :: tail) hsp]

lemma hunkRest1_fmt (len : Nat) (cs : List Char) :
    hunkRest1 ((format_range_unified 0 len).data ++ ' ' :: '+' :: cs)
      = hunkRest2 (if len = 0 then 0 else 1) len cs := by
  have hr := range_parse len ('+' :: cs)
  cases hrn : readNat ((format_range_unified 0 len).data ++ ' ' :: '+' :: cs) with
  | none =>
    rw [hrn] at hr
    simp at hr
  | some p =>
    obtain ⟨n0, cs0⟩ := p
    rw [hrn] at hr
    simp only [Option.map_some'] at hr
    injection hr with hr2
    have hn0 : n0 = (if len = 0 then 0 else 1) := congrArg Prod.fst hr2
    have hro : readOptLen cs0 = (len, ' ' :: '+' :: cs) := congrArg Prod.snd hr2
    show (match readNat ((format_range_unified 0 len).data ++ ' ' :: '+' :: cs) with
      | none => none
      | some (ss, cs2) =>
        match readOptLen cs2 with
        | (sl, cs3) =>
          match dropLit [' ', '+'] cs3 with
          | none => none
          | some cs4 => hunkRest2 ss sl cs4) = _
    rw [hrn]
    show (match readOptLen cs0 with
      | (sl, cs3) =>
        match dropLit [' ', '+'] cs3 with
        | none => none
        | some cs4 => hunkRest2 n0 sl cs4) = _
    rw [hro]
    show (match dropLit [' ', '+'] (' ' :: '+' :: cs) with
      | none => none
      | some cs4 => hunkRest2 n0 len cs4) = _
    rw [dropLit_sp]
    show hunkRest2 n0 len cs = _
    rw [hn0]

lemma hunkRest2_fmt (ss sl len : Nat) :
    hunkRest2 ss sl ((format_range_unified 0 len).data ++ [' ', '@', '@', '\n'])
      = some (ss, sl, (if len = 0 then 0 else 1), len) := by
  have hr := range_parse len ['@', '@', '\n']
  cases hrn : readNat ((format_range_unified 0 len).data ++ [' ', '@', '@', '\n']) with
  | none =>
    rw [show (' ' :: ['@', '@', '\n'] : List Char) = [' ', '@', '@', '\n'] from rfl] at hr
    rw [hrn] at hr
    simp at hr
  | some p =>
    obtain ⟨n0, cs0⟩ := p
    rw [show (' ' :: ['@', '@', '\n'] : List Char) = [' ', '@', '@', '\n'] from rfl] at hr
    rw [hrn] at hr
    simp only [Option.map_some'] at hr
    injection hr with hr2
    have hn0 : n0 = (if len = 0 then 0 else 1) := congrArg Prod.fst hr2
    have hro : readOptLen cs0 = (len, [' ', '@', '@', '\n']) := congrArg Prod.snd hr2
    show (match readNat ((format_range_unified 0 len).data ++ [' ', '@', '@', '\n']) with
      | none => none
      | some (ts, cs2) =>
        match readOptLen cs2 with
        | (tl, cs3) =>
          match dropLit [' ', '@', '@'] cs3 with
          | none => none
          | some _ => some (ss, sl, ts, tl)) = _
    rw [hrn]
    show (match readOptLen cs0 with
      | (tl, cs3) =>
        match dropLit [' ', '@', '@'] cs3 with
        | none => none
        | some _ => some (ss, sl, n0, tl)) = _
    rw [hro]
    show (match dropLit [' ', '@', '@'] [' ', '@', '@', '\n'] with
      | none => none
      | some _ => some (ss, sl, n0, len)) = _
    rw [hn0]
    rfl

lemma parseHunkHeader_fmt (la lb : Nat) :
    parseHunkHeader ("@@ -" ++ format_range_unified 0 la ++ " +"
        ++ format_range_unified 0 lb ++ " @@\n")
      = some ((if la = 0 then 0 else 1), la, (if lb = 0 then 0 else 1), lb) := by
  have h1 : ("@@ -" : String).data = ['@', '@', ' ', '-'] := rfl
  have h2 : (" +" : String).data = [' ', '+'] := rfl
  have h3 : (" @@\n" : String).data = [' ', '@', '@', '\n'] := rfl
  have hdata : ("@@ -" ++ format_range_unified 0 la ++ " +"
        ++ format_range_unified 0 lb ++ " @@\n").data
      = ['@', '@', ' ', '-'] ++ ((format_range_unified 0 la).data
          ++ ' ' :: '+' :: ((format_range_unified 0 lb).data ++ [' ', '@', '@', '\n'])) := by
    rw [String.data_append, String.data_append, String.data_append, String.data_append,
      h1, h2, h3]
    simp
  show (match dropLit ['@', '@', ' ', '-']
      ("@@ -" ++ format_range_unified 0 la ++ " +"
        ++ format_range_unified 0 lb ++ " @@\n").data with
    | none => none
    | some cs => hunkRest1 cs) = _
  rw [hdata, dropLit_prefix]
  show hunkRest1 ((format_range_unified 0 la).data
      ++ ' ' :: '+' :: ((format_range_unified 0 lb).data ++ [' ', '@', '@', '\n'])) = _
  rw [hunkRest1_fmt la _, hunkRest2_fmt _ la lb]

lemma parseFileName_ok (p : List Char) (path : String)
    (hne : path.data ≠ []) (ht : '\t' ∉ path.data) (hn : '\n' ∉ path.data)
    (line : String) (hline : line.data = p ++ (path.data ++ ['\n'])) :
    parseFileName p line = some path := by
  show (match dropLit p line.data with
    | none => none
    | some cs =>
      let name := cs.takeWhile (fun c => decide (¬(c = '\t' ∨ c = '\n')))
      if name.isEmpty then none else some (String.mk name)) = some path
  rw [hline, dropLit_prefix]
  show (let name := (path.data ++ ['\n']).takeWhile (fun c => decide (¬(c = '\t' ∨ c = '\n')));
    if name.isEmpty then none else some (String.mk name)) = some path
  have htw : (path.data ++ ['\n']).takeWhile (fun c => decide (¬(c = '\t' ∨ c = '\n')))
      = path.data := by
    rw [takeWhile_all_append _ _ _ ?hall]
    case hall =>
      intro c hc
      simp only [decide_eq_true_eq]
      intro hor
      rcases hor with h | h
      · exact ht (h ▸ hc)
      · exact hn (h ▸ hc)
    rw [List.takeWhile_cons, if_neg (by simp), List.append_nil]
  show (if ((path.data ++ ['\n']).takeWhile
      (fun c => decide (¬(c = '\t' ∨ c = '\n')))).isEmpty then none
    else some (String.mk ((path.data ++ ['\n']).takeWhile
      (fun c => decide (¬(c = '\t' ∨ c = '\n')))))) = some path
  rw [htw, if_neg (by intro hemp; apply hne; simpa using hemp)]

/-! ### The parser's trace over a freshly generated diff. -/

lemma parsePSAux_top_cons (line : String) (rest : List String) (cur : Option PatchedFile)
    (src : Option String) (done : List PatchedFile) :
    parsePSAux (line :: rest) PMode.top cur src done
      = if (dropLit ("diff --git ".data) line.data).isSome then
          parsePSAux rest PMode.top none none (done ++ cur.toList)
        else match parseFileName ['-', '-', '-', ' '] line with
        | some name => parsePSAux rest PMode.top none (some name) (done ++ cur.toList)
        | none =>
          match parseFileName ['+', '+', '+', ' '] line with
          | some name =>
            match cur with
            | some _ => .error ("Target without source: " ++ line)
            | none => parsePSAux rest PMode.top (some ⟨src, some name, []⟩) src done
          | none =>
            match parseHunkHeader line with
            | some (ss, sl, ts, tl) =>
              match cur with
              | none => .error ("Unexpected hunk found: " ++ line)
              | some _ => parsePSAux rest (PMode.hunk ss sl ts tl ss ts []) cur src done
            | none => parsePSAux rest PMode.top cur src done := rfl

lemma parsePSAux_hunk_cons (line : String) (rest : List String)
    (ss sl ts tl s t : Nat) (acc : List (Char × String)) (cur : Option PatchedFile)
    (src : Option String) (done : List PatchedFile) :
    parsePSAux (line :: rest) (PMode.hunk ss sl ts tl s t acc) cur src done
      = match classifyHunkLine line with
        | none => .error ("Hunk diff line expected: " ++ line)
        | some (c, v) =>
          let s2 := if c = '-' ∨ c = ' ' then s + 1 else s
          let t2 := if c = '+' ∨ c = ' ' then t + 1 else t
          if ss + sl < s2 ∨ ts + tl < t2 then .error "Hunk is longer than expected"
          else if ss + sl ≤ s2 ∧ ts + tl ≤ t2 then
            match cur with
            | some f =>
              parsePSAux rest PMode.top
                (some { f with hunks := f.hunks ++ [⟨ss, sl, ts, tl, ((c, v) :: acc).reverse⟩] })
                src done
            | none => parsePSAux rest PMode.top none src done
          else parsePSAux rest (PMode.hunk ss sl ts tl s2 t2 ((c, v) :: acc)) cur src done
      := rfl

lemma parseFileName_head_ne (c1 c2 : Char) (p cs : List Char) (line : String)
    (hline : line.data = c2 :: cs) (h : ¬(c1 = c2)) :
    parseFileName (c1 :: p) line = none := by
  show (match dropLit (c1 :: p) line.data with
    | none => none
    | some cs2 =>
      let name := cs2.takeWhile (fun c => decide (¬(c = '\t' ∨ c = '\n')))
      if name.isEmpty then none else some (String.mk name)) = none
  rw [hline, dropLit_head_ne c1 c2 p cs h]

lemma parse_step_src (a_path : String)
    (hne : a_path.data ≠ []) (ht : '\t' ∉ a_path.data) (hn : '\n' ∉ a_path.data)
    (rest : List String) (cur : Option PatchedFile) (src : Option String)
    (done : List PatchedFile) :
    parsePSAux (("--- " ++ a_path ++ "\n") :: rest) PMode.top cur src done
      = parsePSAux rest PMode.top none (some a_path) (done ++ cur.toList) := by
  have hlinedata : ("--- " ++ a_path ++ "\n").data
      = ['-', '-', '-', ' '] ++ (a_path.data ++ ['\n']) := by
    rw [String.data_append, String.data_append, List.append_assoc]
  have hlinedata2 : ("--- " ++ a_path ++ "\n").data
      = '-' :: (['-', '-', ' '] ++ (a_path.data ++ ['\n'])) := by
    rw [hlinedata]
    rfl
  have hgitdata : ("diff --git " : String).data
      = 'd' :: ['i', 'f', 'f', ' ', '-', '-', 'g', 'i', 't', ' '] := rfl
  rw [parsePSAux_top_cons]
  rw [if_neg (by
    rw [hlinedata2, hgitdata, dropLit_head_ne _ _ _ _ (by decide)]
    simp)]
  rw [parseFileName_ok ['-', '-', '-', ' '] a_path hne ht hn _ hlinedata]

lemma parse_step_tgt (b_path : String)
    (hne : b_path.data ≠ []) (ht : '\t' ∉ b_path.data) (hn : '\n' ∉ b_path.data)
    (rest : List String) (src : Option String) (done : List PatchedFile) :
    parsePSAux (("+++ " ++ b_path ++ "\n") :: rest) PMode.top none src done
      = parsePSAux rest PMode.top (some ⟨src, some b_path, []⟩) src done := by
  have hlinedata : ("+++ " ++ b_path ++ "\n").data
      = ['+', '+', '+', ' '] ++ (b_path.data ++ ['\n']) := by
    rw [String.data_append, String.data_append, List.append_assoc]
  have hlinedata2 : ("+++ " ++ b_path ++ "\n").data
      = '+' :: (['+', '+', ' '] ++ (b_path.data ++ ['\n'])) := by
    rw [hlinedata]
    rfl
  have hgitdata : ("diff --git " : String).data
      = 'd' :: ['i', 'f', 'f', ' ', '-', '-', 'g', 'i', 't', ' '] := rfl
  rw [parsePSAux_top_cons]
  rw [if_neg (by
    rw [hlinedata2, hgitdata, dropLit_head_ne _ _ _ _ (by decide)]
    simp)]
  rw [parseFileName_head_ne '-' '+' _ _ _ hlinedata2 (by decide)]
  rw [parseFileName_ok ['+', '+', '+', ' '] b_path hne ht hn _ hlinedata]

lemma parse_step_hdr (la lb : Nat) (rest : List String) (f : PatchedFile)
    (src : Option String) (done : List PatchedFile) :
    parsePSAux (("@@ -" ++ format_range_unified 0 la ++ " +"
        ++ format_range_unified 0 lb ++ " @@\n") :: rest) PMode.top (some f) src done
      = parsePSAux rest
          (PMode.hunk (if la = 0 then 0 else 1) la (if lb = 0 then 0 else 1) lb
            (if la = 0 then 0 else 1) (if lb = 0 then 0 else 1) [])
          (some f) src done := by
  have hlinedata2 : ("@@ -" ++ format_range_unified 0 la ++ " +"
      ++ format_range_unified 0 lb ++ " @@\n").data
      = '@' :: (['@', ' ', '-'] ++ ((format_range_unified 0 la).data
          ++ ' ' :: '+' :: ((format_range_unified 0 lb).data ++ [' ', '@', '@', '\n']))) := by
    rw [String.data_append, String.data_append, String.data_append, String.data_append]
    simp
  have hgitdata : ("diff --git " : String).data
      = 'd' :: ['i', 'f', 'f', ' ', '-', '-', 'g', 'i', 't', ' '] := rfl
  rw [parsePSAux_top_cons]
  rw [if_neg (by
    rw [hlinedata2, hgitdata, dropLit_head_ne _ _ _ _ (by decide)]
    simp)]
  rw [parseFileName_head_ne '-' '@' _ _ _ hlinedata2 (by decide)]
  rw [parseFileName_head_ne '+' '@' _ _ _ hlinedata2 (by decide)]
  rw [parseHunkHeader_fmt la lb]

lemma classifyHunkLine_pair (c : Char) (v : String)
    (hc : c = ' ' ∨ c = '-' ∨ c = '+') :
    classifyHunkLine (String.mk (c :: v.data)) = some (c, v) := by
  show (if c = '-' ∨ c = '+' ∨ c = ' ' ∨ c = '\\' then some (c, String.mk v.data)
    else if c = '\n' ∨ c = '\r' then
      some (' ', String.mk (((c :: v.data).takeWhile
        (fun d => decide (d = '\n' ∨ d = '\r'))).take 2))
    else none) = some (c, v)
  rw [if_pos (by rcases hc with h | h | h <;> simp [h])]

lemma parse_body :
    ∀ (pairs : List (Char × String)) (rest : List String) (ss sl ts tl s t : Nat)
      (acc : List (Char × String)) (f : PatchedFile) (src : Option String)
      (done : List PatchedFile),
      (∀ p ∈ pairs, p.1 = ' ' ∨ p.1 = '-' ∨ p.1 = '+') →
      s + pairs.countP (fun p => decide (p.1 = '-' ∨ p.1 = ' ')) = ss + sl →
      t + pairs.countP (fun p => decide (p.1 = '+' ∨ p.1 = ' ')) = ts + tl →
      pairs ≠ [] →
      parsePSAux (pairs.map (fun p => String.mk (p.1 :: p.2.data)) ++ rest)
          (PMode.hunk ss sl ts tl s t acc) (some f) src done
        = parsePSAux rest PMode.top
            (some { f with hunks := f.hunks ++ [⟨ss, sl, ts, tl, acc.reverse ++ pairs⟩] })
            src done := by
  intro pairs
  induction pairs with
  | nil => intro _ _ _ _ _ _ _ _ _ _ _ _ _ _ hpne; exact absurd rfl hpne
  | cons pr pairs ih =>
    intro rest ss sl ts tl s t acc f src done hval hs hformt hpne
    obtain ⟨c, v⟩ := pr
    have hcv : c = ' ' ∨ c = '-' ∨ c = '+' := hval (c, v) (List.mem_cons_self _ _)
    rw [List.map_cons, List.cons_append, parsePSAux_hunk_cons,
      classifyHunkLine_pair c v hcv]
    rw [List.countP_cons] at hs hformt
    have hs2 : (if c = '-' ∨ c = ' ' then s + 1 else s)
        + pairs.countP (fun p => decide (p.1 = '-' ∨ p.1 = ' ')) = ss + sl := by
      by_cases hcs : c = '-' ∨ c = ' '
      · rw [if_pos hcs]
        rw [show (decide ((c, v).1 = '-' ∨ (c, v).1 = ' ')) = true from decide_eq_true hcs,
          if_pos rfl] at hs
        omega
      · rw [if_neg hcs]
        rw [show (decide ((c, v).1 = '-' ∨ (c, v).1 = ' ')) = false from decide_eq_false hcs,
          if_neg Bool.false_ne_true] at hs
        omega
    have ht2 : (if c = '+' ∨ c = ' ' then t + 1 else t)
        + pairs.countP (fun p => decide (p.1 = '+' ∨ p.1 = ' ')) = ts + tl := by
      by_cases hct : c = '+' ∨ c = ' '
      · rw [if_pos hct]
        rw [show (decide ((c, v).1 = '+' ∨ (c, v).1 = ' ')) = true from decide_eq_true hct,
          if_pos rfl] at hformt
        omega
      · rw [if_neg hct]
        rw [show (decide ((c, v).1 = '+' ∨ (c, v).1 = ' ')) = false from decide_eq_false hct,
          if_neg Bool.false_ne_true] at hformt
        omega
    show (if ss + sl < (if c = '-' ∨ c = ' ' then s + 1 else s)
          ∨ ts + tl < (if c = '+' ∨ c = ' ' then t + 1 else t) then
        (.error "Hunk is longer than expected" : Except String (List PatchedFile))
      else if ss + sl ≤ (if c = '-' ∨ c = ' ' then s + 1 else s)
          ∧ ts + tl ≤ (if c = '+' ∨ c = ' ' then t + 1 else t) then
        parsePSAux (pairs.map (fun p => String.mk (p.1 :: p.2.data)) ++ rest) PMode.top
          (some { f with hunks := f.hunks ++ [⟨ss, sl, ts, tl, ((c, v) :: acc).reverse⟩] })
          src done
      else parsePSAux (pairs.map (fun p => String.mk (p.1 :: p.2.data)) ++ rest)
        (PMode.hunk ss sl ts tl (if c = '-' ∨ c = ' ' then s + 1 else s)
          (if c = '+' ∨ c = ' ' then t + 1 else t) ((c, v) :: acc)) (some f) src done) = _
    rw [if_neg (by omega)]
    by_cases hpe : pairs = []
    · subst hpe
      simp only [List.countP_nil] at hs2 ht2
      rw [if_pos (by constructor <;> omega)]
      rw [show ((c, v) :: acc).reverse = acc.reverse ++ [(c, v)] from by simp]
      simp only [List.map_nil, List.nil_append]
    · have hcnt : 0 < pairs.countP (fun p => decide (p.1 = '-' ∨ p.1 = ' '))
          + pairs.countP (fun p => decide (p.1 = '+' ∨ p.1 = ' ')) := by
        obtain ⟨q, hq⟩ := List.exists_mem_of_ne_nil pairs hpe
        have hqv := hval q (List.mem_cons_of_mem _ hq)
        rcases hqv with h | h | h
        · have h1 : 0 < pairs.countP (fun p => decide (p.1 = '-' ∨ p.1 = ' ')) :=
            List.countP_pos_iff.mpr ⟨q, hq, by simp [h]⟩
          omega
        · have h1 : 0 < pairs.countP (fun p => decide (p.1 = '-' ∨ p.1 = ' ')) :=
            List.countP_pos_iff.mpr ⟨q, hq, by simp [h]⟩
          omega
        · have h1 : 0 < pairs.countP (fun p => decide (p.1 = '+' ∨ p.1 = ' ')) :=
            List.countP_pos_iff.mpr ⟨q, hq, by simp [h]⟩
          omega
      rw [if_neg (by omega)]
      rw [ih rest ss sl ts tl _ _ ((c, v) :: acc) f src done
        (fun p hp => hval p (List.mem_cons_of_mem _ hp)) hs2 ht2 hpe]
      rw [show ((c, v) :: acc).reverse ++ pairs = acc.reverse ++ ((c, v) :: pairs) from
        by simp]

lemma parsePSAux_nil_top (cur : Option PatchedFile) (src : Option String)
    (done : List PatchedFile) :
    parsePSAux [] PMode.top cur src done = .ok (done ++ cur.toList) := rfl

/-! ### Applying the parsed hunk back to the source lines. -/

lemma pySlice_length {α : Type} (l : List α) (i j : Nat) (hj : j ≤ l.length) :
    (pySlice l i j).length = j - i := by
  simp only [pySlice, List.length_take, List.length_drop]
  omega

lemma pySlice_subset {α : Type} (l : List α) (i j : Nat) :
    ∀ x ∈ pySlice l i j, x ∈ l := by
  intro x hx
  exact List.mem_of_mem_drop (List.mem_of_mem_take hx)

lemma countP_map_const_true (ch : Char) {pr : Char × String → Bool}
    (h : ∀ x : String, pr (ch, x) = true) :
    ∀ (xs : List String), (xs.map (fun x => (ch, x))).countP pr = xs.length := by
  intro xs
  induction xs with
  | nil => rfl
  | cons x xs ih =>
    rw [List.map_cons, List.countP_cons, ih, h x, if_pos rfl, List.length_cons]

lemma countP_map_const_false (ch : Char) {pr : Char × String → Bool}
    (h : ∀ x : String, pr (ch, x) = false) :
    ∀ (xs : List String), (xs.map (fun x => (ch, x))).countP pr = 0 := by
  intro xs
  induction xs with
  | nil => rfl
  | cons x xs ih =>
    rw [List.map_cons, List.countP_cons, ih, h x, if_neg Bool.false_ne_true]

lemma renderPairs_counts (a b : List String) :
    ∀ {l : List Opcode} {c e : Nat × Nat}, OChain a b c l e →
      ((l.flatMap (renderPairs a b)).countP (fun p => decide (p.1 = '-' ∨ p.1 = ' '))
          = e.1 - c.1) ∧
      ((l.flatMap (renderPairs a b)).countP (fun p => decide (p.1 = '+' ∨ p.1 = ' '))
          = e.2 - c.2) ∧
      (∀ p ∈ l.flatMap (renderPairs a b), p.1 = ' ' ∨ p.1 = '-' ∨ p.1 = '+') := by
  intro l c e h
  induction h with
  | nil c =>
    refine ⟨by simp, by simp, ?_⟩
    intro p hp
    exact absurd hp (by simp)
  | cons tg i2 j2 c rest e hla hlb hc1 hc2 heq hrep hdel hins hrest ih =>
    have hcur := OChain_cursor_le a b hrest
    have hcur1 : i2 ≤ e.1 := hcur.1
    have hcur2 : j2 ≤ e.2 := hcur.2
    have hlenA : (pySlice a c.1 i2).length = i2 - c.1 := pySlice_length a c.1 i2 hla
    have hlenB : (pySlice b c.2 j2).length = j2 - c.2 := pySlice_length b c.2 j2 hlb
    rw [List.flatMap_cons]
    cases tg with
    | equal =>
      have hpairs : renderPairs a b ⟨DTag.equal, c.1, i2, c.2, j2⟩
          = (pySlice a c.1 i2).map (fun x => (' ', x)) := rfl
      rw [hpairs]
      have hlenEq : i2 - c.1 = j2 - c.2 := by
        have hcl := congrArg List.length (heq rfl).1
        rw [hlenA, hlenB] at hcl
        exact hcl
      refine ⟨?_, ?_, ?_⟩
      · rw [List.countP_append, countP_map_const_true ' ' (fun x => rfl) _, ih.1, hlenA]
        omega
      · rw [List.countP_append, countP_map_const_true ' ' (fun x => rfl) _, ih.2.1, hlenA,
          hlenEq]
        omega
      · intro p hp
        rcases List.mem_append.mp hp with hp | hp
        · obtain ⟨x, _, hx⟩ := List.mem_map.mp hp
          rw [← hx]
          left
          rfl
        · exact ih.2.2 p hp
    | replace =>
      have hpairs : renderPairs a b ⟨DTag.replace, c.1, i2, c.2, j2⟩
          = (pySlice a c.1 i2).map (fun x => ('-', x))
            ++ (pySlice b c.2 j2).map (fun x => ('+', x)) := rfl
      rw [hpairs, List.append_assoc]
      refine ⟨?_, ?_, ?_⟩
      · rw [List.countP_append, countP_map_const_true '-' (fun x => rfl) _,
          List.countP_append, countP_map_const_false '+' (fun x => rfl) _, ih.1, hlenA]
        omega
      · rw [List.countP_append, countP_map_const_false '-' (fun x => rfl) _,
          List.countP_append, countP_map_const_true '+' (fun x => rfl) _, ih.2.1, hlenB]
        omega
      · intro p hp
        rcases List.mem_append.mp hp with hp | hp
        · obtain ⟨x, _, hx⟩ := List.mem_map.mp hp
          rw [← hx]
          right
          left
          rfl
        · rcases List.mem_append.mp hp with hp | hp
          · obtain ⟨x, _, hx⟩ := List.mem_map.mp hp
            rw [← hx]
            right
            right
            rfl
          · exact ih.2.2 p hp
    | delete =>
      have hpairs : renderPairs a b ⟨DTag.delete, c.1, i2, c.2, j2⟩
          = (pySlice a c.1 i2).map (fun x => ('-', x)) := rfl
      rw [hpairs]
      have hj : c.2 = j2 := (hdel rfl).2
      refine ⟨?_, ?_, ?_⟩
      · rw [List.countP_append, countP_map_const_true '-' (fun x => rfl) _, ih.1, hlenA]
        omega
      · rw [List.countP_append, countP_map_const_false '-' (fun x => rfl) _, ih.2.1]
        omega
      · intro p hp
        rcases List.mem_append.mp hp with hp | hp
        · obtain ⟨x, _, hx⟩ := List.mem_map.mp hp
          rw [← hx]
          right
          left
          rfl
        · exact ih.2.2 p hp
    | insert =>
      have hpairs : renderPairs a b ⟨DTag.insert, c.1, i2, c.2, j2⟩
          = (pySlice b c.2 j2).map (fun x => ('+', x)) := rfl
      rw [hpairs]
      have hi : c.1 = i2 := (hins rfl).1
      refine ⟨?_, ?_, ?_⟩
      · rw [List.countP_append, countP_map_const_false '+' (fun x => rfl) _, ih.1]
        omega
      · rw [List.countP_append, countP_map_const_true '+' (fun x => rfl) _, ih.2.1, hlenB]
        omega
      · intro p hp
        rcases List.mem_append.mp hp with hp | hp
        · obtain ⟨x, _, hx⟩ := List.mem_map.mp hp
          rw [← hx]
          right
          right
          rfl
        · exact ih.2.2 p hp

lemma applyHunkBody_cons (c : Char) (v : String) (ls : List (Char × String))
    (src : List String) :
    applyHunkBody ((c, v) :: ls) src
      = if c = ' ' then
          match src with
          | s :: src2 =>
            if s = v then (applyHunkBody ls src2).map (fun p => (v :: p.1, p.2)) else none
          | [] => none
        else if c = '-' then
          match src with
          | s :: src2 => if s = v then applyHunkBody ls src2 else none
          | [] => none
        else if c = '+' then (applyHunkBody ls src).map (fun p => (v :: p.1, p.2))
        else applyHunkBody ls src := rfl

lemma applyHunkBody_ctx : ∀ (xs s : List String),
    applyHunkBody (xs.map (fun x => (' ', x))) (xs ++ s) = some (xs, s) := by
  intro xs
  induction xs with
  | nil => intro s; rfl
  | cons x xs ih =>
    intro s
    rw [List.map_cons, List.cons_append, applyHunkBody_cons, if_pos rfl]
    show (if x = x then (applyHunkBody (xs.map (fun x => (' ', x))) (xs ++ s)).map
        (fun p => (x :: p.1, p.2)) else none) = some (x :: xs, s)
    rw [if_pos rfl, ih s]
    rfl

lemma applyHunkBody_del : ∀ (xs s : List String),
    applyHunkBody (xs.map (fun x => ('-', x))) (xs ++ s) = some ([], s) := by
  intro xs
  induction xs with
  | nil => intro s; rfl
  | cons x xs ih =>
    intro s
    rw [List.map_cons, List.cons_append, applyHunkBody_cons, if_neg (by decide),
      if_pos rfl]
    show (if x = x then applyHunkBody (xs.map (fun x => ('-', x))) (xs ++ s) else none)
      = some ([], s)
    rw [if_pos rfl, ih s]

lemma applyHunkBody_add : ∀ (ys src : List String),
    applyHunkBody (ys.map (fun x => ('+', x))) src = some (ys, src) := by
  intro ys
  induction ys with
  | nil => intro src; rfl
  | cons y ys ih =>
    intro src
    rw [List.map_cons, applyHunkBody_cons, if_neg (by decide), if_neg (by decide),
      if_pos rfl, ih src]
    rfl

lemma applyHunkBody_append :
    ∀ (p1 : List (Char × String)) (src o1 s1 : List String),
      applyHunkBody p1 src = some (o1, s1) → ∀ (p2 : List (Char × String)),
      applyHunkBody (p1 ++ p2) src
        = (applyHunkBody p2 s1).map (fun q => (o1 ++ q.1, q.2)) := by
  intro p1
  induction p1 with
  | nil =>
    intro src o1 s1 h p2
    have h2 : (some (([] : List String), src)) = some (o1, s1) := h
    injection h2 with h3
    have ho : o1 = [] := (congrArg Prod.fst h3).symm
    have hs1 : s1 = src := (congrArg Prod.snd h3).symm
    rw [List.nil_append, ho, ← hs1]
    cases applyHunkBody p2 s1 with
    | none => rfl
    | some q => simp
  | cons pr p1 ih =>
    intro src o1 s1 h p2
    obtain ⟨c, v⟩ := pr
    by_cases hc1 : c = ' '
    · subst hc1
      cases src with
      | nil =>
        rw [show applyHunkBody ((' ', v) :: p1) [] = none from rfl] at h
        exact Option.noConfusion h
      | cons s0 src2 =>
        have hred : applyHunkBody ((' ', v) :: p1) (s0 :: src2)
            = if s0 = v then (applyHunkBody p1 src2).map (fun p => (v :: p.1, p.2))
              else none := rfl
        have hred2 : applyHunkBody (((' ', v) :: p1) ++ p2) (s0 :: src2)
            = if s0 = v then (applyHunkBody (p1 ++ p2) src2).map (fun p => (v :: p.1, p.2))
              else none := rfl
        rw [hred] at h
        rw [hred2]
        by_cases hsv : s0 = v
        · rw [if_pos hsv] at h ⊢
          cases hin : applyHunkBody p1 src2 with
          | none =>
            rw [hin] at h
            exact Option.noConfusion h
          | some q =>
            rw [hin] at h
            simp only [Option.map_some'] at h
            injection h with h3
            have ho : o1 = v :: q.1 := (congrArg Prod.fst h3).symm
            have hs1 : s1 = q.2 := (congrArg Prod.snd h3).symm
            subst ho
            subst hs1
            rw [ih src2 q.1 q.2 hin p2]
            cases applyHunkBody p2 q.2 with
            | none => rfl
            | some q2 => simp
        · rw [if_neg hsv] at h
          exact Option.noConfusion h
    · by_cases hc2 : c = '-'
      · subst hc2
        cases src with
        | nil =>
          rw [show applyHunkBody (('-', v) :: p1) [] = none from rfl] at h
          exact Option.noConfusion h
        | cons s0 src2 =>
          have hred : applyHunkBody (('-', v) :: p1) (s0 :: src2)
              = if s0 = v then applyHunkBody p1 src2 else none := rfl
          have hred2 : applyHunkBody ((('-', v) :: p1) ++ p2) (s0 :: src2)
              = if s0 = v then applyHunkBody (p1 ++ p2) src2 else none := rfl
          rw [hred] at h
          rw [hred2]
          by_cases hsv : s0 = v
          · rw [if_pos hsv] at h ⊢
            exact ih src2 o1 s1 h p2
          · rw [if_neg hsv] at h
            exact Option.noConfusion h
      · by_cases hc3 : c = '+'
        · subst hc3
          have hred : applyHunkBody (('+', v) :: p1) src
              = (applyHunkBody p1 src).map (fun p => (v :: p.1, p.2)) := rfl
          have hred2 : applyHunkBody ((('+', v) :: p1) ++ p2) src
              = (applyHunkBody (p1 ++ p2) src).map (fun p => (v :: p.1, p.2)) := rfl
          rw [hred] at h
          rw [hred2]
          cases hin : applyHunkBody p1 src with
          | none =>
            rw [hin] at h
            exact Option.noConfusion h
          | some q =>
            rw [hin] at h
            simp only [Option.map_some'] at h
            injection h with h3
            have ho : o1 = v :: q.1 := (congrArg Prod.fst h3).symm
            have hs1 : s1 = q.2 := (congrArg Prod.snd h3).symm
            subst ho
            subst hs1
            rw [ih src q.1 q.2 hin p2]
            cases applyHunkBody p2 q.2 with
            | none => rfl
            | some q2 => simp
        · have hred : applyHunkBody ((c, v) :: p1) src = applyHunkBody p1 src := by
            rw [applyHunkBody_cons, if_neg hc1, if_neg hc2, if_neg hc3]
          have hred2 : applyHunkBody (((c, v) :: p1) ++ p2) src
              = applyHunkBody (p1 ++ p2) src := by
            rw [List.cons_append, applyHunkBody_cons, if_neg hc1, if_neg hc2, if_neg hc3]
          rw [hred] at h
          rw [hred2]
          exact ih src o1 s1 h p2

lemma applyHunkBody_chain (a b : List String) :
    ∀ {l : List Opcode} {c e : Nat × Nat}, OChain a b c l e →
      applyHunkBody (l.flatMap (renderPairs a b)) (pySlice a c.1 a.length)
        = some (pySlice b c.2 e.2, pySlice a e.1 a.length) := by
  intro l c e h
  induction h with
  | nil c =>
    show some (([] : List String), pySlice a c.1 a.length) = _
    rw [pySlice_nil]
  | cons tg i2 j2 c rest e hla hlb hc1 hc2 heq hrep hdel hins hrest ih =>
    have hcur := OChain_cursor_le a b hrest
    have hcur2 : j2 ≤ e.2 := hcur.2
    have hsplitA : pySlice a c.1 a.length = pySlice a c.1 i2 ++ pySlice a i2 a.length :=
      (pySlice_append a c.1 i2 a.length hc1 hla).symm
    rw [List.flatMap_cons]
    cases tg with
    | equal =>
      have hpairs : renderPairs a b ⟨DTag.equal, c.1, i2, c.2, j2⟩
          = (pySlice a c.1 i2).map (fun x => (' ', x)) := rfl
      rw [hpairs, hsplitA]
      rw [applyHunkBody_append _ _ _ _
        (applyHunkBody_ctx (pySlice a c.1 i2) (pySlice a i2 a.length)) _]
      rw [ih]
      simp only [Option.map_some']
      rw [show pySlice a c.1 i2 = pySlice b c.2 j2 from (heq rfl).1]
      rw [pySlice_append b c.2 j2 e.2 hc2 hcur2]
    | replace =>
      have hpairs : renderPairs a b ⟨DTag.replace, c.1, i2, c.2, j2⟩
          = (pySlice a c.1 i2).map (fun x => ('-', x))
            ++ (pySlice b c.2 j2).map (fun x => ('+', x)) := rfl
      rw [hpairs, hsplitA, List.append_assoc]
      rw [applyHunkBody_append _ _ _ _
        (applyHunkBody_del (pySlice a c.1 i2) (pySlice a i2 a.length)) _]
      rw [applyHunkBody_append _ _ _ _
        (applyHunkBody_add (pySlice b c.2 j2) (pySlice a i2 a.length)) _]
      rw [ih]
      simp only [Option.map_some', List.nil_append]
      rw [pySlice_append b c.2 j2 e.2 hc2 hcur2]
    | delete =>
      have hpairs : renderPairs a b ⟨DTag.delete, c.1, i2, c.2, j2⟩
          = (pySlice a c.1 i2).map (fun x => ('-', x)) := rfl
      rw [hpairs, hsplitA]
      rw [applyHunkBody_append _ _ _ _
        (applyHunkBody_del (pySlice a c.1 i2) (pySlice a i2 a.length)) _]
      rw [ih]
      simp only [Option.map_some', List.nil_append]
      rw [show c.2 = j2 from (hdel rfl).2]
    | insert =>
      have hpairs : renderPairs a b ⟨DTag.insert, c.1, i2, c.2, j2⟩
          = (pySlice b c.2 j2).map (fun x => ('+', x)) := rfl
      have hci : c.1 = i2 := (hins rfl).1
      rw [hpairs]
      rw [applyHunkBody_append _ _ _ _
        (applyHunkBody_add (pySlice b c.2 j2) (pySlice a c.1 a.length)) _]
      rw [hci, ih]
      simp only [Option.map_some']
      rw [pySlice_append b c.2 j2 e.2 hc2 hcur2]

lemma applyHunks_single (ss sl ts tl : Nat) (lines : List (Char × String))
    (src : List String) (hss : (if sl = 0 then ss else ss - 1) = 0) :
    applyHunks [⟨ss, sl, ts, tl, lines⟩] src 0
      = match applyHunkBody lines src with
        | none => none
        | some out => some (out.1 ++ out.2) := by
  show (if (if sl = 0 then ss else ss - 1) < 0 then none
    else if src.length < (if sl = 0 then ss else ss - 1) - 0 then none
    else match applyHunkBody lines (src.drop ((if sl = 0 then ss else ss - 1) - 0)) with
    | none => none
    | some out =>
      (applyHunks [] out.2 ((if sl = 0 then ss else ss - 1) + sl)).map
        (fun tailOut => src.take ((if sl = 0 then ss else ss - 1) - 0) ++ out.1 ++ tailOut))
    = _
  rw [hss]
  rw [if_neg (by omega), if_neg (by omega)]
  rw [show (0 : Nat) - 0 = 0 from rfl, List.drop_zero, List.take_zero]
  cases applyHunkBody lines src with
  | none => rfl
  | some out =>
    show ((some out.2).map (fun tailOut => [] ++ out.1 ++ tailOut)) = some (out.1 ++ out.2)
    simp

lemma natRepr_chars (n : Nat) : ∀ c ∈ (natRepr n).data, c.isDigit = true := by
  intro c hc
  exact (natDigitsF_spec (n + 1) n (by omega)).2.1 c hc

lemma fmt_no_newline (len : Nat) :
    ∀ c ∈ (format_range_unified 0 len).data, ¬(c = '\n') := by
  have hfmt : format_range_unified 0 len
      = if len = 1 then natRepr 1
        else natRepr (if len = 0 then 0 else 1) ++ "," ++ natRepr len := rfl
  rw [hfmt]
  by_cases h1 : len = 1
  · rw [if_pos h1]
    intro c hc hcn
    have hd := natRepr_chars 1 c hc
    rw [hcn] at hd
    exact absurd hd (by decide)
  · rw [if_neg h1]
    intro c hc hcn
    rw [String.data_append, String.data_append] at hc
    rcases List.mem_append.mp hc with hc2 | hc2
    · rcases List.mem_append.mp hc2 with hc3 | hc3
      · have hd := natRepr_chars _ c hc3
        rw [hcn] at hd
        exact absurd hd (by decide)
      · have hcc : c = ',' := by simpa using hc3
        rw [hcc] at hcn
        exact absurd hcn (by decide)
    · have hd := natRepr_chars _ c hc2
      rw [hcn] at hd
      exact absurd hd (by decide)

lemma flatMap_congr_fn {α β : Type} (l : List α) (f g : α → List β)
    (h : ∀ x ∈ l, f x = g x) : l.flatMap f = l.flatMap g := by
  induction l with
  | nil => rfl
  | cons x xs ih =>
    rw [List.flatMap_cons, List.flatMap_cons, h x (List.mem_cons_self _ _),
      ih (fun y hy => h y (List.mem_cons_of_mem _ hy))]

lemma applyUnifiedDiff_ok_single (diff source : String) (f : PatchedFile)
    (h : parsePatchSet diff = Except.ok [f]) :
    applyUnifiedDiff diff source
      = (applyHunks f.hunks (splitNL source) 0).map String.join := by
  unfold applyUnifiedDiff
  rw [h]

lemma applyUnifiedDiff_empty (diff source : String)
    (h : parsePatchSet diff = Except.ok []) :
    applyUnifiedDiff diff source = some source := by
  unfold applyUnifiedDiff
  rw [h]

lemma roundtrip_core (a b : List String) (a_path b_path : String)
    (hArows : ∀ x ∈ a, ∃ u, x.data = u ++ ['\n'] ∧ '\n' ∉ u)
    (hBrows : ∀ x ∈ b, ∃ u, x.data = u ++ ['\n'] ∧ '\n' ∉ u)
    (hpa1 : a_path.data ≠ []) (hpa2 : '\t' ∉ a_path.data) (hpa3 : '\n' ∉ a_path.data)
    (hpb1 : b_path.data ≠ []) (hpb2 : '\t' ∉ b_path.data) (hpb3 : '\n' ∉ b_path.data)
    (hne : a ≠ b) (n : Nat) (hna : a.length ≤ n) (hnb : b.length ≤ n) :
    applyUnifiedDiff (String.join (unified_diff a b a_path b_path n)) (String.join a)
      = some (String.join b) := by
  have hch := get_opcodes_chain a b
  have hcodes_ne := get_opcodes_ne_nil a b hne
  have hud := unified_diff_ne a b a_path b_path n hna hnb hne
  obtain ⟨op0, rest0, hcodes⟩ : ∃ op0 rest0, get_opcodes a b = op0 :: rest0 := by
    cases hcg : get_opcodes a b with
    | nil => exact absurd hcg hcodes_ne
    | cons x xs => exact ⟨x, xs, rfl⟩
  have hchc := hch
  rw [hcodes] at hchc
  obtain ⟨hi1, hj1, _⟩ := OChain_cons_inv a b hchc
  have hlast := OChain_getLastD a b hch hcodes_ne
  have hhd1 : ((get_opcodes a b).headD default).i1 = 0 := by
    rw [hcodes, List.headD_cons]
    exact hi1
  have hhd2 : ((get_opcodes a b).headD default).j1 = 0 := by
    rw [hcodes, List.headD_cons]
    exact hj1
  have hbody : (get_opcodes a b).flatMap (renderOpcode a b)
      = ((get_opcodes a b).flatMap (renderPairs a b)).map
          (fun p => String.mk (p.1 :: p.2.data)) := by
    rw [List.map_flatMap]
    exact flatMap_congr_fn _ _ _ (fun op _ => renderOpcode_pairs a b op)
  have hgroup : renderGroup a b (get_opcodes a b)
      = ("@@ -" ++ format_range_unified 0 a.length ++ " +"
          ++ format_range_unified 0 b.length ++ " @@\n")
        :: ((get_opcodes a b).flatMap (renderPairs a b)).map
            (fun p => String.mk (p.1 :: p.2.data)) := by
    have hl1 : ((get_opcodes a b).getLastD default).i2 = a.length := hlast.1
    have hl2 : ((get_opcodes a b).getLastD default).j2 = b.length := hlast.2
    unfold renderGroup
    rw [hhd1, hhd2, hl1, hl2, hbody]
  have hlines : unified_diff a b a_path b_path n
      = ("--- " ++ a_path ++ "\n") :: ("+++ " ++ b_path ++ "\n")
        :: ("@@ -" ++ format_range_unified 0 a.length ++ " +"
            ++ format_range_unified 0 b.length ++ " @@\n")
        :: ((get_opcodes a b).flatMap (renderPairs a b)).map
            (fun p => String.mk (p.1 :: p.2.data)) := by
    rw [hud, hgroup]
  have hcounts := renderPairs_counts a b hch
  have hallNL : ∀ x ∈ unified_diff a b a_path b_path n,
      ∃ u, x.data = u ++ ['\n'] ∧ '\n' ∉ u := by
    rw [hlines]
    intro x hx
    rcases List.mem_cons.mp hx with hx | hx
    · subst hx
      refine ⟨['-', '-', '-', ' '] ++ a_path.data, ?_, ?_⟩
      · rw [String.data_append, String.data_append]
      · intro hmem
        rcases List.mem_append.mp hmem with h | h
        · exact absurd h (by decide)
        · exact hpa3 h
    · rcases List.mem_cons.mp hx with hx | hx
      · subst hx
        refine ⟨['+', '+', '+', ' '] ++ b_path.data, ?_, ?_⟩
        · rw [String.data_append, String.data_append]
        · intro hmem
          rcases List.mem_append.mp hmem with h | h
          · exact absurd h (by decide)
          · exact hpb3 h
      · rcases List.mem_cons.mp hx with hx | hx
        · subst hx
          refine ⟨['@', '@', ' ', '-'] ++ (format_range_unified 0 a.length).data
            ++ [' ', '+'] ++ (format_range_unified 0 b.length).data
            ++ [' ', '@', '@'], ?_, ?_⟩
          · rw [String.data_append, String.data_append, String.data_append,
              String.data_append]
            rw [show ("@@ -" : String).data = ['@', '@', ' ', '-'] from rfl,
              show (" +" : String).data = [' ', '+'] from rfl,
              show (" @@\n" : String).data = [' ', '@', '@'] ++ ['\n'] from rfl]
            simp [List.append_assoc]
          · intro hmem
            rcases List.mem_append.mp hmem with h | h
            · rcases List.mem_append.mp h with h | h
              · rcases List.mem_append.mp h with h | h
                · rcases List.mem_append.mp h with h | h
                  · exact absurd h (by decide)
                  · exact fmt_no_newline a.length '\n' h rfl
                · exact absurd h (by decide)
              · exact fmt_no_newline b.length '\n' h rfl
            · exact absurd h (by decide)
        · obtain ⟨p, hp, hpx⟩ := List.mem_map.mp hx
          subst hpx
          have hmark := hcounts.2.2 p hp
          have hval : p.2 ∈ a ∨ p.2 ∈ b := by
            obtain ⟨op, _, hpin⟩ := List.mem_flatMap.mp hp
            obtain ⟨tg, i1, i2, j1, j2⟩ := op
            cases tg with
            | equal =>
              rw [show renderPairs a b ⟨DTag.equal, i1, i2, j1, j2⟩
                  = (pySlice a i1 i2).map (fun l => (' ', l)) from rfl] at hpin
              obtain ⟨y, hy, hpy⟩ := List.mem_map.mp hpin
              rw [← hpy]
              exact Or.inl (pySlice_subset a i1 i2 y hy)
            | replace =>
              rw [show renderPairs a b ⟨DTag.replace, i1, i2, j1, j2⟩
                  = (pySlice a i1 i2).map (fun l => ('-', l))
                    ++ (pySlice b j1 j2).map (fun l => ('+', l)) from rfl] at hpin
              rcases List.mem_append.mp hpin with h | h
              · obtain ⟨y, hy, hpy⟩ := List.mem_map.mp h
                rw [← hpy]
                exact Or.inl (pySlice_subset a i1 i2 y hy)
              · obtain ⟨y, hy, hpy⟩ := List.mem_map.mp h
                rw [← hpy]
                exact Or.inr (pySlice_subset b j1 j2 y hy)
            | delete =>
              rw [show renderPairs a b ⟨DTag.delete, i1, i2, j1, j2⟩
                  = (pySlice a i1 i2).map (fun l => ('-', l)) from rfl] at hpin
              obtain ⟨y, hy, hpy⟩ := List.mem_map.mp hpin
              rw [← hpy]
              exact Or.inl (pySlice_subset a i1 i2 y hy)
            | insert =>
              rw [show renderPairs a b ⟨DTag.insert, i1, i2, j1, j2⟩
                  = (pySlice b j1 j2).map (fun l => ('+', l)) from rfl] at hpin
              obtain ⟨y, hy, hpy⟩ := List.mem_map.mp hpin
              rw [← hpy]
              exact Or.inr (pySlice_subset b j1 j2 y hy)
          obtain ⟨u, hu, hnu⟩ : ∃ u, p.2.data = u ++ ['\n'] ∧ '\n' ∉ u := by
            rcases hval with h | h
            · exact hArows p.2 h
            · exact hBrows p.2 h
          refine ⟨p.1 :: u, ?_, ?_⟩
          · show (p.1 :: p.2.data) = (p.1 :: u) ++ ['\n']
            rw [hu]
            rfl
          · intro hmem
            rcases List.mem_cons.mp hmem with h | h
            · rcases hmark with hm | hm | hm <;>
                (rw [hm] at h; exact absurd h (by decide))
            · exact hnu h
  have hsplit : splitNL (String.join (unified_diff a b a_path b_path n))
      = unified_diff a b a_path b_path n := splitNL_join _ hallNL
  have hcS : ((get_opcodes a b).flatMap (renderPairs a b)).countP
      (fun p => decide (p.1 = '-' ∨ p.1 = ' ')) = a.length := hcounts.1
  have hcT : ((get_opcodes a b).flatMap (renderPairs a b)).countP
      (fun p => decide (p.1 = '+' ∨ p.1 = ' ')) = b.length := hcounts.2.1
  have hpne : (get_opcodes a b).flatMap (renderPairs a b) ≠ [] := by
    intro hemp
    rw [hemp] at hcS hcT
    simp only [List.countP_nil] at hcS hcT
    apply hne
    rw [List.length_eq_zero.mp hcS.symm, List.length_eq_zero.mp hcT.symm]
  have hsArg : (if a.length = 0 then 0 else 1)
      + ((get_opcodes a b).flatMap (renderPairs a b)).countP
        (fun p => decide (p.1 = '-' ∨ p.1 = ' '))
      = (if a.length = 0 then 0 else 1) + a.length := by
    rw [hcS]
  have htArg : (if b.length = 0 then 0 else 1)
      + ((get_opcodes a b).flatMap (renderPairs a b)).countP
        (fun p => decide (p.1 = '+' ∨ p.1 = ' '))
      = (if b.length = 0 then 0 else 1) + b.length := by
    rw [hcT]
  have hparse : parsePatchSet (String.join (unified_diff a b a_path b_path n))
      = Except.ok [⟨some a_path, some b_path,
          [⟨(if a.length = 0 then 0 else 1), a.length,
            (if b.length = 0 then 0 else 1), b.length,
            (get_opcodes a b).flatMap (renderPairs a b)⟩]⟩] := by
    unfold parsePatchSet
    rw [hsplit, hlines]
    rw [parse_step_src a_path hpa1 hpa2 hpa3 _ _ _ _]
    rw [parse_step_tgt b_path hpb1 hpb2 hpb3 _ _ _]
    rw [parse_step_hdr a.length b.length _ _ _ _]
    rw [show ((get_opcodes a b).flatMap (renderPairs a b)).map
          (fun p => String.mk (p.1 :: p.2.data))
        = ((get_opcodes a b).flatMap (renderPairs a b)).map
          (fun p => String.mk (p.1 :: p.2.data)) ++ ([] : List String) from
      (List.append_nil _).symm]
    rw [parse_body _ _ _ _ _ _ _ _ _ _ _ _ hcounts.2.2 hsArg htArg hpne]
    rw [parsePSAux_nil_top]
    simp
  have hstart : (if a.length = 0 then (if a.length = 0 then 0 else 1)
      else (if a.length = 0 then 0 else 1) - 1) = 0 := by
    by_cases h0 : a.length = 0 <;> simp [h0]
  have happly2 : applyHunkBody ((get_opcodes a b).flatMap (renderPairs a b)) a
      = some (b, []) := by
    have h0 := applyHunkBody_chain a b hch
    have h1 : applyHunkBody ((get_opcodes a b).flatMap (renderPairs a b))
        (pySlice a 0 a.length)
        = some (pySlice b 0 b.length, pySlice a a.length a.length) := h0
    rw [pySlice_all, pySlice_all, pySlice_nil] at h1
    exact h1
  rw [applyUnifiedDiff_ok_single _ _ _ hparse]
  rw [show (⟨some a_path, some b_path,
      [⟨(if a.length = 0 then 0 else 1), a.length,
        (if b.length = 0 then 0 else 1), b.length,
        (get_opcodes a b).flatMap (renderPairs a b)⟩]⟩ : PatchedFile).hunks
    = [⟨(if a.length = 0 then 0 else 1), a.length,
        (if b.length = 0 then 0 else 1), b.length,
        (get_opcodes a b).flatMap (renderPairs a b)⟩] from rfl]
  rw [splitNL_join a hArows]
  rw [applyHunks_single (if a.length = 0 then 0 else 1) a.length
    (if b.length = 0 then 0 else 1) b.length
    ((get_opcodes a b).flatMap (renderPairs a b)) a hstart]
  rw [happly2]
  show (some ((b, ([] : List String)).1 ++ (b, ([] : List String)).2)).map String.join
    = some (String.join b)
  simp

/-- C2: `generate_function_unified_diff(pre, post, a, b)` emits a unified
diff that, applied to `pre_text`, reproduces `post_text` — amended: this
holds when every `splitlines(keepends=True)` line of both texts is
newline-terminated with no interior newline (in particular when both texts
end in `'\n'` and use only `'\n'` line breaks) and both paths are nonempty
without newline or tab characters.  Without the termination proviso the
claim fails: see the counterexample theorem. -/
theorem claim_C2_roundtrip (pre_text post_text a_path b_path : String)
    (hpre : ∀ x ∈ pySplitlines pre_text, ∃ u, x.data = u ++ ['\n'] ∧ '\n' ∉ u)
    (hpost : ∀ x ∈ pySplitlines post_text, ∃ u, x.data = u ++ ['\n'] ∧ '\n' ∉ u)
    (hpa1 : a_path.data ≠ []) (hpa2 : '\t' ∉ a_path.data) (hpa3 : '\n' ∉ a_path.data)
    (hpb1 : b_path.data ≠ []) (hpb2 : '\t' ∉ b_path.data) (hpb3 : '\n' ∉ b_path.data) :
    applyUnifiedDiff (generate_function_unified_diff pre_text post_text a_path b_path)
      pre_text = some post_text := by
  by_cases heq : pre_text = post_text
  · subst heq
    rw [gen_self]
    exact applyUnifiedDiff_empty "" pre_text rfl
  · have hne' : pySplitlines pre_text ≠ pySplitlines post_text :=
      fun h => heq (pySplitlines_inj pre_text post_text h)
    have hmain := roundtrip_core (pySplitlines pre_text) (pySplitlines post_text)
      a_path b_path hpre hpost hpa1 hpa2 hpa3 hpb1 hpb2 hpb3 hne'
      (max (pySplitlines pre_text).length (pySplitlines post_text).length)
      (Nat.le_max_left _ _) (Nat.le_max_right _ _)
    rw [join_splitlines, join_splitlines] at hmain
    exact hmain

/-- Counterexample to C2 as stated for all inputs: when `pre_text` lacks a
trailing newline, `splitlines(keepends=True)` leaves its last line
unterminated, `''.join` merges it with the following `+` line into one
physical diff line, and the unidiff parser then rejects the hunk
("Hunk is shorter than expected"), so applying the generated diff cannot
reproduce `post_text`. -/
theorem claim_C2_roundtrip_counterexample :
    applyUnifiedDiff (generate_function_unified_diff "a" "b\n" "f" "g") "a" = none ∧
    (none : Option String) ≠ some "b\n" :=
  ⟨by decide, by decide⟩

/-- Witness for C2 (amended): the round trip at `"old\n"` → `"new1\nnew2\n"`. -/
theorem claim_C2_roundtrip_witness :
    applyUnifiedDiff (generate_function_unified_diff "old\n" "new1\nnew2\n" "f" "g")
      "old\n" = some "new1\nnew2\n" :=
  claim_C2_roundtrip "old\n" "new1\nnew2\n" "f" "g"
    (by
      intro x hx
      rw [show pySplitlines "old\n" = ["old\n"] from rfl, List.mem_singleton] at hx
      subst hx
      exact ⟨['o', 'l', 'd'], rfl, by decide⟩)
    (by
      intro x hx
      rw [show pySplitlines "new1\nnew2\n" = ["new1\n", "new2\n"] from rfl] at hx
      rcases List.mem_cons.mp hx with h | h
      · subst h
        exact ⟨['n', 'e', 'w', '1'], rfl, by decide⟩
      · rw [List.mem_singleton] at h
        subst h
        exact ⟨['n', 'e', 'w', '2'], rfl, by decide⟩)
    (by decide) (by decide) (by decide) (by decide) (by decide) (by decide)

end Diffops
